import Mathlib

/-!
# Shotcut `MltXmlChecker`: a shallow embedding of `src/mltxmlchecker.cpp`

The checker is a single forward pass over the tokens of an MLT XML project
file.  It copies every token to a second XML stream and, on the way, repairs
a few fields: numeric values written with a foreign decimal separator, the
path of bundled WebVFX resources, and references to media files that are
missing on disk.

Modelling choices.

* A `QString` is a list of characters; `QStringRef` and `QString` are not
  distinguished.
* The `QXmlStreamReader` is the list of the tokens it has still to deliver,
  together with its error flag.  The `QXmlStreamWriter` is the trace of the
  calls made on it, in order.
* Everything the checker asks of its platform (the locale's decimal point,
  the file system, the application directory, the MLT repository) is a field
  of `Env`.
* `MltXmlChecker::readMlt` is a `while` loop; it is embedded as a step
  function (`readMltStep`, one pass through the loop body) iterated with
  fuel, and `readMlt_atEnd` shows that the fuel given by `readMlt` is enough.
-/

namespace Shotcut

abbrev QString := List Char

/-! ## QString operations used by the checker -/

/-- The call `s.contains(c)` for a `QChar` argument. -/
def contains (s : QString) (c : Char) : Bool := s.any (fun ch => ch == c)

/-- The call `s.replace(before, after)` for `QChar` arguments: every
occurrence of `before` becomes `after`. -/
def replaceChar (before after : Char) (s : QString) : QString :=
  s.map (fun ch => if ch = before then after else ch)

/-- The call `s.startsWith(p)`. -/
def startsWith : QString → QString → Bool
  | _, [] => true
  | [], _ :: _ => false
  | a :: s, b :: p => a == b && startsWith s p

/-- The call `s.indexOf(needle)`: the position of the first occurrence, `none`
standing for the `-1` of Qt. -/
def indexOf (needle : QString) : QString → Option Nat
  | [] => if needle = [] then some 0 else none
  | c :: s =>
    if startsWith (c :: s) needle then some 0
    else (indexOf needle s).map (· + 1)

/-- The call `s.replace(0, n, after)`: the first `n` characters give way to
`after`. -/
def replaceFront (n : Nat) (after s : QString) : QString := after ++ s.drop n

/-- Modelled from the spec: `Util::baseName` (defined in `util.cpp`) gives
"the file's base name (no directory)" of a path: what follows its last
slash. -/
def baseName (p : QString) : QString :=
  p.foldl (fun acc ch => if ch = '/' then [] else acc ++ [ch]) []

/-! ## The XML streams -/

/-- One attribute of a start element, as `QXmlStreamAttribute` presents it. -/
structure QXmlStreamAttribute where
  namespaceUri : QString
  name : QString
  qualifiedName : QString
  value : QString
deriving DecidableEq, Repr

/-- The call `attributes.value(qualifiedName)`: the value of the first
attribute with that qualified name, empty if there is none. -/
def attrValue (attrs : List QXmlStreamAttribute) (qualifiedName : QString) : QString :=
  match attrs.find? (fun a => a.qualifiedName == qualifiedName) with
  | some a => a.value
  | none => []

/-- Tokens the reader delivers.  `Invalid` in the input marks the place where
the document stops being well formed. -/
inductive Token where
  | StartDocument (version : QString) (standalone : Bool)
  | EndDocument
  | StartElement (namespaceUri name : QString) (attributes : List QXmlStreamAttribute)
  | EndElement (name : QString)
  | Characters (text : QString)
  | Comment (text : QString)
  | DTD (text : QString)
  | EntityReference (name text : QString)
  | ProcessingInstruction (target data : QString)
  | Invalid
deriving DecidableEq, Repr

/-- Calls made on the `QXmlStreamWriter`. -/
inductive Out where
  | startDocument
  | startDocumentVersion (version : QString) (standalone : Bool)
  | endDocument
  | startElement (qualifiedName : QString)
  | startElementNS (namespaceUri name : QString)
  | endElement
  | attribute (a : QXmlStreamAttribute)
  | attributeQ (qualifiedName value : QString)
  | characters (text : QString)
  | comment (text : QString)
  | dtd (text : QString)
  | entityReference (name : QString)
  | processingInstruction (target data : QString)
deriving DecidableEq, Repr

/-- State of the `QXmlStreamReader`: the tokens still to come, whether an
error was raised, whether the `EndDocument` token was delivered. -/
structure QXmlStreamReader where
  tokens : List Token
  hasError : Bool
  atEndDocument : Bool
deriving DecidableEq, Repr

namespace QXmlStreamReader

/-- The call `atEnd()`: the document was read to its end or reading was
aborted by an error. -/
def atEnd (r : QXmlStreamReader) : Bool := r.hasError || r.atEndDocument

/-- The call `raiseError(..)`. -/
def raiseError (r : QXmlStreamReader) : QXmlStreamReader := { r with hasError := true }

/-- The call `readNext()`.  Running out of tokens is a premature end of the
document. -/
def readNext (r : QXmlStreamReader) : Token × QXmlStreamReader :=
  if r.hasError then (Token.Invalid, r)
  else
    match r.tokens with
    | [] => (Token.Invalid, r.raiseError)
    | Token.Invalid :: ts => (Token.Invalid, { r.raiseError with tokens := ts })
    | Token.EndDocument :: ts => (Token.EndDocument, { r with tokens := ts, atEndDocument := true })
    | t :: ts => (t, { r with tokens := ts })

/-- Loop of `readElementText()` over the tokens to come: the text gathered,
the tokens left, and whether the loop ended in an error. -/
def readElementTextAux (acc : QString) : List Token → QString × List Token × Bool
  | [] => (acc, [], true)
  | Token.Characters t :: ts => readElementTextAux (acc ++ t) ts
  | Token.EntityReference _ t :: ts => readElementTextAux (acc ++ t) ts
  | Token.EndElement _ :: ts => (acc, ts, false)
  | Token.ProcessingInstruction _ _ :: ts => readElementTextAux acc ts
  | Token.Comment _ :: ts => readElementTextAux acc ts
  | _ :: ts => (acc, ts, true)

/-- The call `readElementText()` (behaviour `ErrorOnUnexpectedElement`), made
while the reader stands on a start element: reads up to the matching end
element and returns the character data met; anything but character data,
entity references, comments and processing instructions raises an error. -/
def readElementText (r : QXmlStreamReader) : QString × QXmlStreamReader :=
  if r.hasError then ([], r)
  else
    match readElementTextAux [] r.tokens with
    | (text, rest, err) => (text, { r with tokens := rest, hasError := err })

/-- Loop of `readNextStartElement()`. -/
def readNextStartElementLoop :
    Nat → QXmlStreamReader → Option (QString × List QXmlStreamAttribute) × QXmlStreamReader
  | 0, r => (none, r)
  | n + 1, r =>
    match r.readNext with
    | (Token.Invalid, r1) => (none, r1)
    | (Token.EndElement _, r1) => (none, r1)
    | (Token.StartElement _ name attrs, r1) => (some (name, attrs), r1)
    | (_, r1) => readNextStartElementLoop n r1

/-- The call `readNextStartElement()`: reads up to the next start element
(giving its name and attributes) or stops at an end element or an error. -/
def readNextStartElement (r : QXmlStreamReader) :
    Option (QString × List QXmlStreamAttribute) × QXmlStreamReader :=
  readNextStartElementLoop (r.tokens.length + 1) r

end QXmlStreamReader

/-! ## The checker's data -/

/-- What the checker asks of its platform and of the rest of Shotcut. -/
structure Env where
  /-- Result of `QLocale::system().decimalPoint()`, kept in `m_decimalPoint`. -/
  decimalPoint : Char
  /-- Path of the application directory (`appPath.path()`). -/
  appPath : QString
  /-- Path held by a `QFileInfo` after `setFile(file)`. -/
  fileInfoPath : QString → QString
  /-- Path held by a `QFileInfo` after `setFile(dir, file)`. -/
  dirFilePath : QString → QString → QString
  /-- Result of `QFileInfo::isRelative()` for the path held. -/
  isRelative : QString → Bool
  /-- Result of `QFileInfo::exists()` for the path held. -/
  fileExists : QString → Bool
  /-- Result of `MLT.isAudioFilter(name)`. -/
  isAudioFilter : QString → Bool
  /-- Result of `QString::toUpper()`. -/
  toUpper : QString → QString
  /-- Constant `kShotcutHashProperty` of `shotcut_mlt_properties.h`. -/
  kShotcutHashProperty : QString
  /-- Constant `kShotcutCaptionProperty` of `shotcut_mlt_properties.h`. -/
  kShotcutCaptionProperty : QString
  /-- Constant `kShotcutDetailProperty` of `shotcut_mlt_properties.h`. -/
  kShotcutDetailProperty : QString

/-- The `m_service` record: the service whose element is being read.
`resource` is the path held by the `QFileInfo`. -/
structure MltProperty where
  name : QString
  resource : QString
  hash : QString
  newHash : QString
  newDetail : QString
deriving DecidableEq, Repr

/-- Modelled from the spec: `MltProperty::clear` (declared in
`mltxmlchecker.h`) clears the context: every field becomes empty. -/
def MltProperty.clear (_ : MltProperty) : MltProperty :=
  { name := [], resource := [], hash := [], newHash := [], newDetail := [] }

/-- One `QStandardItem` of the unlinked-files model: its text and the data
stored under `ShotcutHashRole`. -/
structure QStandardItem where
  text : QString
  hash : QString
deriving DecidableEq, Repr

/-- One row of `m_unlinkedFilesModel`: the item of the missing file (column
`MissingColumn`, the first one) and, once the caller chose one, the item of
its replacement (column `ReplacementColumn`). -/
structure Row where
  missing : QStandardItem
  replacement : Option QStandardItem
deriving DecidableEq, Repr

end Shotcut

/-- The members of `MltXmlChecker` that `check` reads or writes, with
`mlt_class`, the local variable of `readMlt`. -/
structure MltXmlChecker where
  needsGPU : Bool
  hasEffects : Bool
  isCorrected : Bool
  hasComma : Bool
  hasPeriod : Bool
  numericValueChanged : Bool
  basePath : Shotcut.QString
  service : Shotcut.MltProperty
  unlinkedFilesModel : List Shotcut.Row
  xml : Shotcut.QXmlStreamReader
  newXml : List Shotcut.Out
  mlt_class : Shotcut.QString
deriving DecidableEq, Repr

open Shotcut

/-- The function `isMltClass` of the source. -/
def isMltClass (name : QString) : Bool :=
  name == "profile".toList || name == "producer".toList ||
  name == "filter".toList || name == "playlist".toList ||
  name == "tractor".toList || name == "track".toList ||
  name == "transition".toList || name == "consumer".toList

namespace MltXmlChecker

/-- The checker as its constructor leaves it. -/
def fresh : MltXmlChecker :=
  { needsGPU := false, hasEffects := false, isCorrected := false,
    hasComma := false, hasPeriod := false, numericValueChanged := false,
    basePath := [],
    service := { name := [], resource := [], hash := [], newHash := [], newDetail := [] },
    unlinkedFilesModel := [],
    xml := { tokens := [], hasError := false, atEndDocument := false },
    newXml := [], mlt_class := [] }

/-- One call on `m_newXml`. -/
def write (s : MltXmlChecker) (e : Out) : MltXmlChecker :=
  { s with newXml := s.newXml ++ [e] }

/-- The call `m_newXml.writeAttributes(attrs)`. -/
def writeAttributes (s : MltXmlChecker) (attrs : List QXmlStreamAttribute) : MltXmlChecker :=
  { s with newXml := s.newXml ++ attrs.map Out.attribute }

/-- The call `m_xml.readElementText()`. -/
def readElementText (s : MltXmlChecker) : QString × MltXmlChecker :=
  ((s.xml.readElementText).1, { s with xml := (s.xml.readElementText).2 })

/-- `MltXmlChecker::checkNumericString`: the result, the value as rewritten
in place, and the checker. -/
def checkNumericString (env : Env) (value : QString) (s : MltXmlChecker) :
    Bool × QString × MltXmlChecker :=
  let s :=
    { s with
      hasComma := if !s.hasComma then contains value ',' else s.hasComma,
      hasPeriod := if !s.hasPeriod then contains value '.' else s.hasPeriod }
  if !contains value env.decimalPoint && (contains value '.' || contains value ',') then
    (true, replaceChar '.' env.decimalPoint (replaceChar ',' env.decimalPoint value),
      { s with numericValueChanged := true })
  else
    (false, value, s)

/-- `MltXmlChecker::checkInAndOutPoints`, on the attributes of the current
start element. -/
def checkInAndOutPoints (env : Env) (attrs : List QXmlStreamAttribute) (s : MltXmlChecker) :
    MltXmlChecker :=
  attrs.foldl
    (fun s a =>
      if a.name = "in".toList ∨ a.name = "out".toList then
        match checkNumericString env a.value s with
        | (true, value, s1) => s1.write (Out.attributeQ a.name value)
        | (false, _, s1) => s1.write (Out.attribute a)
      else s.write (Out.attribute a))
    s

/-- `MltXmlChecker::readMltService`; `none` is the result `false`. -/
def readMltService (env : Env) (attrs : List QXmlStreamAttribute) (s : MltXmlChecker) :
    Option MltXmlChecker :=
  if attrValue attrs "name".toList = "mlt_service".toList then
    let s := s.writeAttributes attrs
    let (text, s) := s.readElementText
    let s :=
      { s with
        service := { s.service with name := text },
        hasEffects := if !env.isAudioFilter text then true else s.hasEffects,
        needsGPU :=
          if startsWith text "movit.".toList || startsWith text "glsl.".toList then true
          else s.needsGPU }
    let s := s.write (Out.characters s.service.name)
    some (s.write Out.endElement)
  else none

/-- `MltXmlChecker::checkNumericProperty`; `none` is the result `false`. -/
def checkNumericProperty (env : Env) (attrs : List QXmlStreamAttribute) (s : MltXmlChecker) :
    Option MltXmlChecker :=
  if attrValue attrs "name".toList = "length".toList ∨
      attrValue attrs "name".toList = "geometry".toList then
    let s := s.writeAttributes attrs
    let (value, s) := s.readElementText
    match checkNumericString env value s with
    | (_, value, s) =>
      let s := s.write (Out.characters value)
      some (s.write Out.endElement)
  else none

/-- `MltXmlChecker::fixWebVfxPath`; `none` is the result `false`.  `fixed` is
the path as rewritten by the innermost `if`, when that is reached. -/
def fixWebVfxPath (env : Env) (attrs : List QXmlStreamAttribute) (s : MltXmlChecker) :
    Option MltXmlChecker :=
  if attrValue attrs "name".toList = "resource".toList then
    let s := s.writeAttributes attrs
    let (resource, s) := s.readElementText
    let fixed : Option QString :=
      if !env.isRelative (env.fileInfoPath resource) then
        if !startsWith resource env.appPath then
          match indexOf "/share/shotcut/".toList resource with
          | some i => some (replaceFront i env.appPath resource)
          | none => none
        else none
      else none
    let s := { s with isCorrected := if fixed.isSome then true else s.isCorrected }
    let s := s.write (Out.characters (fixed.getD resource))
    some (s.write Out.endElement)
  else none

/-- `MltXmlChecker::fixUnlinkedFile`, as a search through the rows from
`rows` on; `none` is the result `false`. -/
def fixUnlinkedFileFrom (env : Env) (s : MltXmlChecker) : List Row → Option MltXmlChecker
  | [] => none
  | row :: rows =>
    match row.replacement with
    | some replacement =>
      if replacement.text ≠ [] ∧ row.missing.text = s.service.resource then
        let s :=
          { s with
            service :=
              { s.service with
                resource := env.fileInfoPath replacement.text
                newDetail := replacement.text
                newHash := replacement.hash } }
        let s := s.write (Out.characters replacement.text)
        some { s with isCorrected := true }
      else fixUnlinkedFileFrom env s rows
    | none => fixUnlinkedFileFrom env s rows

/-- `MltXmlChecker::fixUnlinkedFile`; `none` is the result `false`. -/
def fixUnlinkedFile (env : Env) (s : MltXmlChecker) : Option MltXmlChecker :=
  fixUnlinkedFileFrom env s s.unlinkedFilesModel

/-- `MltXmlChecker::readResourceProperty`; `none` is the result `false`. -/
def readResourceProperty (env : Env) (attrs : List QXmlStreamAttribute) (s : MltXmlChecker) :
    Option MltXmlChecker :=
  let name := attrValue attrs "name".toList
  if name = "resource".toList ∨ name = "src".toList ∨ name = "filename".toList ∨
      name = "luma".toList ∨ name = "luma.resource".toList ∨ name = "composite.luma".toList ∨
      name = "producer.resource".toList then
    let s := s.writeAttributes attrs
    let (text, s) := s.readElementText
    let s :=
      { s with
        service :=
          { s.service with
            resource :=
              if env.isRelative (env.fileInfoPath text) then
                env.dirFilePath s.basePath (env.fileInfoPath text)
              else env.fileInfoPath text } }
    let s :=
      match fixUnlinkedFile env s with
      | some s1 => s1
      | none => s.write (Out.characters text)
    some (s.write Out.endElement)
  else none

/-- `MltXmlChecker::readShotcutHashProperty`; `none` is the result `false`. -/
def readShotcutHashProperty (env : Env) (attrs : List QXmlStreamAttribute) (s : MltXmlChecker) :
    Option MltXmlChecker :=
  if attrValue attrs "name".toList = env.kShotcutHashProperty then
    let s := s.writeAttributes attrs
    let (text, s) := s.readElementText
    let s := { s with service := { s.service with hash := text } }
    let s := s.write (Out.characters s.service.hash)
    some (s.write Out.endElement)
  else none

/-- `MltXmlChecker::fixShotcutHashProperty`; `none` is the result `false`. -/
def fixShotcutHashProperty (env : Env) (attrs : List QXmlStreamAttribute) (s : MltXmlChecker) :
    Option MltXmlChecker :=
  if attrValue attrs "name".toList = env.kShotcutHashProperty ∧ s.service.newHash ≠ [] then
    let s := s.writeAttributes attrs
    let (text, s) := s.readElementText
    let s := { s with service := { s.service with hash := text } }
    let s := s.write (Out.characters s.service.newHash)
    some (s.write Out.endElement)
  else none

/-- `MltXmlChecker::fixShotcutDetailProperty`; `none` is the result `false`.
The property it looks for is the one named `kShotcutCaptionProperty`. -/
def fixShotcutDetailProperty (env : Env) (attrs : List QXmlStreamAttribute) (s : MltXmlChecker) :
    Option MltXmlChecker :=
  if attrValue attrs "name".toList = env.kShotcutCaptionProperty ∧ s.service.newDetail ≠ [] then
    let s := s.writeAttributes attrs
    let s := s.write (Out.characters (baseName s.service.newDetail))
    let s := s.write Out.endElement
    some (s.readElementText).2
  else none

/-- `MltXmlChecker::fixShotcutCaptionProperty`; `none` is the result `false`.
The property it looks for is the one named `kShotcutDetailProperty`. -/
def fixShotcutCaptionProperty (env : Env) (attrs : List QXmlStreamAttribute) (s : MltXmlChecker) :
    Option MltXmlChecker :=
  if attrValue attrs "name".toList = env.kShotcutDetailProperty ∧ s.service.newDetail ≠ [] then
    let s := s.writeAttributes attrs
    let s := s.write (Out.characters s.service.newDetail)
    let s := s.write Out.endElement
    some (s.readElementText).2
  else none

/-- `MltXmlChecker::fixAudioIndexProperty`; `none` is the result `false`. -/
def fixAudioIndexProperty (attrs : List QXmlStreamAttribute) (s : MltXmlChecker) :
    Option MltXmlChecker :=
  if attrValue attrs "name".toList = "audio_index".toList ∧ s.service.hash ≠ [] ∧
      s.service.newHash ≠ [] ∧ s.service.hash ≠ s.service.newHash then
    let s := s.writeAttributes attrs
    let s := s.write Out.endElement
    some (s.readElementText).2
  else none

/-- `MltXmlChecker::fixVideoIndexProperty`; `none` is the result `false`. -/
def fixVideoIndexProperty (attrs : List QXmlStreamAttribute) (s : MltXmlChecker) :
    Option MltXmlChecker :=
  if attrValue attrs "name".toList = "video_index".toList ∧ s.service.hash ≠ [] ∧
      s.service.newHash ≠ [] ∧ s.service.hash ≠ s.service.newHash then
    let s := s.writeAttributes attrs
    let s := s.write Out.endElement
    some (s.readElementText).2
  else none

/-- The handlers `readMlt` offers a `property` start element to, in the
order of the source; `some` is a handler that took the element (the
`continue` of the source), `none` is the fall through to
`checkInAndOutPoints`. -/
def propertyHandlers (env : Env) (attrs : List QXmlStreamAttribute) (s : MltXmlChecker) :
    Option MltXmlChecker :=
  match readMltService env attrs s with
  | some t => some t
  | none =>
  match checkNumericProperty env attrs s with
  | some t => some t
  | none =>
  if s.mlt_class = "filter".toList ∨ s.mlt_class = "transition".toList ∨
      s.mlt_class = "producer".toList then
    match (if s.service.name = "webvfx".toList then fixWebVfxPath env attrs s else none) with
    | some t => some t
    | none =>
    match readResourceProperty env attrs s with
    | some t => some t
    | none =>
    match fixShotcutHashProperty env attrs s with
    | some t => some t
    | none =>
    match readShotcutHashProperty env attrs s with
    | some t => some t
    | none =>
    match fixShotcutDetailProperty env attrs s with
    | some t => some t
    | none =>
    match fixShotcutCaptionProperty env attrs s with
    | some t => some t
    | none =>
    match fixAudioIndexProperty attrs s with
    | some t => some t
    | none => fixVideoIndexProperty attrs s
  else none

/-- The `EndElement` case of `readMlt` for a class element, before the end
tag is written: the service's file, when missing and not yet listed, gets a
row in `m_unlinkedFilesModel`; then `mlt_class` and `m_service` are
cleared. -/
def endMltClass (env : Env) (s : MltXmlChecker) : MltXmlChecker :=
  let s :=
    if s.service.name ≠ [] ∧ s.service.resource ≠ [] ∧ env.fileExists s.service.resource = false then
      if ¬ (s.service.name = "color".toList ∨ s.service.name = "colour".toList) then
        if (s.unlinkedFilesModel.filter (fun row => row.missing.text == s.service.resource)).isEmpty
        then
          { s with
            unlinkedFilesModel :=
              s.unlinkedFilesModel ++
                [{ missing := { text := s.service.resource, hash := s.service.hash },
                   replacement := none }] }
        else s
      else s
    else s
  { s with mlt_class := [], service := s.service.clear }

/-- One pass through the body of the `while` loop of `readMlt`: a token is
read and dealt with. -/
def readMltStep (env : Env) (s : MltXmlChecker) : MltXmlChecker :=
  match s.xml.readNext with
  | (tok, xml) =>
    let s := { s with xml := xml }
    match tok with
    | Token.Characters text => s.write (Out.characters text)
    | Token.Comment text => s.write (Out.comment text)
    | Token.DTD text => s.write (Out.dtd text)
    | Token.EntityReference name _ => s.write (Out.entityReference name)
    | Token.ProcessingInstruction target data => s.write (Out.processingInstruction target data)
    | Token.StartDocument version standalone => s.write (Out.startDocumentVersion version standalone)
    | Token.EndDocument => s.write Out.endDocument
    | Token.StartElement namespaceUri element attrs =>
      let s := s.write (Out.startElementNS namespaceUri element)
      if isMltClass element then
        checkInAndOutPoints env attrs { s with mlt_class := element }
      else if element = "property".toList then
        match propertyHandlers env attrs s with
        | some t => t
        | none => checkInAndOutPoints env attrs s
      else checkInAndOutPoints env attrs s
    | Token.EndElement name =>
      let s := if isMltClass name then endMltClass env s else s
      s.write Out.endElement
    | Token.Invalid => s

/-- The `while` loop of `readMlt`, for at most `fuel` passes. -/
def readMltLoop (env : Env) : Nat → MltXmlChecker → MltXmlChecker
  | 0, s => s
  | fuel + 1, s => if s.xml.atEnd then s else readMltLoop env fuel (readMltStep env s)

/-- `MltXmlChecker::readMlt`.  No pass leaves more tokens than it found and a
pass that reads none raises the error that ends the loop, so one pass more
than there are tokens is enough (`readMlt_atEnd`). -/
def readMlt (env : Env) (s : MltXmlChecker) : MltXmlChecker :=
  readMltLoop env (s.xml.tokens.length + 1) { s with mlt_class := [] }

/-- The loop of `check` over the attributes of the root element. -/
def writeRootAttributes (env : Env) (attrs : List QXmlStreamAttribute) (s : MltXmlChecker) :
    MltXmlChecker :=
  attrs.foldl
    (fun s a => if env.toUpper a.name ≠ "LC_NUMERIC".toList then s.write (Out.attribute a) else s)
    s

/-- `MltXmlChecker::check`.  `fileOpens` and `tempFileOpens` are the results
of the two `open` calls, `canonicalPath` is the directory of the file and
`doc` the tokens of its content.  Opening the temporary file and resizing it
to nothing empties the output. -/
def check (env : Env) (fileOpens tempFileOpens : Bool) (canonicalPath : QString)
    (doc : List Token) (s : MltXmlChecker) : Bool × MltXmlChecker :=
  let s :=
    if fileOpens && tempFileOpens then
      let s :=
        { s with
          newXml := [], basePath := canonicalPath,
          xml := { tokens := doc, hasError := false, atEndDocument := false } }
      match s.xml.readNextStartElement with
      | (some (name, attrs), xml) =>
        let s := { s with xml := xml }
        if name = "mlt".toList then
          let s := s.write Out.startDocument
          let s := s.write (Out.characters "\n".toList)
          let s := s.write (Out.startElement "mlt".toList)
          let s := writeRootAttributes env attrs s
          let s := readMlt env s
          let s := s.write Out.endElement
          let s := s.write Out.endDocument
          { s with
            isCorrected := s.isCorrected || (s.hasPeriod && s.hasComma && s.numericValueChanged) }
        else { s with xml := s.xml.raiseError }
      | (none, xml) => { s with xml := xml }
    else s
  (s.xml.hasError == false, s)

end MltXmlChecker

/-! ## Sample data -/

namespace Sample

/-- A platform with `.` as decimal point, Unix paths, and a single file on
disk. -/
def env : Env :=
  { decimalPoint := '.', appPath := "/usr".toList, fileInfoPath := fun p => p,
    dirFilePath := fun d f => d ++ '/' :: f, isRelative := fun p => !startsWith p "/".toList,
    fileExists := fun p => p == "/exists/a.mp4".toList, isAudioFilter := fun _ => false,
    toUpper := fun s => s.map Char.toUpper,
    kShotcutHashProperty := "shotcut:hash".toList,
    kShotcutCaptionProperty := "shotcut:caption".toList,
    kShotcutDetailProperty := "shotcut:detail".toList }

/-- An attribute without namespace. -/
def attr (name value : String) : QXmlStreamAttribute :=
  { namespaceUri := [], name := name.toList, qualifiedName := name.toList, value := value.toList }

/-- Tokens of a `property` element with character data. -/
def property (name value : String) : List Token :=
  [Token.StartElement [] "property".toList [attr "name" name], Token.Characters value.toList,
    Token.EndElement "property".toList]

/-- A checker about to read `tokens`. -/
def reading (tokens : List Token) : MltXmlChecker :=
  { MltXmlChecker.fresh with xml := { tokens := tokens, hasError := false, atEndDocument := false } }

end Sample

/-- Whether a call on the writer adds an attribute to the start tag that is
open. -/
def Shotcut.Out.isAttribute : Out → Bool
  | Out.attribute _ => true
  | Out.attributeQ _ _ => true
  | _ => false

namespace MltXmlChecker

/-- The checker once the reader has moved on to `rest`. -/
def advance (s : MltXmlChecker) (rest : List Token) : MltXmlChecker :=
  { s with xml := { s.xml with tokens := rest } }

end MltXmlChecker

/-- The character data of the element whose content starts `tokens`: what
`readElementText()` returns for it. -/
def Shotcut.elementText (tokens : List Token) : QString :=
  (QXmlStreamReader.readElementTextAux [] tokens).1

/-! ## The spec's words -/

namespace Spec

/-- The condition of the Numeric Normalizer in the words of the spec: the
text does not contain the canonical separator `c` and contains at least one
comma or period. -/
def ambiguous (c : Char) (text : QString) : Prop := c ∉ text ∧ (',' ∈ text ∨ '.' ∈ text)

instance (c : Char) (text : QString) : Decidable (ambiguous c text) := by
  unfold ambiguous
  exact inferInstance

/-- The Numeric Normalizer in the words of the spec: in an ambiguous text
every comma and every period is rewritten to the canonical separator `c`;
any other text is left as it is. -/
def normalize (c : Char) (text : QString) : QString :=
  if ambiguous c text then text.map (fun ch => if ch = ',' ∨ ch = '.' then c else ch) else text

end Spec

namespace MltXmlChecker

/-- The checker with its `m_isCorrected` set to `b`. -/
def setCorrected (b : Bool) (s : MltXmlChecker) : MltXmlChecker := { s with isCorrected := b }

/-- The path `readResourceProperty` stores for the text of a resource
property: the text as a `QFileInfo` holds it, inside the directory of the
document when it is relative. -/
def resolvedPath (env : Env) (basePath text : QString) : QString :=
  if env.isRelative (env.fileInfoPath text) then env.dirFilePath basePath (env.fileInfoPath text)
  else env.fileInfoPath text

/-- The checker in the middle of `readResourceProperty`, when the text is
read and the resolved path stored, before the model of unlinked files is
consulted. -/
def storeResource (env : Env) (attrs : List QXmlStreamAttribute) (s : MltXmlChecker) :
    MltXmlChecker :=
  { (s.writeAttributes attrs).readElementText.2 with
    service :=
      { s.service with resource := resolvedPath env s.basePath s.xml.readElementText.1 } }

/-- The checker as `check` hands it to `readMlt` for a document whose root
element is `mlt` with attributes `attrs`: the output emptied and the root's
start tag written, the reader `xml` standing on the root. -/
def enterMlt (env : Env) (canonicalPath : QString) (attrs : List QXmlStreamAttribute)
    (xml : QXmlStreamReader) (s : MltXmlChecker) : MltXmlChecker :=
  writeRootAttributes env attrs
    ((({ s with newXml := [], basePath := canonicalPath, xml := xml }.write Out.startDocument).write
      (Out.characters "\n".toList)).write (Out.startElement "mlt".toList))

end MltXmlChecker

namespace Sample

/-- A document with a producer whose `length` is written with a period and
whose `geometry` is written with commas. -/
def mixedDoc : List Token :=
  [Token.StartDocument "1.0".toList false,
    Token.StartElement [] "mlt".toList [attr "LC_NUMERIC" "de_DE", attr "version" "6.0"],
    Token.StartElement [] "producer".toList [attr "id" "producer0"]] ++
  property "length" "12.5" ++ property "geometry" "0=0,0:100,100" ++
  [Token.EndElement "producer".toList, Token.EndElement "mlt".toList, Token.EndDocument]

/-- A producer without `mlt_service` whose resource is not on disk. -/
def unnamedProducer : List Token :=
  Token.StartElement [] "producer".toList [attr "id" "producer0"] ::
    property "resource" "/missing/a.mp4" ++ [Token.EndElement "producer".toList]

/-- The checker of `unnamedProducer` when the end tag of the producer is the
next token: two passes of the loop were made. -/
def unnamedAtEndTag : MltXmlChecker :=
  MltXmlChecker.readMltLoop env 2 (reading unnamedProducer)

/-- A producer of the given service whose resource is the given text. -/
def producer (service resource : String) : List Token :=
  Token.StartElement [] "producer".toList [attr "id" "producer0"] ::
    property "mlt_service" service ++ property "resource" resource ++
    [Token.EndElement "producer".toList]

/-- A document of producers. -/
def document (producers : List Token) : List Token :=
  [Token.StartDocument "1.0".toList false, Token.StartElement [] "mlt".toList []] ++ producers ++
    [Token.EndElement "mlt".toList, Token.EndDocument]

/-- The checker of a producer when its end tag is the next token: three
passes of the loop were made. -/
def atEndTag (service resource : String) : MltXmlChecker :=
  MltXmlChecker.readMltLoop env 3 (reading (producer service resource))

end Sample

namespace Spec

/-- In the words of the spec: the replacement recorded for `path` in the
Unlinked-Media Registry, that is the replacement of the first row whose
original path is `path` and whose replacement is present and non-empty. -/
def replacementFor (rows : List Row) (path : QString) : Option QStandardItem :=
  (rows.find? (fun row =>
      decide (row.missing.text = path) &&
        match row.replacement with
        | some r => decide (r.text ≠ [])
        | none => false)).bind
    (fun row => row.replacement)

end Spec

namespace Sample

/-- A producer with every property the replacement of a file touches. -/
def replacedProducer : List Token :=
  Token.StartElement [] "producer".toList [attr "id" "producer0"] ::
    property "mlt_service" "avformat" ++ property "resource" "/missing/a.mp4" ++
    property "shotcut:hash" "H1" ++ property "shotcut:caption" "a.mp4" ++
    property "shotcut:detail" "/missing/a.mp4" ++ property "audio_index" "1" ++
    property "video_index" "0" ++ [Token.EndElement "producer".toList]

/-- A checker about to read `tokens` whose model of unlinked files has the
row of `/missing/a.mp4`, replaced by `/found/b.mp4` with hash `H2`. -/
def withReplacement (tokens : List Token) : MltXmlChecker :=
  { reading tokens with
    unlinkedFilesModel :=
      [{ missing := { text := "/missing/a.mp4".toList, hash := "H1".toList },
         replacement := some { text := "/found/b.mp4".toList, hash := "H2".toList } }] }

/-- The checker of `replacedProducer`, with the replacement in the model,
after `n` passes of the loop: after 2 passes the `resource` property is next,
then the hash (3), the caption (4), the detail (5), `audio_index` (6) and
`video_index` (7). -/
def replacedAfter (n : Nat) : MltXmlChecker :=
  MltXmlChecker.readMltLoop env n (withReplacement replacedProducer)

/-- The same producer read with an empty model, so that no replacement is
chosen, after `n` passes of the loop: after 2 passes the `resource` property
is next, then the hash (3) and the caption (4); the caption and the detail
are copied token by token, so that `audio_index` is next after 10 passes. -/
def unreplacedAfter (n : Nat) : MltXmlChecker :=
  MltXmlChecker.readMltLoop env n (reading replacedProducer)

end Sample

namespace MltXmlChecker

/-- The checker as `readMlt` offers a `property` start element to the
handlers: the reader moved on to `rest`, the start tag written. -/
def openProperty (s : MltXmlChecker) (ns : QString) (rest : List Token) : MltXmlChecker :=
  (s.advance rest).write (Out.startElementNS ns "property".toList)

end MltXmlChecker

/-- The property names that the handlers tried before the hash, caption,
detail and stream-index handlers look for. -/
def Shotcut.handledBefore : List QString :=
  ["mlt_service".toList, "length".toList, "geometry".toList, "resource".toList, "src".toList,
    "filename".toList, "luma".toList, "luma.resource".toList, "composite.luma".toList,
    "producer.resource".toList]

namespace Sample

/-- A document whose root carries `LC_NUMERIC` twice, in two casings, among
other attributes. -/
def localeDoc : List Token :=
  [Token.StartDocument "1.0".toList false,
    Token.StartElement [] "mlt".toList
      [attr "lc_Numeric" "de_DE", attr "version" "6.0", attr "LC_NUMERIC" "C", attr "title" "x"],
    Token.StartElement [] "producer".toList [attr "id" "producer0"],
    Token.EndElement "producer".toList, Token.EndElement "mlt".toList, Token.EndDocument]

/-- A document whose root element is not `mlt`. -/
def htmlDoc : List Token :=
  [Token.StartDocument "1.0".toList false,
    Token.StartElement [] "html".toList [attr "lang" "en"],
    Token.StartElement [] "producer".toList [attr "in" "0,5"],
    Token.EndElement "producer".toList, Token.EndElement "html".toList, Token.EndDocument]

/-- A document with a producer whose `length` is written with a comma and
with no other numeric field. -/
def commaDoc : List Token :=
  document
    (Token.StartElement [] "producer".toList [attr "id" "producer0"] ::
      property "length" "12,5" ++ [Token.EndElement "producer".toList])

end Sample

/-- The path `fixWebVfxPath` puts in place of the text of a `resource`
property, when it rewrites it: the text is the path of an absolute file,
does not start with the application directory and contains
`/share/shotcut/`; what stands before the first `/share/shotcut/` gives way
to the application directory. -/
def MltXmlChecker.relocated (env : Env) (resource : QString) : Option QString :=
  if !env.isRelative (env.fileInfoPath resource) then
    if !startsWith resource env.appPath then
      match indexOf "/share/shotcut/".toList resource with
      | some i => some (replaceFront i env.appPath resource)
      | none => none
    else none
  else none

/-- What the loop of `readMlt` writes for a token that is neither a start
nor an end element: the token forwarded as it is. -/
def Shotcut.forward : Token → Option Out
  | Token.Characters text => some (Out.characters text)
  | Token.Comment text => some (Out.comment text)
  | Token.DTD text => some (Out.dtd text)
  | Token.EntityReference name _ => some (Out.entityReference name)
  | Token.ProcessingInstruction target data => some (Out.processingInstruction target data)
  | Token.StartDocument version standalone => some (Out.startDocumentVersion version standalone)
  | Token.EndDocument => some Out.endDocument
  | _ => none

namespace MltXmlChecker

/-- The checker as `readMlt` offers the attributes of a start element to
`checkInAndOutPoints`: the reader moved on to `rest`, the start tag written,
and `mlt_class` set when the element is a class. -/
def openElement (s : MltXmlChecker) (ns element : QString) (rest : List Token) : MltXmlChecker :=
  { (s.advance rest).write (Out.startElementNS ns element) with
    mlt_class := if isMltClass element then element else s.mlt_class }

/-- The ways one pass of the loop of `readMlt` goes, for a reader without
error, with the checker it leaves: the tokens are exhausted; the input is
malformed; a token is forwarded; a start element is copied with what it
has of attributes; a `property` start element is taken by a handler; an end
element is written. -/
inductive PassKind (env : Env) (s : MltXmlChecker) : MltXmlChecker → Prop where
  | exhausted : s.xml.tokens = [] → PassKind env s { s with xml := s.xml.raiseError }
  | invalid (rest : List Token) :
    s.xml.tokens = Token.Invalid :: rest →
      PassKind env s { s with xml := { s.xml.raiseError with tokens := rest } }
  | forward (tok : Token) (rest : List Token) (e : Out) :
    s.xml.tokens = tok :: rest → forward tok = some e →
      PassKind env s { s with xml := s.xml.readNext.2, newXml := s.newXml ++ [e] }
  | copy (ns element : QString) (attrs : List QXmlStreamAttribute) (rest : List Token) :
    s.xml.tokens = Token.StartElement ns element attrs :: rest →
      (isMltClass element = true ∨ element ≠ "property".toList ∨
        propertyHandlers env attrs (s.openProperty ns rest) = none) →
      PassKind env s (checkInAndOutPoints env attrs (s.openElement ns element rest))
  | handled (ns : QString) (attrs : List QXmlStreamAttribute) (rest : List Token)
      (t : MltXmlChecker) :
    s.xml.tokens = Token.StartElement ns "property".toList attrs :: rest →
      propertyHandlers env attrs (s.openProperty ns rest) = some t → PassKind env s t
  | close (name : QString) (rest : List Token) :
    s.xml.tokens = Token.EndElement name :: rest →
      PassKind env s
        ((if isMltClass name then endMltClass env (s.advance rest) else s.advance rest).write
          Out.endElement)

/-- The text of the `mlt_service` property that the next pass of the loop
handles, if the next token is the start tag of one. -/
def serviceText (s : MltXmlChecker) : Option QString :=
  match s.xml.tokens with
  | Token.StartElement _ element attrs :: rest =>
    if element = "property".toList ∧ attrValue attrs "name".toList = "mlt_service".toList then
      some (elementText rest)
    else none
  | _ => none

/-- Pass `k + 1` of the loop of `readMlt` started in `s` is made, the reader
not being at its end after `k` passes, and it handles an `mlt_service`
property with text `text`. -/
def ServiceAt (env : Env) (s : MltXmlChecker) (k : Nat) (text : QString) : Prop :=
  (readMltLoop env k s).xml.atEnd = false ∧ serviceText (readMltLoop env k s) = some text

instance (env : Env) (s : MltXmlChecker) (k : Nat) (text : QString) :
    Decidable (ServiceAt env s k text) := by
  unfold ServiceAt
  exact inferInstance

/-- The test of `readMltService` for a service that needs the GPU: its name
begins with `movit.` or `glsl.`. -/
def isGpuService (name : QString) : Bool :=
  startsWith name "movit.".toList || startsWith name "glsl.".toList

/-- The checker as `readMlt` starts its loop on it: `mlt_class` is empty. -/
def loopStart (s : MltXmlChecker) : MltXmlChecker := { s with mlt_class := [] }

end MltXmlChecker

namespace Sample

/-- The sample platform with an MLT repository that knows `volume` as an
audio filter. -/
def audioEnv : Env := { env with isAudioFilter := fun name => name == "volume".toList }

/-- A filter of the given service. -/
def filter (service : String) : List Token :=
  Token.StartElement [] "filter".toList [attr "id" "filter0"] ::
    property "mlt_service" service ++ [Token.EndElement "filter".toList]

/-- A document with a producer on disk, a `movit.blur` filter and a `volume`
filter. -/
def gpuDoc : List Token :=
  document (producer "avformat" "/exists/a.mp4" ++ filter "movit.blur" ++ filter "volume")

/-- A document with a `volume` filter only. -/
def volumeDoc : List Token := document (filter "volume")

end Sample

namespace Spec

/-- In the words of the spec: `needle` occurs in `s` at position `i`. -/
def OccursAt (needle s : QString) (i : Nat) : Prop :=
  ∃ before after, s = before ++ needle ++ after ∧ before.length = i

/-- In the words of the spec: the first occurrence of `needle` in `s` is at
position `i`. -/
def FirstOccursAt (needle s : QString) (i : Nat) : Prop :=
  OccursAt needle s i ∧ ∀ j, j < i → ¬ OccursAt needle s j

end Spec

namespace Sample

/-- An element of the given class whose service is `webvfx` and whose
resource is a bundled file of another installation. -/
def webvfxIn (cls : String) : List Token :=
  Token.StartElement [] cls.toList [attr "id" "e0"] ::
    property "mlt_service" "webvfx" ++
    property "resource" "/old/share/shotcut/plugins/x.html" ++ [Token.EndElement cls.toList]

/-- The checker of `webvfxIn cls` after `n` passes of the loop: after 2
passes the `resource` property is next. -/
def webvfxAfter (cls : String) (n : Nat) : MltXmlChecker :=
  MltXmlChecker.readMltLoop env n (reading (webvfxIn cls))

end Sample

/-- In the words of the spec: the path `text` is one the bundled-resource
relocation applies to: it is absolute, does not start with the application
directory, and contains `/share/shotcut/`. -/
def Spec.Relocatable (env : Env) (text : QString) : Prop :=
  env.isRelative (env.fileInfoPath text) = false ∧ (¬ ∃ after, text = env.appPath ++ after) ∧
    ∃ i, Spec.OccursAt "/share/shotcut/".toList text i

/-- In the words of the spec: the call on the writer that copies `a`, one
of the attributes of a start element, in the generic copy: when `a` is named
`in` or `out` and the Numeric Normalizer rewrites its value, the rewritten
value is written under its name; any other attribute is written as it is. -/
def Spec.copied (env : Env) (a : QXmlStreamAttribute) : Out :=
  if (a.name = "in".toList ∨ a.name = "out".toList) ∧ Spec.ambiguous env.decimalPoint a.value then
    Out.attributeQ a.name (Spec.normalize env.decimalPoint a.value)
  else Out.attribute a

/-- The value that an attribute call on the writer writes. -/
def Shotcut.Out.writtenValue : Out → Option QString
  | Out.attribute a => some a.value
  | Out.attributeQ _ value => some value
  | _ => none

namespace Sample

/-- A playlist whose `length` is written with a comma. -/
def playlistDoc : List Token :=
  Token.StartElement [] "playlist".toList [attr "id" "playlist0"] ::
    property "length" "12,5" ++ property "resource" "a.mp4" ++ [Token.EndElement "playlist".toList]

/-- The checker of `playlistDoc` after `n` passes of the loop: after 1 pass
the `length` property is next, after 2 passes the `resource` property. -/
def playlistAfter (n : Nat) : MltXmlChecker :=
  MltXmlChecker.readMltLoop env n (reading playlistDoc)

/-- A producer on disk with a `volume` filter nested inside it. -/
def nestedDoc : List Token :=
  Token.StartElement [] "producer".toList [attr "id" "producer0"] ::
    property "mlt_service" "avformat" ++ property "resource" "/exists/a.mp4" ++
    filter "volume" ++ [Token.EndElement "producer".toList]

/-- The checker of `nestedDoc` after `n` passes of the loop: after 3 passes
the start tag of the nested filter is next, after 5 passes its end tag. -/
def nestedAfter (n : Nat) : MltXmlChecker :=
  MltXmlChecker.readMltLoop env n (reading nestedDoc)

end Sample

namespace MltXmlChecker

/-- The checker `s` with each flag that `f` has raised raised as well: the
flags of `s` or-ed with those of `f`. -/
def orFlags (f s : MltXmlChecker) : MltXmlChecker :=
  { s with
    needsGPU := f.needsGPU || s.needsGPU,
    hasEffects := f.hasEffects || s.hasEffects,
    isCorrected := f.isCorrected || s.isCorrected,
    hasComma := f.hasComma || s.hasComma,
    hasPeriod := f.hasPeriod || s.hasPeriod,
    numericValueChanged := f.numericValueChanged || s.numericValueChanged }

/-- The values `checkInAndOutPoints` passes to `checkNumericString`: those
of the attributes named `in` or `out`. -/
def inOutValues (attrs : List QXmlStreamAttribute) : List QString :=
  (attrs.filter (fun a => decide (a.name = "in".toList ∨ a.name = "out".toList))).map
    (fun a => a.value)

/-- The numeric fields of the next pass of the loop of `readMlt`: the values
it passes to `checkNumericString`.  They are the text of a `property` that
`checkNumericProperty` takes, and the `in` and `out` attributes of a start
element that no handler takes. -/
def numericFields (env : Env) (s : MltXmlChecker) : List QString :=
  match s.xml.tokens with
  | Token.StartElement ns element attrs :: rest =>
    if element = "property".toList then
      if attrValue attrs "name".toList = "mlt_service".toList then []
      else if attrValue attrs "name".toList = "length".toList ∨
          attrValue attrs "name".toList = "geometry".toList then [elementText rest]
      else if (propertyHandlers env attrs (s.openProperty ns rest)).isSome then []
      else inOutValues attrs
    else inOutValues attrs
  | _ => []

/-- Whether the next pass of the loop of `readMlt` is `fixWebVfxPath`
putting another path in place of the text of a `resource` property: the class
is filter, transition or producer, the service is `webvfx`, and the text is a
path the handler rewrites. -/
def relocatesNext (env : Env) (s : MltXmlChecker) : Bool :=
  match s.xml.tokens with
  | Token.StartElement _ element attrs :: rest =>
    decide (element = "property".toList ∧
      (s.mlt_class = "filter".toList ∨ s.mlt_class = "transition".toList ∨
        s.mlt_class = "producer".toList) ∧
      s.service.name = "webvfx".toList ∧ attrValue attrs "name".toList = "resource".toList) &&
      (relocated env (elementText rest)).isSome
  | _ => false

/-- The checker before each pass that the loop of `readMlt` makes, for at
most `fuel` passes started in `s`. -/
def passes (env : Env) : Nat → MltXmlChecker → List MltXmlChecker
  | 0, _ => []
  | fuel + 1, s => if s.xml.atEnd then [] else s :: passes env fuel (readMltStep env s)

/-- The checker before each pass of `readMlt env s`. -/
def passesOf (env : Env) (s : MltXmlChecker) : List MltXmlChecker :=
  passes env (s.xml.tokens.length + 1) s.loopStart

end MltXmlChecker

namespace Sample

/-- The sample platform with every file on disk. -/
def fullEnv : Env := { env with fileExists := fun _ => true }

/-- A document with a `webvfx` producer whose resource is a bundled file of
another installation. -/
def relocatedDoc : List Token := document (webvfxIn "producer")

/-- A document with a producer that has no `mlt_service` and, after it and
outside any class, an `mlt_service` property with text `webvfx`. -/
def leftoverDoc : List Token :=
  document
    (Token.StartElement [] "producer".toList [attr "id" "producer0"] ::
      property "resource" "/old/share/shotcut/plugins/x.html" ++
      [Token.EndElement "producer".toList] ++ property "mlt_service" "webvfx")

/-- A document with a producer on disk whose `length` and `in` point are
written with a comma, and with no period in a numeric field. -/
def cleanDoc : List Token :=
  document
    (Token.StartElement [] "producer".toList [attr "id" "producer0", attr "in" "0,5"] ::
      property "mlt_service" "avformat" ++ property "resource" "/exists/a.mp4" ++
      property "length" "12,5" ++ [Token.EndElement "producer".toList])

end Sample

/-- The tokens `readElementText` passes over inside an element: character
data and entity references, which it gathers, and comments and processing
instructions, which it skips. -/
def Shotcut.Token.isText : Token → Bool
  | Token.Characters _ => true
  | Token.EntityReference _ _ => true
  | Token.ProcessingInstruction _ _ => true
  | Token.Comment _ => true
  | _ => false

namespace Spec

/-- In the words of the spec: the output `out` preserves the structure of
the tokens `toks`.  Every token that is neither a start nor an end element is
forwarded as it is; a start element is written with its name and one call
for each of its attributes; an end element is written as such; and a
`property` element that a handler consumes, whose content is character data
up to its end element, is written as its start tag, the attributes as they
are, at most one text, and exactly one end tag. -/
inductive Preserved : List Token → List Out → Prop where
  | done : Preserved [] []
  | forwarded (tok : Token) (e : Out) (toks : List Token) (out : List Out) :
    forward tok = some e → Preserved toks out → Preserved (tok :: toks) (e :: out)
  | copied (ns name : QString) (attrs : List QXmlStreamAttribute) (written : List Out)
      (toks : List Token) (out : List Out) :
    written.length = attrs.length → (∀ e ∈ written, e.isAttribute = true) →
      Preserved toks out →
      Preserved (Token.StartElement ns name attrs :: toks)
        (Out.startElementNS ns name :: written ++ out)
  | closed (name : QString) (toks : List Token) (out : List Out) :
    Preserved toks out → Preserved (Token.EndElement name :: toks) (Out.endElement :: out)
  | consumed (ns : QString) (attrs : List QXmlStreamAttribute) (content : List Token)
      (name : QString) (text : Option QString) (toks : List Token) (out : List Out) :
    (∀ t ∈ content, t.isText = true) → Preserved toks out →
      Preserved (Token.StartElement ns "property".toList attrs :: content ++
          Token.EndElement name :: toks)
        (Out.startElementNS ns "property".toList :: attrs.map Out.attribute ++
          (text.map Out.characters).toList ++ Out.endElement :: out)

/-- In the words of the spec: the element events of the input, in order: a
start element with its namespace and name, or an end element. -/
def elementEvents : List Token → List (Option (QString × QString))
  | [] => []
  | Token.StartElement ns name _ :: toks => some (ns, name) :: elementEvents toks
  | Token.EndElement _ :: toks => none :: elementEvents toks
  | _ :: toks => elementEvents toks

/-- In the words of the spec: the element events of the output, in order:
a start element with its namespace and name, or an end element. -/
def writtenEvents : List Out → List (Option (QString × QString))
  | [] => []
  | Out.startElementNS ns name :: out => some (ns, name) :: writtenEvents out
  | Out.startElement name :: out => some ([], name) :: writtenEvents out
  | Out.endElement :: out => none :: writtenEvents out
  | _ :: out => writtenEvents out

end Spec

/-- The tokens `readNextStartElement` reads past on its way to the root
element: all but start elements, end elements, the end of the document and
malformed input. -/
def Shotcut.Token.isProlog : Token → Bool
  | Token.StartDocument _ _ => true
  | Token.Characters _ => true
  | Token.Comment _ => true
  | Token.DTD _ => true
  | Token.EntityReference _ _ => true
  | Token.ProcessingInstruction _ _ => true
  | _ => false

/-- In the words of the spec: the content that starts `toks` is character
data up to the end tag of its element (comments and processing instructions
may stand in between). -/
def Spec.closesAsText : List Token → Bool
  | Token.Characters _ :: toks => Spec.closesAsText toks
  | Token.EntityReference _ _ :: toks => Spec.closesAsText toks
  | Token.ProcessingInstruction _ _ :: toks => Spec.closesAsText toks
  | Token.Comment _ :: toks => Spec.closesAsText toks
  | Token.EndElement _ :: _ => true
  | _ => false

namespace MltXmlChecker

/-- Whether the next pass of the loop of `readMlt` is a handler consuming a
`property` element. -/
def consumesNext (env : Env) (s : MltXmlChecker) : Bool :=
  match s.xml.tokens with
  | Token.StartElement ns element attrs :: rest =>
    decide (element = "property".toList) &&
      (propertyHandlers env attrs (s.openProperty ns rest)).isSome
  | _ => false

/-- The variable `mlt_class` of `readMlt` after a pass of its loop that read
the token `tok`, when it was `cls` before: the start tag of a class makes
that class the current one, the end tag of a class leaves no current class,
and any other token leaves it as it was. -/
def classAfter (cls : QString) : Token → QString
  | Token.StartElement _ element _ => if isMltClass element then element else cls
  | Token.EndElement name => if isMltClass name then [] else cls
  | _ => cls

end MltXmlChecker

namespace Sample

/-- The tokens under the root of a document, up to the end tag of the root:
a comment, a producer on disk with an `in` point, a `length` and a property
no handler takes, and a playlist with an entry. -/
def structuredBody : List Token :=
  Token.Comment " made by hand ".toList ::
    Token.StartElement [] "producer".toList [attr "id" "producer0", attr "in" "0,5"] ::
    property "mlt_service" "avformat" ++ property "resource" "/exists/a.mp4" ++
    property "length" "12,5" ++ property "title" "a,b" ++
    [Token.EndElement "producer".toList, Token.Characters "\n".toList,
      Token.StartElement [] "playlist".toList [attr "id" "playlist0"],
      Token.StartElement [] "entry".toList [attr "producer" "producer0", attr "out" "9"],
      Token.EndElement "entry".toList, Token.EndElement "playlist".toList,
      Token.EndElement "mlt".toList]

/-- A producer with a `volume` filter nested inside it and, after the end
of the filter and before the end of the producer, the properties `props`. -/
def afterNested (props : List Token) : List Token :=
  Token.StartElement [] "producer".toList [attr "id" "producer0"] ::
    filter "volume" ++ props ++ [Token.EndElement "producer".toList]

/-- The checker of `afterNested props` after `n` passes of the loop: after
4 passes the nested filter has ended and the first of `props` is next. -/
def afterNestedAt (props : List Token) (n : Nat) : MltXmlChecker :=
  MltXmlChecker.readMltLoop env n (reading (afterNested props))

/-- The checker of `afterNested props`, with `/missing/a.mp4` replaced by
`/found/b.mp4` in the model, after `n` passes of the loop. -/
def afterNestedReplacedAt (props : List Token) (n : Nat) : MltXmlChecker :=
  MltXmlChecker.readMltLoop env n (withReplacement (afterNested props))

end Sample

/-! ## Relations between the checker before and after a piece of the run -/

namespace MltXmlChecker

/-- What holds between the checker before (`s`) and after (`t`) any piece of
`readMlt` other than the end of a class element: the model of unlinked files
is untouched, the output only grows, the reader only moves forward, and a
correction once flagged stays flagged. -/
structure Frame (s t : MltXmlChecker) : Prop where
  registry : t.unlinkedFilesModel = s.unlinkedFilesModel
  out : ∃ added, t.newXml = s.newXml ++ added
  tokens : t.xml.tokens.length ≤ s.xml.tokens.length
  error : s.xml.hasError = true → t.xml.hasError = true
  atEndDocument : t.xml.atEndDocument = s.xml.atEndDocument
  corrected : s.isCorrected = true → t.isCorrected = true
  basePath : t.basePath = s.basePath

/-- What holds between the checker before (`s`) and after (`t`) one pass of
the loop of `readMlt`. -/
structure Pass (s t : MltXmlChecker) : Prop where
  out : ∃ added, t.newXml = s.newXml ++ added ∧ ∀ e, added.head? = some e → e.isAttribute = false
  registry :
    t.unlinkedFilesModel = s.unlinkedFilesModel ∨
      ∃ row, (∀ r ∈ s.unlinkedFilesModel, r.missing.text ≠ row.missing.text) ∧
        t.unlinkedFilesModel = s.unlinkedFilesModel ++ [row]
  progress :
    s.xml.hasError = false → t.xml.hasError = true ∨ t.xml.tokens.length < s.xml.tokens.length
  atEndDocument : s.xml.atEndDocument = true → t.xml.atEndDocument = true
  corrected : s.isCorrected = true → t.isCorrected = true
  basePath : t.basePath = s.basePath

/-- What holds between the checker before (`s`) and after (`t`) any number of
passes of the loop of `readMlt`. -/
structure Run (s t : MltXmlChecker) : Prop where
  out : ∃ added, t.newXml = s.newXml ++ added ∧ ∀ e, added.head? = some e → e.isAttribute = false
  registry : ∃ added, t.unlinkedFilesModel = s.unlinkedFilesModel ++ added
  nodup :
    (s.unlinkedFilesModel.map (fun row => row.missing.text)).Nodup →
      (t.unlinkedFilesModel.map (fun row => row.missing.text)).Nodup
  corrected : s.isCorrected = true → t.isCorrected = true
  basePath : t.basePath = s.basePath

/-! ## One pass of the loop, by the token read -/

theorem readMltStep_startElement (env : Env) (s : MltXmlChecker) (ns element : QString)
    (attrs : List QXmlStreamAttribute) (rest : List Token)
    (hErr : s.xml.hasError = false)
    (hTok : s.xml.tokens = Token.StartElement ns element attrs :: rest) :
    readMltStep env s =
      if isMltClass element then
        checkInAndOutPoints env attrs
          { (s.advance rest).write (Out.startElementNS ns element) with mlt_class := element }
      else if element = "property".toList then
        match propertyHandlers env attrs ((s.advance rest).write (Out.startElementNS ns element)) with
        | some t => t
        | none =>
          checkInAndOutPoints env attrs ((s.advance rest).write (Out.startElementNS ns element))
      else checkInAndOutPoints env attrs ((s.advance rest).write (Out.startElementNS ns element)) := by
  simp [readMltStep, QXmlStreamReader.readNext, hErr, hTok, advance, write]

theorem readMltStep_endElement (env : Env) (s : MltXmlChecker) (name : QString)
    (rest : List Token)
    (hErr : s.xml.hasError = false)
    (hTok : s.xml.tokens = Token.EndElement name :: rest) :
    readMltStep env s =
      (if isMltClass name then endMltClass env (s.advance rest) else s.advance rest).write
        Out.endElement := by
  simp [readMltStep, QXmlStreamReader.readNext, hErr, hTok, advance]

theorem replaceChar_both (c : Char) (v : QString) :
    replaceChar '.' c (replaceChar ',' c v) =
      v.map (fun ch => if ch = ',' ∨ ch = '.' then c else ch) := by
  simp only [replaceChar, List.map_map]
  congr 1
  funext ch
  by_cases h1 : ch = ','
  · subst h1
    by_cases h2 : c = '.' <;> simp [h2]
  · by_cases h2 : ch = '.' <;> simp [h1, h2]

theorem contains_iff (s : QString) (c : Char) : contains s c = true ↔ c ∈ s := by
  induction s with
  | nil => simp [contains]
  | cons a s ih =>
    simp only [contains, List.any_cons, Bool.or_eq_true, beq_iff_eq, List.mem_cons] at ih ⊢
    rw [ih]
    constructor <;> (rintro (h | h) <;> simp [h])

/-! ## What every handler leaves alone -/

theorem Frame.frameRefl (s : MltXmlChecker) : Frame s s :=
  ⟨rfl, ⟨[], by simp⟩, le_refl _, id, rfl, id, rfl⟩

theorem Frame.frameTrans {s t u : MltXmlChecker} (h1 : Frame s t) (h2 : Frame t u) : Frame s u := by
  obtain ⟨a1, e1⟩ := h1.out
  obtain ⟨a2, e2⟩ := h2.out
  exact
    ⟨h2.registry.trans h1.registry, ⟨a1 ++ a2, by rw [e2, e1, List.append_assoc]⟩,
      le_trans h2.tokens h1.tokens, fun h => h2.error (h1.error h),
      h2.atEndDocument.trans h1.atEndDocument, fun h => h2.corrected (h1.corrected h),
      h2.basePath.trans h1.basePath⟩

theorem readElementTextAux_length (acc : QString) (ts : List Token) :
    (QXmlStreamReader.readElementTextAux acc ts).2.1.length ≤ ts.length := by
  induction ts generalizing acc with
  | nil => simp [QXmlStreamReader.readElementTextAux]
  | cons t ts ih =>
    cases t <;> simp only [QXmlStreamReader.readElementTextAux, List.length_cons] <;>
      first
        | exact Nat.le_succ _
        | exact Nat.le_succ_of_le (ih _)

theorem frame_write (s : MltXmlChecker) (e : Out) : Frame s (s.write e) :=
  ⟨rfl, ⟨[e], rfl⟩, le_refl _, id, rfl, id, rfl⟩

theorem frame_writeAttributes (s : MltXmlChecker) (attrs : List QXmlStreamAttribute) :
    Frame s (s.writeAttributes attrs) :=
  ⟨rfl, ⟨_, rfl⟩, le_refl _, id, rfl, id, rfl⟩

theorem frame_readElementText (s : MltXmlChecker) : Frame s (s.readElementText).2 := by
  refine ⟨rfl, ⟨[], by simp [MltXmlChecker.readElementText]⟩, ?_, ?_, ?_, id, rfl⟩
  · simp only [MltXmlChecker.readElementText, QXmlStreamReader.readElementText]
    split
    · exact le_refl _
    · exact readElementTextAux_length _ _
  · intro h
    simp [MltXmlChecker.readElementText, QXmlStreamReader.readElementText, h]
  · simp only [MltXmlChecker.readElementText, QXmlStreamReader.readElementText]
    split <;> rfl

theorem checkNumericString_eq (env : Env) (value : QString) (s : MltXmlChecker) :
    checkNumericString env value s =
      (!contains value env.decimalPoint && (contains value '.' || contains value ','),
        if (!contains value env.decimalPoint && (contains value '.' || contains value ',')) = true
        then replaceChar '.' env.decimalPoint (replaceChar ',' env.decimalPoint value)
        else value,
        { s with
          hasComma := s.hasComma || contains value ',',
          hasPeriod := s.hasPeriod || contains value '.',
          numericValueChanged :=
            s.numericValueChanged ||
              (!contains value env.decimalPoint && (contains value '.' || contains value ',')) }) := by
  unfold checkNumericString
  cases h1 : s.hasComma <;> cases h2 : s.hasPeriod <;>
    cases h3 : (!contains value env.decimalPoint && (contains value '.' || contains value ',')) <;>
    simp [h1, h2, h3]

theorem frame_checkNumericString (env : Env) (value : QString) (s : MltXmlChecker) :
    Frame s (checkNumericString env value s).2.2 := by
  rw [checkNumericString_eq]
  exact ⟨rfl, ⟨[], by simp⟩, le_refl _, id, rfl, id, rfl⟩

theorem frame_checkInAndOutPoints (env : Env) (attrs : List QXmlStreamAttribute)
    (s : MltXmlChecker) : Frame s (checkInAndOutPoints env attrs s) := by
  unfold checkInAndOutPoints
  induction attrs generalizing s with
  | nil => exact Frame.frameRefl s
  | cons a attrs ih =>
    rw [List.foldl_cons]
    refine Frame.frameTrans ?_ (ih _)
    split
    · have h := frame_checkNumericString env a.value s
      split <;> rename_i heq <;> rw [heq] at h <;> exact Frame.frameTrans h (frame_write _ _)
    · exact frame_write _ _

theorem Frame.of_eq (s t : MltXmlChecker) (h1 : t.unlinkedFilesModel = s.unlinkedFilesModel)
    (h2 : t.newXml = s.newXml) (h3 : t.xml = s.xml) (h4 : s.isCorrected = true → t.isCorrected = true)
    (h5 : t.basePath = s.basePath) : Frame s t :=
  ⟨h1, ⟨[], by simp [h2]⟩, by rw [h3], by rw [h3]; exact id, by rw [h3], h4, h5⟩

theorem ite_true_of_true (c : Prop) [Decidable c] (b : Bool) (h : b = true) :
    (if c then true else b) = true := by
  split
  · rfl
  · exact h

theorem frame_readText (s : MltXmlChecker) (attrs : List QXmlStreamAttribute) :
    Frame s (s.writeAttributes attrs).readElementText.2 :=
  Frame.frameTrans (frame_writeAttributes s attrs) (frame_readElementText _)

theorem frame_readMltService (env : Env) (attrs : List QXmlStreamAttribute)
    (s t : MltXmlChecker) (h : readMltService env attrs s = some t) : Frame s t := by
  unfold readMltService at h
  split at h
  · cases h
    refine Frame.frameTrans (frame_readText s attrs) ?_
    refine Frame.frameTrans ?_ (frame_write _ _)
    refine Frame.frameTrans ?_ (frame_write _ _)
    exact Frame.of_eq _ _ rfl rfl rfl id rfl
  · cases h

theorem frame_checkNumericProperty (env : Env) (attrs : List QXmlStreamAttribute)
    (s t : MltXmlChecker) (h : checkNumericProperty env attrs s = some t) : Frame s t := by
  unfold checkNumericProperty at h
  split at h
  · cases h
    refine Frame.frameTrans (frame_readText s attrs) ?_
    refine Frame.frameTrans ?_ (frame_write _ _)
    refine Frame.frameTrans ?_ (frame_write _ _)
    exact frame_checkNumericString env _ _
  · cases h

theorem frame_fixWebVfxPath (env : Env) (attrs : List QXmlStreamAttribute)
    (s t : MltXmlChecker) (h : fixWebVfxPath env attrs s = some t) : Frame s t := by
  unfold fixWebVfxPath at h
  split at h
  · cases h
    refine Frame.frameTrans (frame_readText s attrs) ?_
    refine Frame.frameTrans ?_ (frame_write _ _)
    refine Frame.frameTrans ?_ (frame_write _ _)
    refine Frame.of_eq _ _ rfl rfl rfl ?_ rfl
    intro hc
    exact ite_true_of_true _ _ hc
  · cases h

theorem frame_fixUnlinkedFileFrom (env : Env) (s t : MltXmlChecker) (rows : List Row)
    (h : fixUnlinkedFileFrom env s rows = some t) : Frame s t := by
  induction rows with
  | nil => cases h
  | cons row rows ih =>
    unfold fixUnlinkedFileFrom at h
    split at h
    · split at h
      · cases h
        exact ⟨rfl, ⟨[_], rfl⟩, le_refl _, id, rfl, fun _ => rfl, rfl⟩
      · exact ih h
    · exact ih h

theorem frame_readResourceProperty (env : Env) (attrs : List QXmlStreamAttribute)
    (s t : MltXmlChecker) (h : readResourceProperty env attrs s = some t) : Frame s t := by
  unfold readResourceProperty at h
  dsimp only at h
  split at h
  · cases h
    refine Frame.frameTrans (frame_readText s attrs) ?_
    refine Frame.frameTrans ?_ (frame_write _ _)
    split
    · rename_i s1 heq
      refine Frame.frameTrans ?_ (frame_fixUnlinkedFileFrom env _ _ _ heq)
      exact Frame.of_eq _ _ rfl rfl rfl id rfl
    · refine Frame.frameTrans ?_ (frame_write _ _)
      exact Frame.of_eq _ _ rfl rfl rfl id rfl
  · cases h

theorem frame_readShotcutHashProperty (env : Env) (attrs : List QXmlStreamAttribute)
    (s t : MltXmlChecker) (h : readShotcutHashProperty env attrs s = some t) : Frame s t := by
  unfold readShotcutHashProperty at h
  split at h
  · cases h
    refine Frame.frameTrans (frame_readText s attrs) ?_
    refine Frame.frameTrans ?_ (frame_write _ _)
    refine Frame.frameTrans ?_ (frame_write _ _)
    exact Frame.of_eq _ _ rfl rfl rfl id rfl
  · cases h

theorem frame_fixShotcutHashProperty (env : Env) (attrs : List QXmlStreamAttribute)
    (s t : MltXmlChecker) (h : fixShotcutHashProperty env attrs s = some t) : Frame s t := by
  unfold fixShotcutHashProperty at h
  split at h
  · cases h
    refine Frame.frameTrans (frame_readText s attrs) ?_
    refine Frame.frameTrans ?_ (frame_write _ _)
    refine Frame.frameTrans ?_ (frame_write _ _)
    exact Frame.of_eq _ _ rfl rfl rfl id rfl
  · cases h

theorem frame_fixShotcutDetailProperty (env : Env) (attrs : List QXmlStreamAttribute)
    (s t : MltXmlChecker) (h : fixShotcutDetailProperty env attrs s = some t) : Frame s t := by
  unfold fixShotcutDetailProperty at h
  split at h
  · cases h
    refine Frame.frameTrans ?_ (frame_readElementText _)
    refine Frame.frameTrans ?_ (frame_write _ _)
    refine Frame.frameTrans ?_ (frame_write _ _)
    exact frame_writeAttributes s attrs
  · cases h

theorem frame_fixShotcutCaptionProperty (env : Env) (attrs : List QXmlStreamAttribute)
    (s t : MltXmlChecker) (h : fixShotcutCaptionProperty env attrs s = some t) : Frame s t := by
  unfold fixShotcutCaptionProperty at h
  split at h
  · cases h
    refine Frame.frameTrans ?_ (frame_readElementText _)
    refine Frame.frameTrans ?_ (frame_write _ _)
    refine Frame.frameTrans ?_ (frame_write _ _)
    exact frame_writeAttributes s attrs
  · cases h

theorem frame_fixAudioIndexProperty (attrs : List QXmlStreamAttribute)
    (s t : MltXmlChecker) (h : fixAudioIndexProperty attrs s = some t) : Frame s t := by
  unfold fixAudioIndexProperty at h
  split at h
  · cases h
    refine Frame.frameTrans ?_ (frame_readElementText _)
    refine Frame.frameTrans ?_ (frame_write _ _)
    exact frame_writeAttributes s attrs
  · cases h

theorem frame_fixVideoIndexProperty (attrs : List QXmlStreamAttribute)
    (s t : MltXmlChecker) (h : fixVideoIndexProperty attrs s = some t) : Frame s t := by
  unfold fixVideoIndexProperty at h
  split at h
  · cases h
    refine Frame.frameTrans ?_ (frame_readElementText _)
    refine Frame.frameTrans ?_ (frame_write _ _)
    exact frame_writeAttributes s attrs
  · cases h

theorem frame_propertyHandlers (env : Env) (attrs : List QXmlStreamAttribute)
    (s t : MltXmlChecker) (h : propertyHandlers env attrs s = some t) : Frame s t := by
  unfold propertyHandlers at h
  split at h
  · cases h; exact frame_readMltService env attrs s _ (by assumption)
  split at h
  · cases h; exact frame_checkNumericProperty env attrs s _ (by assumption)
  split at h
  swap
  · cases h
  split at h
  · cases h
    rename_i heq
    split at heq
    · exact frame_fixWebVfxPath env attrs s _ heq
    · cases heq
  split at h
  · cases h; exact frame_readResourceProperty env attrs s _ (by assumption)
  split at h
  · cases h; exact frame_fixShotcutHashProperty env attrs s _ (by assumption)
  split at h
  · cases h; exact frame_readShotcutHashProperty env attrs s _ (by assumption)
  split at h
  · cases h; exact frame_fixShotcutDetailProperty env attrs s _ (by assumption)
  split at h
  · cases h; exact frame_fixShotcutCaptionProperty env attrs s _ (by assumption)
  split at h
  · cases h; exact frame_fixAudioIndexProperty attrs s _ (by assumption)
  · exact frame_fixVideoIndexProperty attrs s _ h

/-! ## What every pass of the loop does -/

theorem pass_of_frame (s s1 t : MltXmlChecker) (e : Out) (he : e.isAttribute = false)
    (h1 : s1.newXml = s.newXml ++ [e]) (h2 : s1.unlinkedFilesModel = s.unlinkedFilesModel)
    (h3 : s1.xml.tokens.length < s.xml.tokens.length)
    (h4 : s1.xml.atEndDocument = s.xml.atEndDocument ∨ s1.xml.atEndDocument = true)
    (h5 : s1.isCorrected = s.isCorrected) (h6 : s1.basePath = s.basePath) (h : Frame s1 t) :
    Pass s t := by
  obtain ⟨a, ha⟩ := h.out
  refine ⟨⟨e :: a, by rw [ha, h1]; simp, ?_⟩, Or.inl (h.registry.trans h2), ?_, ?_, ?_, ?_⟩
  · intro e1 h1
    simp at h1
    rw [← h1]
    exact he
  · intro _
    exact Or.inr (lt_of_le_of_lt h.tokens h3)
  · intro hs
    rw [h.atEndDocument]
    rcases h4 with h4 | h4
    · rw [h4]; exact hs
    · exact h4
  · intro hs
    exact h.corrected (by rw [h5]; exact hs)
  · exact h.basePath.trans h6

theorem frame_endMltClass_write (env : Env) (s : MltXmlChecker) :
    ((endMltClass env s).write Out.endElement).newXml = s.newXml ++ [Out.endElement] ∧
      ((endMltClass env s).write Out.endElement).xml = s.xml ∧
      ((endMltClass env s).write Out.endElement).isCorrected = s.isCorrected ∧
      ((endMltClass env s).write Out.endElement).basePath = s.basePath := by
  unfold endMltClass
  dsimp only
  split
  · split
    · split <;> exact ⟨rfl, rfl, rfl, rfl⟩
    · exact ⟨rfl, rfl, rfl, rfl⟩
  · exact ⟨rfl, rfl, rfl, rfl⟩

theorem endMltClass_registry (env : Env) (s : MltXmlChecker) :
    (endMltClass env s).unlinkedFilesModel =
      if s.service.name ≠ [] ∧ s.service.resource ≠ [] ∧ env.fileExists s.service.resource = false ∧
          ¬ (s.service.name = "color".toList ∨ s.service.name = "colour".toList) ∧
          ∀ r ∈ s.unlinkedFilesModel, r.missing.text ≠ s.service.resource then
        s.unlinkedFilesModel ++
          [{ missing := { text := s.service.resource, hash := s.service.hash }, replacement := none }]
      else s.unlinkedFilesModel := by
  have hfilter :
      (s.unlinkedFilesModel.filter (fun row => row.missing.text == s.service.resource)).isEmpty = true ↔
        ∀ r ∈ s.unlinkedFilesModel, r.missing.text ≠ s.service.resource := by
    rw [List.isEmpty_iff, List.filter_eq_nil_iff]
    simp
  unfold endMltClass
  dsimp only
  by_cases h1 : s.service.name ≠ [] ∧ s.service.resource ≠ [] ∧ env.fileExists s.service.resource = false
  · by_cases h2 : ¬ (s.service.name = "color".toList ∨ s.service.name = "colour".toList)
    · by_cases h3 : ∀ r ∈ s.unlinkedFilesModel, r.missing.text ≠ s.service.resource
      · rw [if_pos h1, if_pos h2, if_pos (hfilter.mpr h3), if_pos ⟨h1.1, h1.2.1, h1.2.2, h2, h3⟩]
      · rw [if_pos h1, if_pos h2, if_neg (fun h => h3 (hfilter.mp h)), if_neg (fun h => h3 h.2.2.2.2)]
    · rw [if_pos h1, if_neg h2, if_neg (fun h => h2 h.2.2.2.1)]
  · rw [if_neg h1, if_neg (fun h => h1 ⟨h.1, h.2.1, h.2.2.1⟩)]

theorem pass_write (s : MltXmlChecker) (tok : Token) (rest : List Token) (e : Out)
    (he : e.isAttribute = false) (hTok : s.xml.tokens = tok :: rest) :
    Pass s ((s.advance rest).write e) :=
  pass_of_frame s ((s.advance rest).write e) _ e he rfl rfl (by simp [advance, write, hTok])
    (Or.inl rfl) rfl rfl (Frame.frameRefl _)

theorem pass_start (s t : MltXmlChecker) (ns element : QString)
    (attrs : List QXmlStreamAttribute) (rest : List Token) (mlt_class : QString)
    (hTok : s.xml.tokens = Token.StartElement ns element attrs :: rest)
    (h : Frame { (s.advance rest).write (Out.startElementNS ns element) with mlt_class := mlt_class } t) :
    Pass s t :=
  pass_of_frame s
    { (s.advance rest).write (Out.startElementNS ns element) with mlt_class := mlt_class } t
    (Out.startElementNS ns element) rfl rfl rfl (by simp [advance, write, hTok]) (Or.inl rfl) rfl rfl h

theorem pass_readMltStep (env : Env) (s : MltXmlChecker) : Pass s (readMltStep env s) := by
  cases hErr : s.xml.hasError with
  | true =>
    have h : readMltStep env s = s := by
      simp [readMltStep, QXmlStreamReader.readNext, hErr]
    rw [h]
    exact ⟨⟨[], by simp, by simp⟩, Or.inl rfl, fun h => absurd (hErr.symm.trans h) (by simp), id, id, rfl⟩
  | false =>
    cases hTok : s.xml.tokens with
    | nil =>
      have h : readMltStep env s = { s with xml := s.xml.raiseError } := by
        simp [readMltStep, QXmlStreamReader.readNext, hErr, hTok]
      rw [h]
      exact ⟨⟨[], by simp, by simp⟩, Or.inl rfl, fun _ => Or.inl rfl, id, id, rfl⟩
    | cons tok rest =>
      have hlt : (s.advance rest).xml.tokens.length < s.xml.tokens.length := by
        simp [advance, hTok]
      cases tok with
      | StartDocument version standalone =>
        have h : readMltStep env s =
            (s.advance rest).write (Out.startDocumentVersion version standalone) := by
          simp [readMltStep, QXmlStreamReader.readNext, hErr, hTok, advance]
        rw [h]
        exact pass_write s _ rest _ rfl hTok
      | EndDocument =>
        have h : readMltStep env s =
            ({ s with xml := { s.xml with tokens := rest, atEndDocument := true } }).write
              Out.endDocument := by
          simp [readMltStep, QXmlStreamReader.readNext, hErr, hTok]
        rw [h]
        exact pass_of_frame s
          (({ s with xml := { s.xml with tokens := rest, atEndDocument := true } }).write
            Out.endDocument)
          _ Out.endDocument rfl rfl rfl hlt (Or.inr rfl) rfl rfl (Frame.frameRefl _)
      | StartElement ns element attrs =>
        rw [readMltStep_startElement env s ns element attrs rest hErr hTok]
        split
        · exact pass_start s _ ns element attrs rest element hTok
            (frame_checkInAndOutPoints env attrs _)
        · split
          · split
            · rename_i t heq
              exact pass_start s _ ns element attrs rest s.mlt_class hTok
                (frame_propertyHandlers env attrs _ _ heq)
            · exact pass_start s _ ns element attrs rest s.mlt_class hTok
                (frame_checkInAndOutPoints env attrs _)
          · exact pass_start s _ ns element attrs rest s.mlt_class hTok
              (frame_checkInAndOutPoints env attrs _)
      | EndElement name =>
        rw [readMltStep_endElement env s name rest hErr hTok]
        split
        · obtain ⟨h1, h2, h3, h4⟩ := frame_endMltClass_write env (s.advance rest)
          refine ⟨⟨[Out.endElement], h1, ?_⟩, ?_, ?_, ?_, ?_, h4⟩
          · intro e he
            simp at he
            rw [← he]
            rfl
          · have hreg :
                ((endMltClass env (s.advance rest)).write Out.endElement).unlinkedFilesModel =
                  (endMltClass env (s.advance rest)).unlinkedFilesModel := rfl
            rw [hreg, endMltClass_registry]
            split
            · rename_i hc
              exact Or.inr
                ⟨{ missing := { text := s.service.resource, hash := s.service.hash },
                    replacement := none },
                  hc.2.2.2.2, rfl⟩
            · exact Or.inl rfl
          · intro _
            rw [h2]
            exact Or.inr hlt
          · rw [h2]
            exact id
          · rw [h3]
            exact id
        · exact pass_write s _ rest _ rfl hTok
      | Characters text =>
        have h : readMltStep env s = (s.advance rest).write (Out.characters text) := by
          simp [readMltStep, QXmlStreamReader.readNext, hErr, hTok, advance]
        rw [h]
        exact pass_write s _ rest _ rfl hTok
      | Comment text =>
        have h : readMltStep env s = (s.advance rest).write (Out.comment text) := by
          simp [readMltStep, QXmlStreamReader.readNext, hErr, hTok, advance]
        rw [h]
        exact pass_write s _ rest _ rfl hTok
      | DTD text =>
        have h : readMltStep env s = (s.advance rest).write (Out.dtd text) := by
          simp [readMltStep, QXmlStreamReader.readNext, hErr, hTok, advance]
        rw [h]
        exact pass_write s _ rest _ rfl hTok
      | EntityReference name text =>
        have h : readMltStep env s = (s.advance rest).write (Out.entityReference name) := by
          simp [readMltStep, QXmlStreamReader.readNext, hErr, hTok, advance]
        rw [h]
        exact pass_write s _ rest _ rfl hTok
      | ProcessingInstruction target data =>
        have h : readMltStep env s =
            (s.advance rest).write (Out.processingInstruction target data) := by
          simp [readMltStep, QXmlStreamReader.readNext, hErr, hTok, advance]
        rw [h]
        exact pass_write s _ rest _ rfl hTok
      | Invalid =>
        have h : readMltStep env s =
            { s with xml := { s.xml.raiseError with tokens := rest } } := by
          simp [readMltStep, QXmlStreamReader.readNext, hErr, hTok]
        rw [h]
        exact ⟨⟨[], by simp, by simp⟩, Or.inl rfl, fun _ => Or.inl rfl, id, id, rfl⟩

/-! ## What the whole loop does -/

theorem Run.runRefl (s : MltXmlChecker) : Run s s :=
  ⟨⟨[], by simp, by simp⟩, ⟨[], by simp⟩, id, id, rfl⟩

theorem head_append_not_attribute (a b : List Out)
    (ha : ∀ e, a.head? = some e → e.isAttribute = false)
    (hb : ∀ e, b.head? = some e → e.isAttribute = false) :
    ∀ e, (a ++ b).head? = some e → e.isAttribute = false := by
  cases a with
  | nil => simpa using hb
  | cons x a => simpa using ha

theorem Run.runTrans {s t u : MltXmlChecker} (h1 : Run s t) (h2 : Run t u) : Run s u := by
  obtain ⟨a1, e1, n1⟩ := h1.out
  obtain ⟨a2, e2, n2⟩ := h2.out
  obtain ⟨r1, f1⟩ := h1.registry
  obtain ⟨r2, f2⟩ := h2.registry
  exact
    ⟨⟨a1 ++ a2, by rw [e2, e1, List.append_assoc], head_append_not_attribute a1 a2 n1 n2⟩,
      ⟨r1 ++ r2, by rw [f2, f1, List.append_assoc]⟩, fun h => h2.nodup (h1.nodup h),
      fun h => h2.corrected (h1.corrected h), h2.basePath.trans h1.basePath⟩

theorem Run.of_pass {s t : MltXmlChecker} (h : Pass s t) : Run s t := by
  refine ⟨h.out, ?_, ?_, h.corrected, h.basePath⟩
  · rcases h.registry with h1 | ⟨row, _, h1⟩
    · exact ⟨[], by simp [h1]⟩
    · exact ⟨[row], h1⟩
  · intro hn
    rcases h.registry with h1 | ⟨row, hrow, h1⟩
    · rw [h1]; exact hn
    · rw [h1, List.map_append, List.nodup_append]
      refine ⟨hn, by simp, ?_⟩
      intro a ha hb
      simp only [List.map_cons, List.map_nil, List.mem_singleton] at hb
      obtain ⟨r, hr, hra⟩ := List.mem_map.mp ha
      exact hrow r hr (hra.trans hb)

theorem run_readMltLoop (env : Env) (fuel : Nat) (s : MltXmlChecker) :
    Run s (readMltLoop env fuel s) := by
  induction fuel generalizing s with
  | zero => exact Run.runRefl s
  | succ n ih =>
    unfold readMltLoop
    split
    · exact Run.runRefl s
    · exact Run.runTrans (Run.of_pass (pass_readMltStep env s)) (ih _)

theorem readMltLoop_atEnd (env : Env) (fuel : Nat) (s : MltXmlChecker)
    (h : s.xml.atEnd = true ∨ s.xml.tokens.length < fuel) :
    (readMltLoop env fuel s).xml.atEnd = true := by
  induction fuel generalizing s with
  | zero =>
    rcases h with h | h
    · exact h
    · exact absurd h (Nat.not_lt_zero _)
  | succ n ih =>
    unfold readMltLoop
    split
    · assumption
    · rename_i hne
      apply ih
      have hErr : s.xml.hasError = false := by
        cases he : s.xml.hasError
        · rfl
        · exact absurd (by simp [QXmlStreamReader.atEnd, he]) hne
      rcases (pass_readMltStep env s).progress hErr with hp | hp
      · exact Or.inl (by simp [QXmlStreamReader.atEnd, hp])
      · rcases h with h | h
        · exact absurd h hne
        · exact Or.inr (by omega)

/-- The loop of `readMlt` runs to its end: when `readMlt` returns, the reader
is at the end of the document or has raised an error. -/
theorem readMlt_atEnd (env : Env) (s : MltXmlChecker) : (readMlt env s).xml.atEnd = true :=
  readMltLoop_atEnd env _ _ (Or.inr (Nat.lt_succ_self _))

theorem run_readMlt (env : Env) (s : MltXmlChecker) : Run s (readMlt env s) := by
  have h := run_readMltLoop env (s.xml.tokens.length + 1) { s with mlt_class := [] }
  exact ⟨h.out, h.registry, h.nodup, h.corrected, h.basePath⟩

/-! ## No handler reads `m_isCorrected`

Every piece of `readMlt` commutes with setting the flag: what it does to the
rest of the checker does not depend on the flag, and it never clears it. -/

theorem setCorrected_checkInAndOutPoints (env : Env) (attrs : List QXmlStreamAttribute)
    (s : MltXmlChecker) :
    checkInAndOutPoints env attrs (s.setCorrected true) =
      (checkInAndOutPoints env attrs s).setCorrected true := by
  unfold checkInAndOutPoints
  induction attrs generalizing s with
  | nil => rfl
  | cons a attrs ih =>
    rw [List.foldl_cons, List.foldl_cons, ← ih]
    congr 1
    split
    · simp only [checkNumericString_eq]
      generalize
        (!contains a.value env.decimalPoint && (contains a.value '.' || contains a.value ',')) = b
      cases b <;> rfl
    · rfl

theorem setCorrected_readMltService (env : Env) (attrs : List QXmlStreamAttribute)
    (s : MltXmlChecker) :
    readMltService env attrs (s.setCorrected true) =
      (readMltService env attrs s).map (setCorrected true) := by
  unfold readMltService
  split <;> rfl

theorem setCorrected_checkNumericProperty (env : Env) (attrs : List QXmlStreamAttribute)
    (s : MltXmlChecker) :
    checkNumericProperty env attrs (s.setCorrected true) =
      (checkNumericProperty env attrs s).map (setCorrected true) := by
  unfold checkNumericProperty
  split
  · simp only [checkNumericString_eq]
    rfl
  · rfl

theorem setCorrected_fixWebVfxPath (env : Env) (attrs : List QXmlStreamAttribute)
    (s : MltXmlChecker) :
    fixWebVfxPath env attrs (s.setCorrected true) =
      (fixWebVfxPath env attrs s).map (setCorrected true) := by
  unfold fixWebVfxPath
  split
  · simp only [Option.map_some', setCorrected, write, writeAttributes,
      MltXmlChecker.readElementText, ite_self]
  · rfl

theorem setCorrected_fixUnlinkedFileFrom (env : Env) (s : MltXmlChecker) (rows : List Row) :
    fixUnlinkedFileFrom env (s.setCorrected true) rows =
      (fixUnlinkedFileFrom env s rows).map (setCorrected true) := by
  induction rows with
  | nil => rfl
  | cons row rows ih =>
    cases hr : row.replacement with
    | none =>
      simp only [fixUnlinkedFileFrom, hr]
      exact ih
    | some r =>
      simp only [fixUnlinkedFileFrom, hr]
      by_cases hc : r.text ≠ [] ∧ row.missing.text = s.service.resource
      · have hc2 : r.text ≠ [] ∧ row.missing.text = (s.setCorrected true).service.resource := hc
        rw [if_pos hc, if_pos hc2]
        rfl
      · have hc2 : ¬ (r.text ≠ [] ∧ row.missing.text = (s.setCorrected true).service.resource) := hc
        rw [if_neg hc, if_neg hc2]
        exact ih

theorem readResourceProperty_eq (env : Env) (attrs : List QXmlStreamAttribute)
    (s : MltXmlChecker) :
    readResourceProperty env attrs s =
      if attrValue attrs "name".toList = "resource".toList ∨
          attrValue attrs "name".toList = "src".toList ∨
          attrValue attrs "name".toList = "filename".toList ∨
          attrValue attrs "name".toList = "luma".toList ∨
          attrValue attrs "name".toList = "luma.resource".toList ∨
          attrValue attrs "name".toList = "composite.luma".toList ∨
          attrValue attrs "name".toList = "producer.resource".toList then
        some
          ((match fixUnlinkedFileFrom env (storeResource env attrs s) s.unlinkedFilesModel with
            | some s1 => s1
            | none => (storeResource env attrs s).write (Out.characters s.xml.readElementText.1)).write
            Out.endElement)
      else none := by
  unfold readResourceProperty
  dsimp only
  split <;> rfl

theorem setCorrected_readResourceProperty (env : Env) (attrs : List QXmlStreamAttribute)
    (s : MltXmlChecker) :
    readResourceProperty env attrs (s.setCorrected true) =
      (readResourceProperty env attrs s).map (setCorrected true) := by
  rw [readResourceProperty_eq, readResourceProperty_eq]
  split
  · have h : storeResource env attrs (s.setCorrected true) =
        (storeResource env attrs s).setCorrected true := rfl
    have h2 : (s.setCorrected true).unlinkedFilesModel = s.unlinkedFilesModel := rfl
    rw [h, h2, setCorrected_fixUnlinkedFileFrom]
    cases fixUnlinkedFileFrom env (storeResource env attrs s) s.unlinkedFilesModel <;> rfl
  · rfl

theorem setCorrected_readShotcutHashProperty (env : Env) (attrs : List QXmlStreamAttribute)
    (s : MltXmlChecker) :
    readShotcutHashProperty env attrs (s.setCorrected true) =
      (readShotcutHashProperty env attrs s).map (setCorrected true) := by
  unfold readShotcutHashProperty
  split <;> rfl

theorem setCorrected_fixShotcutHashProperty (env : Env) (attrs : List QXmlStreamAttribute)
    (s : MltXmlChecker) :
    fixShotcutHashProperty env attrs (s.setCorrected true) =
      (fixShotcutHashProperty env attrs s).map (setCorrected true) := by
  unfold fixShotcutHashProperty
  by_cases hc : attrValue attrs "name".toList = env.kShotcutHashProperty ∧ s.service.newHash ≠ []
  · have hc2 : attrValue attrs "name".toList = env.kShotcutHashProperty ∧
        (s.setCorrected true).service.newHash ≠ [] := hc
    rw [if_pos hc, if_pos hc2]
    rfl
  · have hc2 : ¬ (attrValue attrs "name".toList = env.kShotcutHashProperty ∧
        (s.setCorrected true).service.newHash ≠ []) := hc
    rw [if_neg hc, if_neg hc2]
    rfl

theorem setCorrected_fixShotcutDetailProperty (env : Env) (attrs : List QXmlStreamAttribute)
    (s : MltXmlChecker) :
    fixShotcutDetailProperty env attrs (s.setCorrected true) =
      (fixShotcutDetailProperty env attrs s).map (setCorrected true) := by
  unfold fixShotcutDetailProperty
  by_cases hc : attrValue attrs "name".toList = env.kShotcutCaptionProperty ∧ s.service.newDetail ≠ []
  · have hc2 : attrValue attrs "name".toList = env.kShotcutCaptionProperty ∧
        (s.setCorrected true).service.newDetail ≠ [] := hc
    rw [if_pos hc, if_pos hc2]
    rfl
  · have hc2 : ¬ (attrValue attrs "name".toList = env.kShotcutCaptionProperty ∧
        (s.setCorrected true).service.newDetail ≠ []) := hc
    rw [if_neg hc, if_neg hc2]
    rfl

theorem setCorrected_fixShotcutCaptionProperty (env : Env) (attrs : List QXmlStreamAttribute)
    (s : MltXmlChecker) :
    fixShotcutCaptionProperty env attrs (s.setCorrected true) =
      (fixShotcutCaptionProperty env attrs s).map (setCorrected true) := by
  unfold fixShotcutCaptionProperty
  by_cases hc : attrValue attrs "name".toList = env.kShotcutDetailProperty ∧ s.service.newDetail ≠ []
  · have hc2 : attrValue attrs "name".toList = env.kShotcutDetailProperty ∧
        (s.setCorrected true).service.newDetail ≠ [] := hc
    rw [if_pos hc, if_pos hc2]
    rfl
  · have hc2 : ¬ (attrValue attrs "name".toList = env.kShotcutDetailProperty ∧
        (s.setCorrected true).service.newDetail ≠ []) := hc
    rw [if_neg hc, if_neg hc2]
    rfl

theorem setCorrected_fixAudioIndexProperty (attrs : List QXmlStreamAttribute)
    (s : MltXmlChecker) :
    fixAudioIndexProperty attrs (s.setCorrected true) =
      (fixAudioIndexProperty attrs s).map (setCorrected true) := by
  unfold fixAudioIndexProperty
  by_cases hc : attrValue attrs "name".toList = "audio_index".toList ∧ s.service.hash ≠ [] ∧
      s.service.newHash ≠ [] ∧ s.service.hash ≠ s.service.newHash
  · have hc2 : attrValue attrs "name".toList = "audio_index".toList ∧
        (s.setCorrected true).service.hash ≠ [] ∧ (s.setCorrected true).service.newHash ≠ [] ∧
        (s.setCorrected true).service.hash ≠ (s.setCorrected true).service.newHash := hc
    rw [if_pos hc, if_pos hc2]
    rfl
  · have hc2 : ¬ (attrValue attrs "name".toList = "audio_index".toList ∧
        (s.setCorrected true).service.hash ≠ [] ∧ (s.setCorrected true).service.newHash ≠ [] ∧
        (s.setCorrected true).service.hash ≠ (s.setCorrected true).service.newHash) := hc
    rw [if_neg hc, if_neg hc2]
    rfl

theorem setCorrected_fixVideoIndexProperty (attrs : List QXmlStreamAttribute)
    (s : MltXmlChecker) :
    fixVideoIndexProperty attrs (s.setCorrected true) =
      (fixVideoIndexProperty attrs s).map (setCorrected true) := by
  unfold fixVideoIndexProperty
  by_cases hc : attrValue attrs "name".toList = "video_index".toList ∧ s.service.hash ≠ [] ∧
      s.service.newHash ≠ [] ∧ s.service.hash ≠ s.service.newHash
  · have hc2 : attrValue attrs "name".toList = "video_index".toList ∧
        (s.setCorrected true).service.hash ≠ [] ∧ (s.setCorrected true).service.newHash ≠ [] ∧
        (s.setCorrected true).service.hash ≠ (s.setCorrected true).service.newHash := hc
    rw [if_pos hc, if_pos hc2]
    rfl
  · have hc2 : ¬ (attrValue attrs "name".toList = "video_index".toList ∧
        (s.setCorrected true).service.hash ≠ [] ∧ (s.setCorrected true).service.newHash ≠ [] ∧
        (s.setCorrected true).service.hash ≠ (s.setCorrected true).service.newHash) := hc
    rw [if_neg hc, if_neg hc2]
    rfl

theorem setCorrected_propertyHandlers (env : Env) (attrs : List QXmlStreamAttribute)
    (s : MltXmlChecker) :
    propertyHandlers env attrs (s.setCorrected true) =
      (propertyHandlers env attrs s).map (setCorrected true) := by
  have hm : (s.setCorrected true).mlt_class = s.mlt_class := rfl
  have hn : (s.setCorrected true).service.name = s.service.name := rfl
  unfold propertyHandlers
  rw [setCorrected_readMltService, setCorrected_checkNumericProperty, setCorrected_fixWebVfxPath,
    setCorrected_readResourceProperty, setCorrected_fixShotcutHashProperty,
    setCorrected_readShotcutHashProperty, setCorrected_fixShotcutDetailProperty,
    setCorrected_fixShotcutCaptionProperty, setCorrected_fixAudioIndexProperty,
    setCorrected_fixVideoIndexProperty, hm, hn]
  cases readMltService env attrs s with
  | some t => rfl
  | none =>
  cases checkNumericProperty env attrs s with
  | some t => rfl
  | none =>
  simp only [Option.map_none']
  split
  swap
  · rfl
  have hw : (if s.service.name = "webvfx".toList then
        Option.map (setCorrected true) (fixWebVfxPath env attrs s) else none) =
      Option.map (setCorrected true)
        (if s.service.name = "webvfx".toList then fixWebVfxPath env attrs s else none) := by
    split <;> rfl
  rw [hw]
  cases (if s.service.name = "webvfx".toList then fixWebVfxPath env attrs s else none) with
  | some t => rfl
  | none =>
  cases readResourceProperty env attrs s with
  | some t => rfl
  | none =>
  cases fixShotcutHashProperty env attrs s with
  | some t => rfl
  | none =>
  cases readShotcutHashProperty env attrs s with
  | some t => rfl
  | none =>
  cases fixShotcutDetailProperty env attrs s with
  | some t => rfl
  | none =>
  cases fixShotcutCaptionProperty env attrs s with
  | some t => rfl
  | none =>
  cases fixAudioIndexProperty attrs s with
  | some t => rfl
  | none => rfl

theorem setCorrected_endMltClass (env : Env) (s : MltXmlChecker) :
    endMltClass env (s.setCorrected true) = (endMltClass env s).setCorrected true := by
  unfold endMltClass
  dsimp only
  have h1 : (s.setCorrected true).service = s.service := rfl
  have h2 : (s.setCorrected true).unlinkedFilesModel = s.unlinkedFilesModel := rfl
  rw [h1, h2]
  split
  · split
    · split <;> rfl
    · rfl
  · rfl

theorem setCorrected_readMltStep (env : Env) (s : MltXmlChecker) :
    readMltStep env (s.setCorrected true) = (readMltStep env s).setCorrected true := by
  have hx : (s.setCorrected true).xml = s.xml := rfl
  unfold readMltStep
  rw [hx]
  cases hr : s.xml.readNext with
  | mk tok xml =>
    cases tok with
    | StartElement ns element attrs =>
      dsimp only
      split
      · exact setCorrected_checkInAndOutPoints env attrs
          { ({ s with xml := xml }).write (Out.startElementNS ns element) with
            mlt_class := element }
      · split
        · have h := setCorrected_propertyHandlers env attrs
            (({ s with xml := xml }).write (Out.startElementNS ns element))
          have h2 : (({ s.setCorrected true with xml := xml }).write
              (Out.startElementNS ns element)) =
              (({ s with xml := xml }).write (Out.startElementNS ns element)).setCorrected true :=
            rfl
          rw [h2, h]
          cases propertyHandlers env attrs
            (({ s with xml := xml }).write (Out.startElementNS ns element)) with
          | some t => rfl
          | none =>
            exact setCorrected_checkInAndOutPoints env attrs
              (({ s with xml := xml }).write (Out.startElementNS ns element))
        · exact setCorrected_checkInAndOutPoints env attrs
            (({ s with xml := xml }).write (Out.startElementNS ns element))
    | EndElement name =>
      dsimp only
      split
      · have h := setCorrected_endMltClass env { s with xml := xml }
        have h2 : ({ s.setCorrected true with xml := xml } : MltXmlChecker) =
            ({ s with xml := xml } : MltXmlChecker).setCorrected true := rfl
        rw [h2, h]
        rfl
      · rfl
    | _ => rfl

theorem setCorrected_readMltLoop (env : Env) (fuel : Nat) (s : MltXmlChecker) :
    readMltLoop env fuel (s.setCorrected true) = (readMltLoop env fuel s).setCorrected true := by
  induction fuel generalizing s with
  | zero => rfl
  | succ n ih =>
    have hx : (s.setCorrected true).xml = s.xml := rfl
    unfold readMltLoop
    rw [hx]
    split
    · rfl
    · rw [setCorrected_readMltStep, ih]

theorem setCorrected_readMlt (env : Env) (s : MltXmlChecker) :
    readMlt env (s.setCorrected true) = (readMlt env s).setCorrected true :=
  setCorrected_readMltLoop env _ { s with mlt_class := [] }

/-! ## The handlers that decline -/

theorem readMltService_none (env : Env) (attrs : List QXmlStreamAttribute) (s : MltXmlChecker)
    (h : attrValue attrs "name".toList ≠ "mlt_service".toList) :
    readMltService env attrs s = none := by
  unfold readMltService
  rw [if_neg h]

theorem checkNumericProperty_none (env : Env) (attrs : List QXmlStreamAttribute)
    (s : MltXmlChecker)
    (h1 : attrValue attrs "name".toList ≠ "length".toList)
    (h2 : attrValue attrs "name".toList ≠ "geometry".toList) :
    checkNumericProperty env attrs s = none := by
  unfold checkNumericProperty
  rw [if_neg (not_or.mpr ⟨h1, h2⟩)]

theorem fixWebVfxPath_none (env : Env) (attrs : List QXmlStreamAttribute) (s : MltXmlChecker)
    (h : ¬ (s.service.name = "webvfx".toList ∧ attrValue attrs "name".toList = "resource".toList)) :
    (if s.service.name = "webvfx".toList then fixWebVfxPath env attrs s else none) = none := by
  split
  · rename_i hw
    have hr : attrValue attrs "name".toList ≠ "resource".toList := fun hr => h ⟨hw, hr⟩
    unfold fixWebVfxPath
    rw [if_neg hr]
  · rfl

theorem fixUnlinkedFileFrom_eq (env : Env) (s : MltXmlChecker) (rows : List Row) :
    fixUnlinkedFileFrom env s rows =
      (Spec.replacementFor rows s.service.resource).map (fun r =>
        { s with
          service :=
            { s.service with
              resource := env.fileInfoPath r.text, newDetail := r.text, newHash := r.hash },
          newXml := s.newXml ++ [Out.characters r.text],
          isCorrected := true }) := by
  induction rows with
  | nil => rfl
  | cons row rows ih =>
    cases hr : row.replacement with
    | none =>
      simp only [fixUnlinkedFileFrom, hr, ih, Spec.replacementFor, List.find?_cons,
        Bool.and_false]
    | some r =>
      simp only [fixUnlinkedFileFrom, hr, ih, Spec.replacementFor, List.find?_cons]
      by_cases h1 : r.text = []
      · simp [h1]
      · by_cases h2 : row.missing.text = s.service.resource
        · simp [h1, h2, hr, write]
        · simp [h1, h2]

theorem readElementText_openProperty (s : MltXmlChecker) (ns : QString) (rest : List Token)
    (hErr : s.xml.hasError = false) :
    (s.openProperty ns rest).xml.readElementText =
      (elementText rest,
        { tokens := (QXmlStreamReader.readElementTextAux [] rest).2.1,
          hasError := (QXmlStreamReader.readElementTextAux [] rest).2.2,
          atEndDocument := s.xml.atEndDocument }) := by
  simp [QXmlStreamReader.readElementText, openProperty, advance, write, hErr, elementText]

theorem readMltStep_property (env : Env) (s : MltXmlChecker) (ns : QString)
    (attrs : List QXmlStreamAttribute) (rest : List Token)
    (hErr : s.xml.hasError = false)
    (hTok : s.xml.tokens = Token.StartElement ns "property".toList attrs :: rest) :
    readMltStep env s =
      match propertyHandlers env attrs (s.openProperty ns rest) with
      | some t => t
      | none => checkInAndOutPoints env attrs (s.openProperty ns rest) := by
  have hc : isMltClass "property".toList = false := by decide
  rw [readMltStep_startElement env s ns _ attrs rest hErr hTok]
  simp only [hc, Bool.false_eq_true, if_false, if_true]
  rfl

theorem propertyHandlers_eq (env : Env) (attrs : List QXmlStreamAttribute) (s : MltXmlChecker) :
    propertyHandlers env attrs s =
      (readMltService env attrs s).or
        ((checkNumericProperty env attrs s).or
          (if s.mlt_class = "filter".toList ∨ s.mlt_class = "transition".toList ∨
              s.mlt_class = "producer".toList then
            (if s.service.name = "webvfx".toList then fixWebVfxPath env attrs s else none).or
              ((readResourceProperty env attrs s).or
                ((fixShotcutHashProperty env attrs s).or
                  ((readShotcutHashProperty env attrs s).or
                    ((fixShotcutDetailProperty env attrs s).or
                      ((fixShotcutCaptionProperty env attrs s).or
                        ((fixAudioIndexProperty attrs s).or (fixVideoIndexProperty attrs s)))))))
          else none)) := by
  unfold propertyHandlers
  cases readMltService env attrs s with
  | some t => rfl
  | none =>
  cases checkNumericProperty env attrs s with
  | some t => rfl
  | none =>
  simp only [Option.none_or]
  split
  swap
  · rfl
  cases (if s.service.name = "webvfx".toList then fixWebVfxPath env attrs s else none) with
  | some t => rfl
  | none =>
  cases readResourceProperty env attrs s with
  | some t => rfl
  | none =>
  cases fixShotcutHashProperty env attrs s with
  | some t => rfl
  | none =>
  cases readShotcutHashProperty env attrs s with
  | some t => rfl
  | none =>
  cases fixShotcutDetailProperty env attrs s with
  | some t => rfl
  | none =>
  cases fixShotcutCaptionProperty env attrs s with
  | some t => rfl
  | none =>
  cases fixAudioIndexProperty attrs s with
  | some t => rfl
  | none => rfl

theorem resourceClass_openProperty (s : MltXmlChecker) (ns : QString) (rest : List Token)
    (hClass : s.mlt_class = "producer".toList ∨ s.mlt_class = "filter".toList ∨
      s.mlt_class = "transition".toList) :
    (s.openProperty ns rest).mlt_class = "filter".toList ∨
      (s.openProperty ns rest).mlt_class = "transition".toList ∨
      (s.openProperty ns rest).mlt_class = "producer".toList := by
  rcases hClass with h | h | h
  · exact Or.inr (Or.inr h)
  · exact Or.inl h
  · exact Or.inr (Or.inl h)

theorem readResourceProperty_none (env : Env) (attrs : List QXmlStreamAttribute)
    (s : MltXmlChecker)
    (h : ¬ (attrValue attrs "name".toList = "resource".toList ∨
      attrValue attrs "name".toList = "src".toList ∨
      attrValue attrs "name".toList = "filename".toList ∨
      attrValue attrs "name".toList = "luma".toList ∨
      attrValue attrs "name".toList = "luma.resource".toList ∨
      attrValue attrs "name".toList = "composite.luma".toList ∨
      attrValue attrs "name".toList = "producer.resource".toList)) :
    readResourceProperty env attrs s = none := by
  rw [readResourceProperty_eq, if_neg h]

theorem propertyHandlers_after_resource (env : Env) (attrs : List QXmlStreamAttribute)
    (s : MltXmlChecker)
    (hClass : s.mlt_class = "filter".toList ∨ s.mlt_class = "transition".toList ∨
      s.mlt_class = "producer".toList)
    (hName : attrValue attrs "name".toList ∉ handledBefore) :
    propertyHandlers env attrs s =
      (fixShotcutHashProperty env attrs s).or
        ((readShotcutHashProperty env attrs s).or
          ((fixShotcutDetailProperty env attrs s).or
            ((fixShotcutCaptionProperty env attrs s).or
              ((fixAudioIndexProperty attrs s).or (fixVideoIndexProperty attrs s))))) := by
  have hne : ∀ n, n ∈ handledBefore → attrValue attrs "name".toList ≠ n :=
    fun n hn h => hName (h ▸ hn)
  rw [propertyHandlers_eq, readMltService_none env attrs s (hne _ (by decide)),
    checkNumericProperty_none env attrs s (hne _ (by decide)) (hne _ (by decide)), if_pos hClass,
    fixWebVfxPath_none env attrs s (fun h => hne _ (by decide) h.2),
    readResourceProperty_none env attrs s]
  · rfl
  · intro h
    rcases h with h | h | h | h | h | h | h <;> exact hne _ (by decide) h

theorem checkInAndOutPoints_xml (env : Env) (attrs : List QXmlStreamAttribute)
    (s : MltXmlChecker) : (checkInAndOutPoints env attrs s).xml = s.xml := by
  unfold checkInAndOutPoints
  induction attrs generalizing s with
  | nil => rfl
  | cons a attrs ih =>
    rw [List.foldl_cons, ih]
    split
    · simp only [checkNumericString_eq]
      generalize
        (!contains a.value env.decimalPoint && (contains a.value '.' || contains a.value ',')) = b
      cases b <;> rfl
    · rfl

theorem readMltLoop_characters (env : Env) (texts : List QString) (name : QString)
    (after : List Token) (s : MltXmlChecker)
    (hErr : s.xml.hasError = false) (hEnd : s.xml.atEndDocument = false)
    (hTok : s.xml.tokens = texts.map Token.Characters ++ Token.EndElement name :: after) :
    (readMltLoop env (texts.length + 1) s).newXml =
        s.newXml ++ texts.map Out.characters ++ [Out.endElement] ∧
      (readMltLoop env (texts.length + 1) s).xml.tokens = after := by
  have hAt : ∀ t : MltXmlChecker, t.xml.hasError = false → t.xml.atEndDocument = false →
      t.xml.atEnd = false := by
    intro t h1 h2
    simp [QXmlStreamReader.atEnd, h1, h2]
  induction texts generalizing s with
  | nil =>
    simp only [List.map_nil, List.nil_append] at hTok
    simp only [List.length_nil, Nat.zero_add, List.map_nil, List.append_nil]
    unfold readMltLoop
    rw [hAt s hErr hEnd]
    simp only [Bool.false_eq_true, if_false, readMltLoop]
    rw [readMltStep_endElement env s name after hErr hTok]
    split
    · obtain ⟨h1, h2, _, _⟩ := frame_endMltClass_write env (s.advance after)
      exact ⟨h1, by rw [h2]; rfl⟩
    · exact ⟨rfl, rfl⟩
  | cons text texts ih =>
    simp only [List.map_cons, List.cons_append] at hTok
    have hstep : readMltStep env s =
        (s.advance (texts.map Token.Characters ++ Token.EndElement name :: after)).write
          (Out.characters text) := by
      simp [readMltStep, QXmlStreamReader.readNext, hErr, hTok, advance]
    have h := ih (readMltStep env s) (by rw [hstep]; exact hErr) (by rw [hstep]; exact hEnd)
      (by rw [hstep]; rfl)
    simp only [List.length_cons]
    rw [readMltLoop, hAt s hErr hEnd]
    simp only [Bool.false_eq_true, if_false]
    refine ⟨?_, h.2⟩
    rw [h.1, hstep]
    simp [write, advance]

theorem checkInAndOutPoints_out (env : Env) (attrs : List QXmlStreamAttribute)
    (s : MltXmlChecker) :
    ∃ written, (checkInAndOutPoints env attrs s).newXml = s.newXml ++ written ∧
      written.length = attrs.length ∧ ∀ e ∈ written, e.isAttribute = true := by
  unfold checkInAndOutPoints
  induction attrs generalizing s with
  | nil => exact ⟨[], by simp, rfl, by simp⟩
  | cons a attrs ih =>
    rw [List.foldl_cons]
    have hone : ∃ e, e.isAttribute = true ∧
        (if a.name = "in".toList ∨ a.name = "out".toList then
            match checkNumericString env a.value s with
            | (true, value, s1) => s1.write (Out.attributeQ a.name value)
            | (false, _, s1) => s1.write (Out.attribute a)
          else s.write (Out.attribute a)).newXml = s.newXml ++ [e] := by
      split
      · simp only [checkNumericString_eq]
        generalize
          (!contains a.value env.decimalPoint && (contains a.value '.' || contains a.value ',')) = b
        cases b
        · exact ⟨Out.attribute a, rfl, rfl⟩
        · exact ⟨Out.attributeQ a.name _, rfl, rfl⟩
      · exact ⟨Out.attribute a, rfl, rfl⟩
    obtain ⟨e, he, hw⟩ := hone
    obtain ⟨written, h1, h2, h3⟩ := ih
      (if a.name = "in".toList ∨ a.name = "out".toList then
        match checkNumericString env a.value s with
        | (true, value, s1) => s1.write (Out.attributeQ a.name value)
        | (false, _, s1) => s1.write (Out.attribute a)
      else s.write (Out.attribute a))
    refine ⟨e :: written, ?_, by simp [h2], ?_⟩
    · rw [h1, hw]
      simp
    · intro x hx
      rcases List.mem_cons.mp hx with hx | hx
      · rw [hx]; exact he
      · exact h3 x hx

theorem readElementTextAux_characters (acc : QString) (texts : List QString) (name : QString)
    (after : List Token) :
    QXmlStreamReader.readElementTextAux acc
        (texts.map Token.Characters ++ Token.EndElement name :: after) =
      (acc ++ texts.flatten, after, false) := by
  induction texts generalizing acc with
  | nil => simp [QXmlStreamReader.readElementTextAux]
  | cons t texts ih =>
    rw [List.map_cons, List.cons_append, QXmlStreamReader.readElementTextAux, ih,
      List.flatten_cons, List.append_assoc]

/-! ## The claims

Each claim is one theorem, named after it; a claim that fails on the code has
its counterexample first and is then proved as amended. -/

/-- C1. A `property` element named `length` or `geometry` is emitted, in
whatever class it stands, with its attributes as they are and with its text
passed through the Numeric Normalizer of the spec for the canonical separator
`env.decimalPoint`: an ambiguous text (no canonical separator, but a comma or
a period) has every comma and period replaced and sets the numeric-changed
flag; any other text is emitted unchanged and leaves the flag as it was. -/
theorem C1_numeric_property (env : Env) (s : MltXmlChecker) (ns : QString)
    (attrs : List QXmlStreamAttribute) (rest : List Token)
    (hErr : s.xml.hasError = false)
    (hTok : s.xml.tokens = Token.StartElement ns "property".toList attrs :: rest)
    (hName : attrValue attrs "name".toList = "length".toList ∨
      attrValue attrs "name".toList = "geometry".toList) :
    (readMltStep env s).newXml =
        s.newXml ++ Out.startElementNS ns "property".toList :: attrs.map Out.attribute ++
          [Out.characters (Spec.normalize env.decimalPoint (elementText rest)), Out.endElement] ∧
      (Spec.ambiguous env.decimalPoint (elementText rest) →
        (readMltStep env s).numericValueChanged = true) ∧
      (¬ Spec.ambiguous env.decimalPoint (elementText rest) →
        (readMltStep env s).numericValueChanged = s.numericValueChanged) := by
  have hNot : attrValue attrs "name".toList ≠ "mlt_service".toList := by
    rcases hName with h | h <;> rw [h] <;> decide
  have hc : isMltClass "property".toList = false := by decide
  rw [readMltStep_startElement env s ns _ attrs rest hErr hTok]
  simp only [hc, if_true, Bool.false_eq_true, if_false]
  simp only [propertyHandlers, readMltService, hNot, if_false, checkNumericProperty, hName, if_true]
  simp only [MltXmlChecker.readElementText, QXmlStreamReader.readElementText, writeAttributes,
    write, advance, hErr, checkNumericString_eq, Bool.false_eq_true, if_false, Spec.normalize,
    Spec.ambiguous, elementText, ← contains_iff]
  generalize (QXmlStreamReader.readElementTextAux [] rest).1 = text
  by_cases h1 : contains text env.decimalPoint = true <;>
  by_cases h2 : contains text ',' = true <;>
  by_cases h3 : contains text '.' = true <;>
  simp [h1, h2, h3, replaceChar_both]

/-- C1, witness: under canonical `.` the geometry `0=0,0:100,100` is emitted as
`0=0.0:100.100` with the numeric-changed flag set, and the length `1.5,2.5`
is emitted unchanged with the flag left clear. -/
theorem C1_numeric_property_witness :
    ((readMltStep Sample.env (Sample.reading (Sample.property "geometry" "0=0,0:100,100"))).newXml =
        [Out.startElementNS [] "property".toList, Out.attribute (Sample.attr "name" "geometry"),
          Out.characters "0=0.0:100.100".toList, Out.endElement] ∧
      (readMltStep Sample.env
          (Sample.reading (Sample.property "geometry" "0=0,0:100,100"))).numericValueChanged = true) ∧
    ((readMltStep Sample.env (Sample.reading (Sample.property "length" "1.5,2.5"))).newXml =
        [Out.startElementNS [] "property".toList, Out.attribute (Sample.attr "name" "length"),
          Out.characters "1.5,2.5".toList, Out.endElement] ∧
      (readMltStep Sample.env
          (Sample.reading (Sample.property "length" "1.5,2.5"))).numericValueChanged = false) :=
  ⟨⟨(C1_numeric_property Sample.env (Sample.reading (Sample.property "geometry" "0=0,0:100,100")) []
        [Sample.attr "name" "geometry"] _ rfl rfl (Or.inr (by decide))).1.trans (by decide),
      (C1_numeric_property Sample.env (Sample.reading (Sample.property "geometry" "0=0,0:100,100")) []
        [Sample.attr "name" "geometry"] _ rfl rfl (Or.inr (by decide))).2.1 (by decide)⟩,
    ⟨(C1_numeric_property Sample.env (Sample.reading (Sample.property "length" "1.5,2.5")) []
        [Sample.attr "name" "length"] _ rfl rfl (Or.inl (by decide))).1.trans (by decide),
      ((C1_numeric_property Sample.env (Sample.reading (Sample.property "length" "1.5,2.5")) []
        [Sample.attr "name" "length"] _ rfl rfl (Or.inl (by decide))).2.2 (by decide)).trans rfl⟩⟩

theorem check_mlt (env : Env) (canonicalPath : QString) (doc : List Token) (s : MltXmlChecker)
    (attrs : List QXmlStreamAttribute) (r : QXmlStreamReader)
    (hRoot :
      QXmlStreamReader.readNextStartElement { tokens := doc, hasError := false, atEndDocument := false } =
        (some ("mlt".toList, attrs), r)) :
    (check env true true canonicalPath doc s).2 =
      { ((readMlt env (enterMlt env canonicalPath attrs r s)).write Out.endElement).write
          Out.endDocument with
        isCorrected :=
          (readMlt env (enterMlt env canonicalPath attrs r s)).isCorrected ||
            ((readMlt env (enterMlt env canonicalPath attrs r s)).hasPeriod &&
              (readMlt env (enterMlt env canonicalPath attrs r s)).hasComma &&
              (readMlt env (enterMlt env canonicalPath attrs r s)).numericValueChanged) } := by
  unfold check
  simp only [Bool.and_self, if_true, hRoot]
  rfl

theorem setCorrected_writeRootAttributes (env : Env) (attrs : List QXmlStreamAttribute)
    (s : MltXmlChecker) :
    writeRootAttributes env attrs (s.setCorrected true) =
      (writeRootAttributes env attrs s).setCorrected true := by
  unfold writeRootAttributes
  induction attrs generalizing s with
  | nil => rfl
  | cons a attrs ih =>
    rw [List.foldl_cons, List.foldl_cons, ← ih]
    congr 1
    split <;> rfl

theorem setCorrected_enterMlt (env : Env) (canonicalPath : QString)
    (attrs : List QXmlStreamAttribute) (r : QXmlStreamReader) (s : MltXmlChecker) :
    enterMlt env canonicalPath attrs r (s.setCorrected true) =
      (enterMlt env canonicalPath attrs r s).setCorrected true := by
  unfold enterMlt
  exact setCorrected_writeRootAttributes env attrs
    (((({ s with newXml := [], basePath := canonicalPath, xml := r } : MltXmlChecker).write
      Out.startDocument).write (Out.characters "\n".toList)).write (Out.startElement "mlt".toList))

/-- C2. After `check` on a document whose root is `mlt`, the
document-modified flag is the disjunction of: the flag as it was before the
run; the flag as the handlers of the token walk set it (what the walk leaves
when started with the flag clear); and "a comma was seen and a period was
seen and some numeric value was rewritten". -/
theorem C2_modified_flag (env : Env) (canonicalPath : QString) (doc : List Token)
    (s : MltXmlChecker) (attrs : List QXmlStreamAttribute) (r : QXmlStreamReader)
    (hRoot :
      QXmlStreamReader.readNextStartElement { tokens := doc, hasError := false, atEndDocument := false } =
        (some ("mlt".toList, attrs), r)) :
    (check env true true canonicalPath doc s).2.isCorrected =
      (s.isCorrected ||
        (readMlt env (enterMlt env canonicalPath attrs r (s.setCorrected false))).isCorrected ||
        ((check env true true canonicalPath doc s).2.hasComma &&
          (check env true true canonicalPath doc s).2.hasPeriod &&
          (check env true true canonicalPath doc s).2.numericValueChanged)) := by
  rw [check_mlt env canonicalPath doc s attrs r hRoot]
  show (_ || _) = (_ || _ || _)
  cases hc : s.isCorrected with
  | false =>
    have hs : s.setCorrected false = s := by
      cases s
      simp only [setCorrected] at hc ⊢
      simp [hc]
    rw [hs]
    simp [write, Bool.and_comm]
  | true =>
    have hs : s = (s.setCorrected false).setCorrected true := by
      cases s
      simp only [setCorrected] at hc ⊢
      simp [hc]
    have h : (readMlt env (enterMlt env canonicalPath attrs r s)).isCorrected = true := by
      rw [hs, setCorrected_enterMlt, setCorrected_readMlt]
      rfl
    rw [h]
    rfl

/-- C2, witness: for the document with geometry `0=0,0:100,100` and sibling
length `12.5` under canonical `.`, the run succeeds, the modified flag is
true, no handler set it, and comma-seen, period-seen and changed all hold. -/
theorem C2_modified_flag_witness :
    (check Sample.env true true "/project".toList Sample.mixedDoc fresh).1 = true ∧
      (check Sample.env true true "/project".toList Sample.mixedDoc fresh).2.isCorrected = true ∧
      (check Sample.env true true "/project".toList Sample.mixedDoc fresh).2.hasComma = true ∧
      (check Sample.env true true "/project".toList Sample.mixedDoc fresh).2.hasPeriod = true ∧
      (check Sample.env true true "/project".toList Sample.mixedDoc fresh).2.numericValueChanged =
        true :=
  ⟨by decide,
    (C2_modified_flag Sample.env "/project".toList Sample.mixedDoc fresh
      [Sample.attr "LC_NUMERIC" "de_DE", Sample.attr "version" "6.0"] _ rfl).trans (by decide),
    by decide, by decide, by decide⟩

/-- C3, as stated, fails: a producer without `mlt_service` (empty tracked
service name) whose resource `/missing/a.mp4` is not on disk and not in the
model reaches its end tag, and the path is not appended. -/
theorem C3_counterexample :
    Sample.unnamedAtEndTag.xml.hasError = false ∧
      Sample.unnamedAtEndTag.xml.tokens = [Token.EndElement "producer".toList] ∧
      Sample.unnamedAtEndTag.service.name = [] ∧
      Sample.unnamedAtEndTag.service.resource = "/missing/a.mp4".toList ∧
      Sample.env.fileExists Sample.unnamedAtEndTag.service.resource = false ∧
      Sample.unnamedAtEndTag.unlinkedFilesModel = [] ∧
      (readMltStep Sample.env Sample.unnamedAtEndTag).unlinkedFilesModel = [] ∧
      (check Sample.env true true "/project".toList (Sample.document Sample.unnamedProducer)
        fresh).2.unlinkedFilesModel = [] := by
  decide

/-- C3, amended. On the end tag of a class-defining element: if the tracked
service name is non-empty, the tracked resource path is non-empty and not on
disk, the service is not `color`/`colour`, and no row of the model has that
path as its missing file, then a row for the path (with the tracked hash and
no replacement) is appended to the model; in every other case the model is
left as it is. -/
theorem C3_unlinked_appended (env : Env) (s : MltXmlChecker) (name : QString)
    (rest : List Token)
    (hErr : s.xml.hasError = false)
    (hTok : s.xml.tokens = Token.EndElement name :: rest)
    (hClass : isMltClass name = true) :
    (s.service.name ≠ [] ∧ s.service.resource ≠ [] ∧ env.fileExists s.service.resource = false ∧
        ¬ (s.service.name = "color".toList ∨ s.service.name = "colour".toList) ∧
        (∀ r ∈ s.unlinkedFilesModel, r.missing.text ≠ s.service.resource) →
      (readMltStep env s).unlinkedFilesModel =
        s.unlinkedFilesModel ++
          [{ missing := { text := s.service.resource, hash := s.service.hash },
             replacement := none }]) ∧
    (¬ (s.service.name ≠ [] ∧ s.service.resource ≠ [] ∧ env.fileExists s.service.resource = false ∧
        ¬ (s.service.name = "color".toList ∨ s.service.name = "colour".toList) ∧
        (∀ r ∈ s.unlinkedFilesModel, r.missing.text ≠ s.service.resource)) →
      (readMltStep env s).unlinkedFilesModel = s.unlinkedFilesModel) := by
  have h : (readMltStep env s).unlinkedFilesModel =
      (endMltClass env (s.advance rest)).unlinkedFilesModel := by
    rw [readMltStep_endElement env s name rest hErr hTok, if_pos hClass]
    rfl
  rw [h, endMltClass_registry]
  constructor
  · intro hc
    exact if_pos hc
  · intro hc
    exact if_neg hc

/-- C3, amended, witness: the end tag of an `avformat` producer whose
resource `/missing/a.mp4` is not on disk appends the path to an empty
model. -/
theorem C3_unlinked_appended_witness :
    (readMltStep Sample.env (Sample.atEndTag "avformat" "/missing/a.mp4")).unlinkedFilesModel =
      [{ missing := { text := "/missing/a.mp4".toList, hash := [] }, replacement := none }] :=
  ((C3_unlinked_appended Sample.env (Sample.atEndTag "avformat" "/missing/a.mp4")
      "producer".toList [] (by decide) (by decide) (by decide)).1 (by decide)).trans (by decide)

theorem writeRootAttributes_registry (env : Env) (attrs : List QXmlStreamAttribute)
    (s : MltXmlChecker) :
    (writeRootAttributes env attrs s).unlinkedFilesModel = s.unlinkedFilesModel := by
  unfold writeRootAttributes
  induction attrs generalizing s with
  | nil => rfl
  | cons a attrs ih =>
    rw [List.foldl_cons, ih]
    split <;> rfl

theorem check_registry (env : Env) (fileOpens tempFileOpens : Bool) (canonicalPath : QString)
    (doc : List Token) (s : MltXmlChecker) :
    (check env fileOpens tempFileOpens canonicalPath doc s).2.unlinkedFilesModel =
        s.unlinkedFilesModel ∨
      ∃ attrs r,
        (check env fileOpens tempFileOpens canonicalPath doc s).2.unlinkedFilesModel =
          (readMlt env (enterMlt env canonicalPath attrs r s)).unlinkedFilesModel := by
  unfold check
  dsimp only
  split
  · split
    · split
      · rename_i name attrs xml _ _
        exact Or.inr ⟨attrs, xml, rfl⟩
      · exact Or.inl rfl
    · exact Or.inl rfl
  · exact Or.inl rfl

/-- C4. Registry invariant.  `readMlt` runs until the reader is at its end,
and `check` as a whole, keep the missing-file paths of the model pairwise
distinct when they were so before, and neither deletes nor reorders rows: the
model before the run is an initial segment of the model after it. -/
theorem C4_registry_invariant (env : Env) (fileOpens tempFileOpens : Bool)
    (canonicalPath : QString) (doc : List Token) (s : MltXmlChecker)
    (hDistinct : (s.unlinkedFilesModel.map (fun row => row.missing.text)).Nodup) :
    (readMlt env s).xml.atEnd = true ∧
      ((readMlt env s).unlinkedFilesModel.map (fun row => row.missing.text)).Nodup ∧
      (∃ added, (readMlt env s).unlinkedFilesModel = s.unlinkedFilesModel ++ added) ∧
      ((check env fileOpens tempFileOpens canonicalPath doc s).2.unlinkedFilesModel.map
        (fun row => row.missing.text)).Nodup ∧
      ∃ added,
        (check env fileOpens tempFileOpens canonicalPath doc s).2.unlinkedFilesModel =
          s.unlinkedFilesModel ++ added := by
  refine ⟨readMlt_atEnd env s, (run_readMlt env s).nodup hDistinct, (run_readMlt env s).registry, ?_⟩
  rcases check_registry env fileOpens tempFileOpens canonicalPath doc s with h | ⟨attrs, r, h⟩
  · rw [h]
    exact ⟨hDistinct, [], by simp⟩
  · have he : (enterMlt env canonicalPath attrs r s).unlinkedFilesModel = s.unlinkedFilesModel :=
      writeRootAttributes_registry env attrs _
    have hrun := run_readMlt env (enterMlt env canonicalPath attrs r s)
    rw [h]
    refine ⟨hrun.nodup (by rw [he]; exact hDistinct), ?_⟩
    obtain ⟨added, ha⟩ := hrun.registry
    exact ⟨added, by rw [ha, he]⟩

/-- C4, witness: two producers that reference the same missing file leave one
row in the model. -/
theorem C4_registry_invariant_witness :
    (check Sample.env true true "/project".toList
        (Sample.document
          (Sample.producer "avformat" "/missing/a.mp4" ++ Sample.producer "avformat" "/missing/a.mp4"))
        fresh).2.unlinkedFilesModel =
        [{ missing := { text := "/missing/a.mp4".toList, hash := [] }, replacement := none }] ∧
      ((check Sample.env true true "/project".toList
        (Sample.document
          (Sample.producer "avformat" "/missing/a.mp4" ++ Sample.producer "avformat" "/missing/a.mp4"))
        fresh).2.unlinkedFilesModel.map (fun row => row.missing.text)).Nodup :=
  ⟨by decide,
    (C4_registry_invariant Sample.env true true "/project".toList
      (Sample.document
        (Sample.producer "avformat" "/missing/a.mp4" ++ Sample.producer "avformat" "/missing/a.mp4"))
      fresh (by decide)).2.2.2.1⟩

/-- C5. Color source exemption: the end tag of an element whose tracked
service name is `color` or `colour` adds no row to the model, whatever the
tracked resource path and whether or not it is on disk. -/
theorem C5_color_exempt (env : Env) (s : MltXmlChecker) (name : QString) (rest : List Token)
    (hErr : s.xml.hasError = false)
    (hTok : s.xml.tokens = Token.EndElement name :: rest)
    (hColor : s.service.name = "color".toList ∨ s.service.name = "colour".toList) :
    (readMltStep env s).unlinkedFilesModel = s.unlinkedFilesModel := by
  rw [readMltStep_endElement env s name rest hErr hTok]
  split
  · have h : ((endMltClass env (s.advance rest)).write Out.endElement).unlinkedFilesModel =
        (endMltClass env (s.advance rest)).unlinkedFilesModel := rfl
    rw [h, endMltClass_registry]
    exact if_neg (fun hc => hc.2.2.2.1 hColor)
  · rfl

/-- C5, witness: a `color` producer with the bogus resource `#00000000`, and
a `colour` producer with the path of a missing file, reach their end tags and
the model stays empty; so it does over the whole document. -/
theorem C5_color_exempt_witness :
    (readMltStep Sample.env (Sample.atEndTag "color" "#00000000")).unlinkedFilesModel = [] ∧
      (readMltStep Sample.env (Sample.atEndTag "colour" "/missing/a.mp4")).unlinkedFilesModel = [] ∧
      (check Sample.env true true "/project".toList
        (Sample.document (Sample.producer "color" "#00000000")) fresh).2.unlinkedFilesModel = [] :=
  ⟨(C5_color_exempt Sample.env (Sample.atEndTag "color" "#00000000") "producer".toList []
      (by decide) (by decide) (Or.inl (by decide))).trans (by decide),
    (C5_color_exempt Sample.env (Sample.atEndTag "colour" "/missing/a.mp4") "producer".toList []
      (by decide) (by decide) (Or.inr (by decide))).trans (by decide),
    by decide⟩

/-- The resource handler.  A `property` named resource, src, filename, luma,
luma.resource, composite.luma or producer.resource read while the current
class is producer, filter or transition (and not taken by the webvfx handler)
has its text resolved against the base directory of the document when
relative.  If the model has a row whose original path is that resolved path
and whose replacement is non-empty, the replacement path of the first such
row is emitted instead of the text, it becomes the tracked resource path, the
pending replacement path and hash are set from that row, and the modified
flag is set.  Otherwise the text is emitted unchanged, the resolved path
becomes the tracked resource path, and the pending replacement fields and the
modified flag are left as they were. -/
theorem readMltStep_resource (env : Env) (s : MltXmlChecker) (ns : QString)
    (attrs : List QXmlStreamAttribute) (rest : List Token)
    (hErr : s.xml.hasError = false)
    (hTok : s.xml.tokens = Token.StartElement ns "property".toList attrs :: rest)
    (hClass : s.mlt_class = "producer".toList ∨ s.mlt_class = "filter".toList ∨
      s.mlt_class = "transition".toList)
    (hName : attrValue attrs "name".toList = "resource".toList ∨
      attrValue attrs "name".toList = "src".toList ∨
      attrValue attrs "name".toList = "filename".toList ∨
      attrValue attrs "name".toList = "luma".toList ∨
      attrValue attrs "name".toList = "luma.resource".toList ∨
      attrValue attrs "name".toList = "composite.luma".toList ∨
      attrValue attrs "name".toList = "producer.resource".toList)
    (hWeb : ¬ (s.service.name = "webvfx".toList ∧
      attrValue attrs "name".toList = "resource".toList)) :
    (∀ r,
        Spec.replacementFor s.unlinkedFilesModel
            (resolvedPath env s.basePath (elementText rest)) = some r →
          (readMltStep env s).newXml =
              s.newXml ++ Out.startElementNS ns "property".toList :: attrs.map Out.attribute ++
                [Out.characters r.text, Out.endElement] ∧
            (readMltStep env s).service.resource = env.fileInfoPath r.text ∧
            (readMltStep env s).service.newDetail = r.text ∧
            (readMltStep env s).service.newHash = r.hash ∧
            (readMltStep env s).isCorrected = true) ∧
      (Spec.replacementFor s.unlinkedFilesModel
            (resolvedPath env s.basePath (elementText rest)) = none →
          (readMltStep env s).newXml =
              s.newXml ++ Out.startElementNS ns "property".toList :: attrs.map Out.attribute ++
                [Out.characters (elementText rest), Out.endElement] ∧
            (readMltStep env s).service.resource =
              resolvedPath env s.basePath (elementText rest) ∧
            (readMltStep env s).service.newDetail = s.service.newDetail ∧
            (readMltStep env s).service.newHash = s.service.newHash ∧
            (readMltStep env s).isCorrected = s.isCorrected) := by
  have h1 : attrValue attrs "name".toList ≠ "mlt_service".toList := by
    rcases hName with h | h | h | h | h | h | h <;> rw [h] <;> decide
  have h2 : attrValue attrs "name".toList ≠ "length".toList := by
    rcases hName with h | h | h | h | h | h | h <;> rw [h] <;> decide
  have h3 : attrValue attrs "name".toList ≠ "geometry".toList := by
    rcases hName with h | h | h | h | h | h | h <;> rw [h] <;> decide
  have hWeb2 : ¬ ((s.openProperty ns rest).service.name = "webvfx".toList ∧
      attrValue attrs "name".toList = "resource".toList) := hWeb
  have hstep : readMltStep env s =
      (match fixUnlinkedFileFrom env (storeResource env attrs (s.openProperty ns rest))
          s.unlinkedFilesModel with
        | some s1 => s1
        | none =>
          (storeResource env attrs (s.openProperty ns rest)).write
            (Out.characters (elementText rest))).write Out.endElement := by
    rw [readMltStep_property env s ns attrs rest hErr hTok, propertyHandlers_eq,
      readMltService_none env attrs _ h1, checkNumericProperty_none env attrs _ h2 h3,
      if_pos (resourceClass_openProperty s ns rest hClass),
      fixWebVfxPath_none env attrs _ hWeb2, readResourceProperty_eq, if_pos hName,
      readElementText_openProperty s ns rest hErr]
    rfl
  have htext : (s.openProperty ns rest).xml.readElementText.1 = elementText rest := by
    rw [readElementText_openProperty s ns rest hErr]
  have hres : (storeResource env attrs (s.openProperty ns rest)).service.resource =
      resolvedPath env s.basePath (elementText rest) := by
    show resolvedPath env _ _ = _
    rw [htext]
    rfl
  rw [hstep, fixUnlinkedFileFrom_eq, hres]
  constructor
  · intro r hr
    rw [hr]
    simp only [Option.map_some']
    refine ⟨?_, rfl, rfl, rfl, rfl⟩
    simp [storeResource, write, writeAttributes, MltXmlChecker.readElementText, advance,
      openProperty]
  · intro hr
    rw [hr]
    simp only [Option.map_none']
    refine ⟨?_, ?_, ?_, ?_, ?_⟩
    · simp [storeResource, write, writeAttributes, MltXmlChecker.readElementText, advance,
        openProperty]
    · show resolvedPath env _ _ = _
      rw [htext]
      rfl
    · simp [storeResource, write, writeAttributes, MltXmlChecker.readElementText, advance,
        openProperty]
    · simp [storeResource, write, writeAttributes, MltXmlChecker.readElementText, advance,
        openProperty]
    · simp [storeResource, write, writeAttributes, MltXmlChecker.readElementText, advance,
        openProperty]

/-- C7, as stated, fails: the two properties are the other way round.  With
the pending replacement path `/found/b.mp4`, the property named by
`kShotcutDetailProperty` is emitted with the full path `/found/b.mp4`, not
with the base name, and the property named by `kShotcutCaptionProperty` is
emitted with the base name `b.mp4`, not with the full path. -/
theorem C7_counterexample :
    (Sample.replacedAfter 5).service.newDetail = "/found/b.mp4".toList ∧
      (Sample.replacedAfter 5).mlt_class = "producer".toList ∧
      (Sample.replacedAfter 5).xml.tokens.head? =
        some (Token.StartElement [] "property".toList
          [Sample.attr "name" "shotcut:detail"]) ∧
      Sample.env.kShotcutDetailProperty = "shotcut:detail".toList ∧
      (readMltStep Sample.env (Sample.replacedAfter 5)).newXml =
        (Sample.replacedAfter 5).newXml ++
          [Out.startElementNS [] "property".toList,
            Out.attribute (Sample.attr "name" "shotcut:detail"),
            Out.characters "/found/b.mp4".toList, Out.endElement] ∧
      baseName "/found/b.mp4".toList = "b.mp4".toList ∧
      (readMltStep Sample.env (Sample.replacedAfter 5)).newXml ≠
        (Sample.replacedAfter 5).newXml ++
          [Out.startElementNS [] "property".toList,
            Out.attribute (Sample.attr "name" "shotcut:detail"),
            Out.characters (baseName "/found/b.mp4".toList), Out.endElement] ∧
      (Sample.replacedAfter 4).service.newDetail = "/found/b.mp4".toList ∧
      (Sample.replacedAfter 4).xml.tokens.head? =
        some (Token.StartElement [] "property".toList
          [Sample.attr "name" "shotcut:caption"]) ∧
      Sample.env.kShotcutCaptionProperty = "shotcut:caption".toList ∧
      (readMltStep Sample.env (Sample.replacedAfter 4)).newXml =
        (Sample.replacedAfter 4).newXml ++
          [Out.startElementNS [] "property".toList,
            Out.attribute (Sample.attr "name" "shotcut:caption"),
            Out.characters "b.mp4".toList, Out.endElement] := by
  decide

/-- C7, amended. Inside a producer, filter or transition, whenever the
context holds a non-empty pending replacement path `p`: the property named
by `kShotcutCaptionProperty` is emitted with the base name of `p` (no
directory) as its text, and the property named by `kShotcutDetailProperty`
is emitted with the full path `p`; the original text of either is read past
and not emitted.  (The two constants are taken to differ from each other,
from `kShotcutHashProperty` and from the names handled before.) -/
theorem C7_caption_detail (env : Env) (s : MltXmlChecker) (ns : QString)
    (attrs : List QXmlStreamAttribute) (rest : List Token)
    (hErr : s.xml.hasError = false)
    (hTok : s.xml.tokens = Token.StartElement ns "property".toList attrs :: rest)
    (hClass : s.mlt_class = "producer".toList ∨ s.mlt_class = "filter".toList ∨
      s.mlt_class = "transition".toList)
    (hPending : s.service.newDetail ≠ [])
    (hCaption : env.kShotcutCaptionProperty ∉ env.kShotcutHashProperty :: handledBefore)
    (hDetail : env.kShotcutDetailProperty ∉
      env.kShotcutCaptionProperty :: env.kShotcutHashProperty :: handledBefore) :
    (attrValue attrs "name".toList = env.kShotcutCaptionProperty →
        (readMltStep env s).newXml =
            s.newXml ++ Out.startElementNS ns "property".toList :: attrs.map Out.attribute ++
              [Out.characters (baseName s.service.newDetail), Out.endElement] ∧
          (readMltStep env s).xml.tokens = (QXmlStreamReader.readElementTextAux [] rest).2.1) ∧
      (attrValue attrs "name".toList = env.kShotcutDetailProperty →
        (readMltStep env s).newXml =
            s.newXml ++ Out.startElementNS ns "property".toList :: attrs.map Out.attribute ++
              [Out.characters s.service.newDetail, Out.endElement] ∧
          (readMltStep env s).xml.tokens = (QXmlStreamReader.readElementTextAux [] rest).2.1) := by
  have hreader := readElementText_openProperty s ns rest hErr
  constructor
  · intro hName
    have hHash : attrValue attrs "name".toList ≠ env.kShotcutHashProperty := by
      rw [hName]
      exact fun h => hCaption (by rw [h]; exact List.mem_cons_self _ _)
    have h1 : fixShotcutHashProperty env attrs (s.openProperty ns rest) = none := by
      unfold fixShotcutHashProperty
      rw [if_neg (fun h => hHash h.1)]
    have h2 : readShotcutHashProperty env attrs (s.openProperty ns rest) = none := by
      unfold readShotcutHashProperty
      rw [if_neg hHash]
    have h3 : fixShotcutDetailProperty env attrs (s.openProperty ns rest) =
        some
          ((((s.openProperty ns rest).writeAttributes attrs).write
            (Out.characters (baseName s.service.newDetail))).write
            Out.endElement).readElementText.2 := by
      unfold fixShotcutDetailProperty
      rw [if_pos ⟨hName, hPending⟩]
      rfl
    rw [readMltStep_property env s ns attrs rest hErr hTok,
      propertyHandlers_after_resource env attrs _ (resourceClass_openProperty s ns rest hClass)
        (by rw [hName]; exact fun h => hCaption (List.mem_cons_of_mem _ h)),
      h1, h2, h3]
    constructor
    · simp [write, writeAttributes, openProperty, advance, MltXmlChecker.readElementText]
    · show (s.openProperty ns rest).xml.readElementText.2.tokens = _
      rw [hreader]
  · intro hName
    have hHash : attrValue attrs "name".toList ≠ env.kShotcutHashProperty := by
      rw [hName]
      exact fun h => hDetail (by rw [h]; exact List.mem_cons_of_mem _ (List.mem_cons_self _ _))
    have hCap : attrValue attrs "name".toList ≠ env.kShotcutCaptionProperty := by
      rw [hName]
      exact fun h => hDetail (by rw [h]; exact List.mem_cons_self _ _)
    have h1 : fixShotcutHashProperty env attrs (s.openProperty ns rest) = none := by
      unfold fixShotcutHashProperty
      rw [if_neg (fun h => hHash h.1)]
    have h2 : readShotcutHashProperty env attrs (s.openProperty ns rest) = none := by
      unfold readShotcutHashProperty
      rw [if_neg hHash]
    have h3 : fixShotcutDetailProperty env attrs (s.openProperty ns rest) = none := by
      unfold fixShotcutDetailProperty
      rw [if_neg (fun h => hCap h.1)]
    have h4 : fixShotcutCaptionProperty env attrs (s.openProperty ns rest) =
        some
          ((((s.openProperty ns rest).writeAttributes attrs).write
            (Out.characters s.service.newDetail)).write Out.endElement).readElementText.2 := by
      unfold fixShotcutCaptionProperty
      rw [if_pos ⟨hName, hPending⟩]
      rfl
    rw [readMltStep_property env s ns attrs rest hErr hTok,
      propertyHandlers_after_resource env attrs _ (resourceClass_openProperty s ns rest hClass)
        (by
          rw [hName]
          exact fun h => hDetail (List.mem_cons_of_mem _ (List.mem_cons_of_mem _ h))),
      h1, h2, h3, h4]
    constructor
    · simp [write, writeAttributes, openProperty, advance, MltXmlChecker.readElementText]
    · show (s.openProperty ns rest).xml.readElementText.2.tokens = _
      rw [hreader]

/-- C7, amended, witness: with the pending path `/found/b.mp4` the caption
property is emitted as `b.mp4` and the detail property as `/found/b.mp4`. -/
theorem C7_caption_detail_witness :
    (readMltStep Sample.env (Sample.replacedAfter 4)).newXml =
        (Sample.replacedAfter 4).newXml ++
          [Out.startElementNS [] "property".toList,
            Out.attribute (Sample.attr "name" "shotcut:caption"),
            Out.characters "b.mp4".toList, Out.endElement] ∧
      (readMltStep Sample.env (Sample.replacedAfter 5)).newXml =
        (Sample.replacedAfter 5).newXml ++
          [Out.startElementNS [] "property".toList,
            Out.attribute (Sample.attr "name" "shotcut:detail"),
            Out.characters "/found/b.mp4".toList, Out.endElement] := by
  have h1 :=
    (C7_caption_detail Sample.env (Sample.replacedAfter 4) []
      [Sample.attr "name" "shotcut:caption"] (Sample.replacedAfter 4).xml.tokens.tail
      (by decide) (by decide) (Or.inl (by decide)) (by decide) (by decide) (by decide)).1
      (by decide)
  have h2 :=
    (C7_caption_detail Sample.env (Sample.replacedAfter 5) []
      [Sample.attr "name" "shotcut:detail"] (Sample.replacedAfter 5).xml.tokens.tail
      (by decide) (by decide) (Or.inl (by decide)) (by decide) (by decide) (by decide)).2
      (by decide)
  exact ⟨h1.1.trans (by decide), h2.1.trans (by decide)⟩

/-- The hash handlers: a property named by `kShotcutHashProperty` read
while the current class is producer, filter or transition is emitted with
its attributes verbatim and with the pending replacement hash as its text
when that hash is non-empty, with its own text otherwise; in both cases its
own text becomes the tracked hash.  (The constant is taken not to be one of
the names handled before.) -/
theorem readMltStep_hash (env : Env) (s : MltXmlChecker) (ns : QString)
    (attrs : List QXmlStreamAttribute) (rest : List Token)
    (hErr : s.xml.hasError = false)
    (hTok : s.xml.tokens = Token.StartElement ns "property".toList attrs :: rest)
    (hClass : s.mlt_class = "producer".toList ∨ s.mlt_class = "filter".toList ∨
      s.mlt_class = "transition".toList)
    (hName : attrValue attrs "name".toList = env.kShotcutHashProperty)
    (hConst : env.kShotcutHashProperty ∉ handledBefore) :
    (readMltStep env s).newXml =
        s.newXml ++ Out.startElementNS ns "property".toList :: attrs.map Out.attribute ++
          [Out.characters
              (if s.service.newHash ≠ [] then s.service.newHash else elementText rest),
            Out.endElement] ∧
      (readMltStep env s).service.hash = elementText rest := by
  have htext : (s.openProperty ns rest).xml.readElementText.1 = elementText rest := by
    rw [readElementText_openProperty s ns rest hErr]
  rw [readMltStep_property env s ns attrs rest hErr hTok,
    propertyHandlers_after_resource env attrs _ (resourceClass_openProperty s ns rest hClass)
      (by rw [hName]; exact hConst)]
  by_cases hNew : s.service.newHash ≠ []
  · have hfix : fixShotcutHashProperty env attrs (s.openProperty ns rest) =
        some
          ({ (s.openProperty ns rest).writeAttributes attrs with
              xml := (s.openProperty ns rest).xml.readElementText.2,
              service :=
                { s.service with hash := (s.openProperty ns rest).xml.readElementText.1 } }.write
              (Out.characters s.service.newHash) |>.write Out.endElement) := by
      unfold fixShotcutHashProperty
      rw [if_pos ⟨hName, hNew⟩]
      rfl
    rw [hfix, if_pos hNew]
    refine ⟨?_, htext⟩
    simp [write, writeAttributes, openProperty, advance]
  · have hfix : fixShotcutHashProperty env attrs (s.openProperty ns rest) = none := by
      unfold fixShotcutHashProperty
      rw [if_neg (fun h => hNew h.2)]
    have hread : readShotcutHashProperty env attrs (s.openProperty ns rest) =
        some
          ({ (s.openProperty ns rest).writeAttributes attrs with
              xml := (s.openProperty ns rest).xml.readElementText.2,
              service :=
                { s.service with hash := (s.openProperty ns rest).xml.readElementText.1 } }.write
              (Out.characters (s.openProperty ns rest).xml.readElementText.1) |>.write
                Out.endElement) := by
      unfold readShotcutHashProperty
      rw [if_pos hName]
      rfl
    rw [hfix, hread, if_neg hNew]
    refine ⟨?_, htext⟩
    simp [write, writeAttributes, openProperty, advance, htext]
    exact htext

/-- C9. Stream-index drop: inside a producer, filter or transition an
`audio_index` or `video_index` property whose content is character data is
emitted with its attributes and no content, the content being read past,
when the context has a non-empty original hash and a non-empty pending hash
that differ; in every other case it is emitted, start tag, as many attributes
as it has, and then its text unchanged, up to its end tag.  (The hash,
caption and detail constants are taken to differ from the property's
name.) -/
theorem C9_stream_index (env : Env) (s : MltXmlChecker) (ns : QString)
    (attrs : List QXmlStreamAttribute) (texts : List QString) (name : QString)
    (after : List Token)
    (hErr : s.xml.hasError = false) (hEnd : s.xml.atEndDocument = false)
    (hTok : s.xml.tokens =
      Token.StartElement ns "property".toList attrs ::
        (texts.map Token.Characters ++ Token.EndElement name :: after))
    (hClass : s.mlt_class = "producer".toList ∨ s.mlt_class = "filter".toList ∨
      s.mlt_class = "transition".toList)
    (hName : attrValue attrs "name".toList = "audio_index".toList ∨
      attrValue attrs "name".toList = "video_index".toList)
    (hConst : attrValue attrs "name".toList ∉
      [env.kShotcutHashProperty, env.kShotcutCaptionProperty, env.kShotcutDetailProperty]) :
    (s.service.hash ≠ [] ∧ s.service.newHash ≠ [] ∧ s.service.hash ≠ s.service.newHash →
        (readMltStep env s).newXml =
            s.newXml ++ Out.startElementNS ns "property".toList :: attrs.map Out.attribute ++
              [Out.endElement] ∧
          (readMltStep env s).xml.tokens = after) ∧
      (¬ (s.service.hash ≠ [] ∧ s.service.newHash ≠ [] ∧ s.service.hash ≠ s.service.newHash) →
        ∃ written, written.length = attrs.length ∧ (∀ e ∈ written, e.isAttribute = true) ∧
          (readMltLoop env (texts.length + 2) s).newXml =
            s.newXml ++ Out.startElementNS ns "property".toList :: written ++
              texts.map Out.characters ++ [Out.endElement] ∧
          (readMltLoop env (texts.length + 2) s).xml.tokens = after) := by
  have hHash : attrValue attrs "name".toList ≠ env.kShotcutHashProperty :=
    fun h => hConst (by rw [h]; simp)
  have hCap : attrValue attrs "name".toList ≠ env.kShotcutCaptionProperty :=
    fun h => hConst (by rw [h]; simp)
  have hDet : attrValue attrs "name".toList ≠ env.kShotcutDetailProperty :=
    fun h => hConst (by rw [h]; simp)
  have hBefore : attrValue attrs "name".toList ∉ handledBefore := by
    rcases hName with h | h <;> rw [h] <;> decide
  have h1 : fixShotcutHashProperty env attrs
      (s.openProperty ns (texts.map Token.Characters ++ Token.EndElement name :: after)) = none := by
    unfold fixShotcutHashProperty
    rw [if_neg (fun h => hHash h.1)]
  have h2 : readShotcutHashProperty env attrs
      (s.openProperty ns (texts.map Token.Characters ++ Token.EndElement name :: after)) = none := by
    unfold readShotcutHashProperty
    rw [if_neg hHash]
  have h3 : fixShotcutDetailProperty env attrs
      (s.openProperty ns (texts.map Token.Characters ++ Token.EndElement name :: after)) = none := by
    unfold fixShotcutDetailProperty
    rw [if_neg (fun h => hCap h.1)]
  have h4 : fixShotcutCaptionProperty env attrs
      (s.openProperty ns (texts.map Token.Characters ++ Token.EndElement name :: after)) = none := by
    unfold fixShotcutCaptionProperty
    rw [if_neg (fun h => hDet h.1)]
  have hstep := readMltStep_property env s ns attrs _ hErr hTok
  rw [propertyHandlers_after_resource env attrs _ (resourceClass_openProperty s ns _ hClass)
    hBefore, h1, h2, h3, h4] at hstep
  simp only [Option.none_or] at hstep
  constructor
  · intro hDrop
    have h5 : (fixAudioIndexProperty attrs
          (s.openProperty ns (texts.map Token.Characters ++ Token.EndElement name :: after))).or
        (fixVideoIndexProperty attrs
          (s.openProperty ns (texts.map Token.Characters ++ Token.EndElement name :: after))) =
        some
          ((((s.openProperty ns
              (texts.map Token.Characters ++ Token.EndElement name :: after)).writeAttributes
              attrs).write Out.endElement).readElementText.2) := by
      rcases hName with h | h
      · unfold fixAudioIndexProperty
        rw [if_pos ⟨h, hDrop⟩]
        rfl
      · have hne : attrValue attrs "name".toList ≠ "audio_index".toList := by
          rw [h]; decide
        unfold fixAudioIndexProperty fixVideoIndexProperty
        rw [if_neg (fun hc => hne hc.1), if_pos ⟨h, hDrop⟩]
        rfl
    rw [hstep, h5]
    constructor
    · simp [write, writeAttributes, openProperty, advance, MltXmlChecker.readElementText]
    · show (s.openProperty ns _).xml.readElementText.2.tokens = _
      rw [readElementText_openProperty s ns _ hErr, readElementTextAux_characters]
  · intro hKeep
    have h5 : (fixAudioIndexProperty attrs
          (s.openProperty ns (texts.map Token.Characters ++ Token.EndElement name :: after))).or
        (fixVideoIndexProperty attrs
          (s.openProperty ns (texts.map Token.Characters ++ Token.EndElement name :: after))) =
        none := by
      unfold fixAudioIndexProperty fixVideoIndexProperty
      rw [if_neg (fun hc => hKeep hc.2), if_neg (fun hc => hKeep hc.2)]
      rfl
    rw [h5] at hstep
    have hx := checkInAndOutPoints_xml env attrs
      (s.openProperty ns (texts.map Token.Characters ++ Token.EndElement name :: after))
    obtain ⟨written, hw1, hw2, hw3⟩ := checkInAndOutPoints_out env attrs
      (s.openProperty ns (texts.map Token.Characters ++ Token.EndElement name :: after))
    have hloop := readMltLoop_characters env texts name after (readMltStep env s)
      (by rw [hstep]; show (checkInAndOutPoints env attrs _).xml.hasError = false
          rw [hx]; exact hErr)
      (by rw [hstep]; show (checkInAndOutPoints env attrs _).xml.atEndDocument = false
          rw [hx]; exact hEnd)
      (by rw [hstep]; show (checkInAndOutPoints env attrs _).xml.tokens = _
          rw [hx]; rfl)
    have hAt : s.xml.atEnd = false := by simp [QXmlStreamReader.atEnd, hErr, hEnd]
    have hunfold : readMltLoop env (texts.length + 2) s =
        readMltLoop env (texts.length + 1) (readMltStep env s) := by
      rw [readMltLoop, hAt]
      rfl
    refine ⟨written, hw2, hw3, ?_, ?_⟩
    · rw [hunfold, hloop.1, hstep]
      show (checkInAndOutPoints env attrs _).newXml ++ _ ++ _ = _
      rw [hw1]
      simp [openProperty, write, advance]
    · rw [hunfold]
      exact hloop.2

/-- C9, witness: with original hash `H1` and pending hash `H2` the
`audio_index` property is emitted without content; with no pending hash the
same property is emitted with its text `1`. -/
theorem C9_stream_index_witness :
    (readMltStep Sample.env (Sample.replacedAfter 6)).newXml =
        (Sample.replacedAfter 6).newXml ++
          [Out.startElementNS [] "property".toList,
            Out.attribute (Sample.attr "name" "audio_index"), Out.endElement] ∧
      (∃ written, written.length = [Sample.attr "name" "audio_index"].length ∧
        (∀ e ∈ written, e.isAttribute = true) ∧
        (readMltLoop Sample.env (["1".toList].length + 2) (Sample.unreplacedAfter 10)).newXml =
          (Sample.unreplacedAfter 10).newXml ++ Out.startElementNS [] "property".toList :: written ++
            ["1".toList].map Out.characters ++ [Out.endElement] ∧
        (readMltLoop Sample.env (["1".toList].length + 2) (Sample.unreplacedAfter 10)).xml.tokens =
          Sample.property "video_index" "0" ++ [Token.EndElement "producer".toList]) ∧
      (readMltLoop Sample.env 3 (Sample.unreplacedAfter 10)).newXml =
        (Sample.unreplacedAfter 10).newXml ++
          [Out.startElementNS [] "property".toList,
            Out.attribute (Sample.attr "name" "audio_index"), Out.characters "1".toList,
            Out.endElement] :=
  ⟨((C9_stream_index Sample.env (Sample.replacedAfter 6) [] [Sample.attr "name" "audio_index"]
        ["1".toList] "property".toList
        (Sample.property "video_index" "0" ++ [Token.EndElement "producer".toList])
        (by decide) (by decide) (by decide) (Or.inl (by decide)) (Or.inl (by decide))
        (by decide)).1 (by decide)).1.trans (by decide),
    (C9_stream_index Sample.env (Sample.unreplacedAfter 10) [] [Sample.attr "name" "audio_index"]
        ["1".toList] "property".toList
        (Sample.property "video_index" "0" ++ [Token.EndElement "producer".toList])
        (by decide) (by decide) (by decide) (Or.inl (by decide)) (Or.inl (by decide))
        (by decide)).2 (by decide),
    by decide⟩

theorem writeRootAttributes_out (env : Env) (attrs : List QXmlStreamAttribute)
    (s : MltXmlChecker) :
    (writeRootAttributes env attrs s).newXml =
      s.newXml ++
        (attrs.filter (fun a => decide (env.toUpper a.name ≠ "LC_NUMERIC".toList))).map
          Out.attribute := by
  unfold writeRootAttributes
  induction attrs generalizing s with
  | nil => simp
  | cons a attrs ih =>
    rw [List.foldl_cons, ih]
    by_cases h : env.toUpper a.name ≠ "LC_NUMERIC".toList
    · rw [if_pos h, List.filter_cons_of_pos (by simpa using h)]
      simp [write]
    · rw [if_neg h, List.filter_cons_of_neg (by simpa using h)]

/-- C10. Root attribute stripping: for a document whose root is `mlt`, the
output starts with the document start, a line break and the start tag of
`mlt`, followed by exactly the root's attributes whose upper-cased name is
not `LC_NUMERIC`, in their order and unchanged, and what follows them is not
an attribute; so no attribute named `LC_NUMERIC` in any casing is on the
emitted root. -/
theorem C10_root_attributes (env : Env) (canonicalPath : QString) (doc : List Token)
    (s : MltXmlChecker) (attrs : List QXmlStreamAttribute) (r : QXmlStreamReader)
    (hRoot :
      QXmlStreamReader.readNextStartElement { tokens := doc, hasError := false, atEndDocument := false } =
        (some ("mlt".toList, attrs), r)) :
    (∃ tail,
        (check env true true canonicalPath doc s).2.newXml =
            [Out.startDocument, Out.characters "\n".toList, Out.startElement "mlt".toList] ++
              (attrs.filter (fun a => decide (env.toUpper a.name ≠ "LC_NUMERIC".toList))).map
                Out.attribute ++ tail ∧
          ∀ e, tail.head? = some e → e.isAttribute = false) ∧
      ∀ a ∈ attrs.filter (fun a => decide (env.toUpper a.name ≠ "LC_NUMERIC".toList)),
        env.toUpper a.name ≠ "LC_NUMERIC".toList := by
  constructor
  · obtain ⟨added, ha, hn⟩ := (run_readMlt env (enterMlt env canonicalPath attrs r s)).out
    refine ⟨added ++ [Out.endElement, Out.endDocument], ?_, ?_⟩
    · rw [check_mlt env canonicalPath doc s attrs r hRoot]
      show (readMlt env (enterMlt env canonicalPath attrs r s)).newXml ++ [Out.endElement] ++
        [Out.endDocument] = _
      rw [ha]
      unfold enterMlt
      rw [writeRootAttributes_out]
      simp [write]
    · exact head_append_not_attribute added _ hn (by
        intro e he
        simp at he
        rw [← he]
        rfl)
  · intro a ha
    simpa using (List.mem_filter.mp ha).2

/-- C10, witness: a root with attributes `lc_Numeric`, `version`,
`LC_NUMERIC` and `title` is emitted with `version` and `title` only, and the
start tag of the producer follows. -/
theorem C10_root_attributes_witness :
    ((∃ tail,
        (check Sample.env true true "/project".toList Sample.localeDoc fresh).2.newXml =
            [Out.startDocument, Out.characters "\n".toList, Out.startElement "mlt".toList] ++
              ([Sample.attr "lc_Numeric" "de_DE", Sample.attr "version" "6.0",
                  Sample.attr "LC_NUMERIC" "C", Sample.attr "title" "x"].filter
                (fun a => decide (Sample.env.toUpper a.name ≠ "LC_NUMERIC".toList))).map
                Out.attribute ++ tail ∧
          ∀ e, tail.head? = some e → e.isAttribute = false) ∧
      ∀ a ∈ [Sample.attr "lc_Numeric" "de_DE", Sample.attr "version" "6.0",
            Sample.attr "LC_NUMERIC" "C", Sample.attr "title" "x"].filter
          (fun a => decide (Sample.env.toUpper a.name ≠ "LC_NUMERIC".toList)),
        Sample.env.toUpper a.name ≠ "LC_NUMERIC".toList) ∧
    (check Sample.env true true "/project".toList Sample.localeDoc fresh).2.newXml.take 6 =
      [Out.startDocument, Out.characters "\n".toList, Out.startElement "mlt".toList,
        Out.attribute (Sample.attr "version" "6.0"), Out.attribute (Sample.attr "title" "x"),
        Out.startElementNS [] "producer".toList] :=
  ⟨C10_root_attributes Sample.env "/project".toList Sample.localeDoc fresh
      [Sample.attr "lc_Numeric" "de_DE", Sample.attr "version" "6.0",
        Sample.attr "LC_NUMERIC" "C", Sample.attr "title" "x"] _ rfl,
    by decide⟩

/-- C12. Input-not-a-document: when both files open and the first start
element of the input is not named `mlt`, `check` raises an error on the
reader and returns false, the output is empty, and the model of unlinked
files, the service context and every flag are as they were. -/
theorem C12_not_a_document (env : Env) (canonicalPath : QString) (doc : List Token)
    (s : MltXmlChecker) (name : QString) (attrs : List QXmlStreamAttribute)
    (r : QXmlStreamReader)
    (hFirst :
      QXmlStreamReader.readNextStartElement { tokens := doc, hasError := false, atEndDocument := false } =
        (some (name, attrs), r))
    (hName : name ≠ "mlt".toList) :
    (check env true true canonicalPath doc s).1 = false ∧
      (check env true true canonicalPath doc s).2.xml.hasError = true ∧
      (check env true true canonicalPath doc s).2.newXml = [] ∧
      (check env true true canonicalPath doc s).2.unlinkedFilesModel = s.unlinkedFilesModel ∧
      (check env true true canonicalPath doc s).2.service = s.service ∧
      (check env true true canonicalPath doc s).2.isCorrected = s.isCorrected ∧
      (check env true true canonicalPath doc s).2.needsGPU = s.needsGPU ∧
      (check env true true canonicalPath doc s).2.hasEffects = s.hasEffects ∧
      (check env true true canonicalPath doc s).2.hasComma = s.hasComma ∧
      (check env true true canonicalPath doc s).2.hasPeriod = s.hasPeriod ∧
      (check env true true canonicalPath doc s).2.numericValueChanged = s.numericValueChanged := by
  unfold check
  simp only [Bool.and_self, if_true, hFirst, if_neg hName]
  simp [QXmlStreamReader.raiseError]

/-- C12, witness: a document whose root is `html` makes `check` fail on a
fresh checker, with empty output and every flag still clear, although it
contains an `in` attribute with a comma. -/
theorem C12_not_a_document_witness :
    (check Sample.env true true "/project".toList Sample.htmlDoc fresh).1 = false ∧
      (check Sample.env true true "/project".toList Sample.htmlDoc fresh).2.newXml = [] ∧
      (check Sample.env true true "/project".toList Sample.htmlDoc fresh).2.hasComma = false :=
  ⟨(C12_not_a_document Sample.env "/project".toList Sample.htmlDoc fresh "html".toList
      [Sample.attr "lang" "en"] _ rfl (by decide)).1,
    (C12_not_a_document Sample.env "/project".toList Sample.htmlDoc fresh "html".toList
      [Sample.attr "lang" "en"] _ rfl (by decide)).2.2.1,
    (C12_not_a_document Sample.env "/project".toList Sample.htmlDoc fresh "html".toList
      [Sample.attr "lang" "en"] _ rfl (by decide)).2.2.2.2.2.2.2.2.1⟩

/-- C13, on the code: when the input file or the temporary file cannot be
opened, `check` on a fresh checker does nothing and returns true, the result
that stands for success: its result is `m_xml.error() == NoError`, and no
error was raised on a reader that was never used. -/
theorem C13_open_failure_returns_true (env : Env) (tempFileOpens : Bool)
    (canonicalPath : QString) (doc : List Token) :
    check env false tempFileOpens canonicalPath doc fresh = (true, fresh) ∧
      check env true false canonicalPath doc fresh = (true, fresh) := by
  constructor <;> rfl

/-- C20. Silent rewrite exists: for a fresh checker, canonical separator `.`
and a document whose only numeric field is a producer `length` of `12,5`,
the run succeeds and emits `12.5` in place of `12,5`, the numeric-changed
flag is set, no period was seen, the model stays empty, and yet the
document-modified flag is false. -/
theorem C20_silent_rewrite :
    ∃ (env : Env) (doc : List Token),
      env.decimalPoint = '.' ∧
        Token.Characters "12,5".toList ∈ doc ∧
        (check env true true "/project".toList doc fresh).1 = true ∧
        Out.characters "12.5".toList ∈ (check env true true "/project".toList doc fresh).2.newXml ∧
        Out.characters "12,5".toList ∉ (check env true true "/project".toList doc fresh).2.newXml ∧
        (check env true true "/project".toList doc fresh).2.numericValueChanged = true ∧
        (check env true true "/project".toList doc fresh).2.hasPeriod = false ∧
        (check env true true "/project".toList doc fresh).2.unlinkedFilesModel = [] ∧
        (check env true true "/project".toList doc fresh).2.isCorrected = false :=
  ⟨Sample.env, Sample.commaDoc, by decide⟩

/-! ## The handlers as record updates -/

theorem readMltService_eq (env : Env) (attrs : List QXmlStreamAttribute) (s : MltXmlChecker) :
    readMltService env attrs s =
      if attrValue attrs "name".toList = "mlt_service".toList then
        some
          { s with
            xml := s.xml.readElementText.2,
            newXml :=
              s.newXml ++ attrs.map Out.attribute ++ [Out.characters s.xml.readElementText.1] ++
                [Out.endElement],
            service := { s.service with name := s.xml.readElementText.1 },
            hasEffects := if !env.isAudioFilter s.xml.readElementText.1 then true else s.hasEffects,
            needsGPU :=
              if startsWith s.xml.readElementText.1 "movit.".toList ||
                  startsWith s.xml.readElementText.1 "glsl.".toList then true
              else s.needsGPU }
      else none := by
  unfold readMltService
  split <;> rfl

theorem checkNumericProperty_eq (env : Env) (attrs : List QXmlStreamAttribute)
    (s : MltXmlChecker) :
    checkNumericProperty env attrs s =
      if attrValue attrs "name".toList = "length".toList ∨
          attrValue attrs "name".toList = "geometry".toList then
        some
          { s with
            xml := s.xml.readElementText.2,
            newXml :=
              s.newXml ++ attrs.map Out.attribute ++
                [Out.characters
                  (if (!contains s.xml.readElementText.1 env.decimalPoint &&
                      (contains s.xml.readElementText.1 '.' ||
                        contains s.xml.readElementText.1 ',')) = true
                  then
                    replaceChar '.' env.decimalPoint
                      (replaceChar ',' env.decimalPoint s.xml.readElementText.1)
                  else s.xml.readElementText.1)] ++
                [Out.endElement],
            hasComma := s.hasComma || contains s.xml.readElementText.1 ',',
            hasPeriod := s.hasPeriod || contains s.xml.readElementText.1 '.',
            numericValueChanged :=
              s.numericValueChanged ||
                (!contains s.xml.readElementText.1 env.decimalPoint &&
                  (contains s.xml.readElementText.1 '.' ||
                    contains s.xml.readElementText.1 ',')) }
      else none := by
  unfold checkNumericProperty
  split
  · simp only [checkNumericString_eq]
    rfl
  · rfl

/-- The path `fixWebVfxPath` writes in place of `resource`, when it rewrites
it: the path is absolute, does not start with the application directory and
contains `/share/shotcut/`. -/
theorem fixWebVfxPath_eq (env : Env) (attrs : List QXmlStreamAttribute) (s : MltXmlChecker) :
    fixWebVfxPath env attrs s =
      if attrValue attrs "name".toList = "resource".toList then
        some
          { s with
            xml := s.xml.readElementText.2,
            newXml :=
              s.newXml ++ attrs.map Out.attribute ++
                [Out.characters ((relocated env s.xml.readElementText.1).getD
                  s.xml.readElementText.1)] ++ [Out.endElement],
            isCorrected :=
              if (relocated env s.xml.readElementText.1).isSome then true else s.isCorrected }
      else none := by
  unfold fixWebVfxPath
  split <;> rfl

theorem readShotcutHashProperty_eq (env : Env) (attrs : List QXmlStreamAttribute)
    (s : MltXmlChecker) :
    readShotcutHashProperty env attrs s =
      if attrValue attrs "name".toList = env.kShotcutHashProperty then
        some
          { s with
            xml := s.xml.readElementText.2,
            newXml :=
              s.newXml ++ attrs.map Out.attribute ++ [Out.characters s.xml.readElementText.1] ++
                [Out.endElement],
            service := { s.service with hash := s.xml.readElementText.1 } }
      else none := by
  unfold readShotcutHashProperty
  split <;> rfl

theorem fixShotcutHashProperty_eq (env : Env) (attrs : List QXmlStreamAttribute)
    (s : MltXmlChecker) :
    fixShotcutHashProperty env attrs s =
      if attrValue attrs "name".toList = env.kShotcutHashProperty ∧ s.service.newHash ≠ [] then
        some
          { s with
            xml := s.xml.readElementText.2,
            newXml :=
              s.newXml ++ attrs.map Out.attribute ++ [Out.characters s.service.newHash] ++
                [Out.endElement],
            service := { s.service with hash := s.xml.readElementText.1 } }
      else none := by
  unfold fixShotcutHashProperty
  split <;> rfl

theorem fixShotcutDetailProperty_eq (env : Env) (attrs : List QXmlStreamAttribute)
    (s : MltXmlChecker) :
    fixShotcutDetailProperty env attrs s =
      if attrValue attrs "name".toList = env.kShotcutCaptionProperty ∧ s.service.newDetail ≠ [] then
        some
          { s with
            xml := s.xml.readElementText.2,
            newXml :=
              s.newXml ++ attrs.map Out.attribute ++
                [Out.characters (baseName s.service.newDetail)] ++ [Out.endElement] }
      else none := by
  unfold fixShotcutDetailProperty
  split <;> rfl

theorem fixShotcutCaptionProperty_eq (env : Env) (attrs : List QXmlStreamAttribute)
    (s : MltXmlChecker) :
    fixShotcutCaptionProperty env attrs s =
      if attrValue attrs "name".toList = env.kShotcutDetailProperty ∧ s.service.newDetail ≠ [] then
        some
          { s with
            xml := s.xml.readElementText.2,
            newXml :=
              s.newXml ++ attrs.map Out.attribute ++ [Out.characters s.service.newDetail] ++
                [Out.endElement] }
      else none := by
  unfold fixShotcutCaptionProperty
  split <;> rfl

theorem fixAudioIndexProperty_eq (attrs : List QXmlStreamAttribute) (s : MltXmlChecker) :
    fixAudioIndexProperty attrs s =
      if attrValue attrs "name".toList = "audio_index".toList ∧ s.service.hash ≠ [] ∧
          s.service.newHash ≠ [] ∧ s.service.hash ≠ s.service.newHash then
        some
          { s with
            xml := s.xml.readElementText.2,
            newXml := s.newXml ++ attrs.map Out.attribute ++ [Out.endElement] }
      else none := by
  unfold fixAudioIndexProperty
  split <;> rfl

theorem fixVideoIndexProperty_eq (attrs : List QXmlStreamAttribute) (s : MltXmlChecker) :
    fixVideoIndexProperty attrs s =
      if attrValue attrs "name".toList = "video_index".toList ∧ s.service.hash ≠ [] ∧
          s.service.newHash ≠ [] ∧ s.service.hash ≠ s.service.newHash then
        some
          { s with
            xml := s.xml.readElementText.2,
            newXml := s.newXml ++ attrs.map Out.attribute ++ [Out.endElement] }
      else none := by
  unfold fixVideoIndexProperty
  split <;> rfl

theorem readResourceProperty_flat (env : Env) (attrs : List QXmlStreamAttribute)
    (s : MltXmlChecker) :
    readResourceProperty env attrs s =
      if attrValue attrs "name".toList = "resource".toList ∨
          attrValue attrs "name".toList = "src".toList ∨
          attrValue attrs "name".toList = "filename".toList ∨
          attrValue attrs "name".toList = "luma".toList ∨
          attrValue attrs "name".toList = "luma.resource".toList ∨
          attrValue attrs "name".toList = "composite.luma".toList ∨
          attrValue attrs "name".toList = "producer.resource".toList then
        some
          { s with
            xml := s.xml.readElementText.2,
            newXml :=
              s.newXml ++ attrs.map Out.attribute ++
                [Out.characters
                  (match Spec.replacementFor s.unlinkedFilesModel
                      (resolvedPath env s.basePath s.xml.readElementText.1) with
                  | some r => r.text
                  | none => s.xml.readElementText.1)] ++ [Out.endElement],
            service :=
              match Spec.replacementFor s.unlinkedFilesModel
                  (resolvedPath env s.basePath s.xml.readElementText.1) with
              | some r =>
                { s.service with
                  resource := env.fileInfoPath r.text, newDetail := r.text, newHash := r.hash }
              | none =>
                { s.service with
                  resource := resolvedPath env s.basePath s.xml.readElementText.1 },
            isCorrected :=
              match Spec.replacementFor s.unlinkedFilesModel
                  (resolvedPath env s.basePath s.xml.readElementText.1) with
              | some _ => true
              | none => s.isCorrected }
      else none := by
  rw [readResourceProperty_eq, fixUnlinkedFileFrom_eq]
  split
  · have hres : (storeResource env attrs s).service.resource =
        resolvedPath env s.basePath s.xml.readElementText.1 := rfl
    rw [hres]
    cases Spec.replacementFor s.unlinkedFilesModel
      (resolvedPath env s.basePath s.xml.readElementText.1) <;> rfl
  · rfl

theorem propertyHandlers_cases (env : Env) (attrs : List QXmlStreamAttribute)
    (s t : MltXmlChecker) (h : propertyHandlers env attrs s = some t) :
    readMltService env attrs s = some t ∨ checkNumericProperty env attrs s = some t ∨
      ((s.mlt_class = "filter".toList ∨ s.mlt_class = "transition".toList ∨
          s.mlt_class = "producer".toList) ∧
        ((s.service.name = "webvfx".toList ∧ fixWebVfxPath env attrs s = some t) ∨
          readResourceProperty env attrs s = some t ∨
          fixShotcutHashProperty env attrs s = some t ∨
          readShotcutHashProperty env attrs s = some t ∨
          fixShotcutDetailProperty env attrs s = some t ∨
          fixShotcutCaptionProperty env attrs s = some t ∨
          fixAudioIndexProperty attrs s = some t ∨ fixVideoIndexProperty attrs s = some t)) := by
  rw [propertyHandlers_eq] at h
  cases h1 : readMltService env attrs s with
  | some u => rw [h1] at h; exact Or.inl h
  | none =>
  rw [h1] at h
  cases h2 : checkNumericProperty env attrs s with
  | some u => rw [h2] at h; exact Or.inr (Or.inl h)
  | none =>
  rw [h2] at h
  simp only [Option.none_or] at h
  refine Or.inr (Or.inr ?_)
  split at h
  swap
  · cases h
  rename_i hc
  refine ⟨hc, ?_⟩
  cases h3 : (if s.service.name = "webvfx".toList then fixWebVfxPath env attrs s else none) with
  | some u =>
    rw [h3] at h
    split at h3
    · rename_i hw
      exact Or.inl ⟨hw, h3.trans h⟩
    · cases h3
  | none =>
  rw [h3] at h
  cases h4 : readResourceProperty env attrs s with
  | some u => rw [h4] at h; exact Or.inr (Or.inl h)
  | none =>
  rw [h4] at h
  cases h5 : fixShotcutHashProperty env attrs s with
  | some u => rw [h5] at h; exact Or.inr (Or.inr (Or.inl h))
  | none =>
  rw [h5] at h
  cases h6 : readShotcutHashProperty env attrs s with
  | some u => rw [h6] at h; exact Or.inr (Or.inr (Or.inr (Or.inl h)))
  | none =>
  rw [h6] at h
  cases h7 : fixShotcutDetailProperty env attrs s with
  | some u => rw [h7] at h; exact Or.inr (Or.inr (Or.inr (Or.inr (Or.inl h))))
  | none =>
  rw [h7] at h
  cases h8 : fixShotcutCaptionProperty env attrs s with
  | some u => rw [h8] at h; exact Or.inr (Or.inr (Or.inr (Or.inr (Or.inr (Or.inl h)))))
  | none =>
  rw [h8] at h
  cases h9 : fixAudioIndexProperty attrs s with
  | some u => rw [h9] at h; exact Or.inr (Or.inr (Or.inr (Or.inr (Or.inr (Or.inr (Or.inl h))))))
  | none =>
  rw [h9] at h
  exact Or.inr (Or.inr (Or.inr (Or.inr (Or.inr (Or.inr (Or.inr h))))))

/-! ## The ways a pass goes -/

theorem passKind_readMltStep (env : Env) (s : MltXmlChecker) (hErr : s.xml.hasError = false) :
    PassKind env s (readMltStep env s) := by
  cases hTok : s.xml.tokens with
  | nil =>
    have h : readMltStep env s = { s with xml := s.xml.raiseError } := by
      simp [readMltStep, QXmlStreamReader.readNext, hErr, hTok]
    rw [h]
    exact PassKind.exhausted hTok
  | cons tok rest =>
    have hfwd : ∀ e, forward tok = some e → tok ≠ Token.Invalid →
        readMltStep env s = { s with xml := s.xml.readNext.2, newXml := s.newXml ++ [e] } →
        PassKind env s (readMltStep env s) := by
      intro e he _ h
      rw [h]
      exact PassKind.forward tok rest e hTok he
    cases tok with
    | StartElement ns element attrs =>
      rw [readMltStep_startElement env s ns element attrs rest hErr hTok]
      by_cases hc : isMltClass element = true
      · rw [if_pos hc]
        have h := @PassKind.copy env s ns element attrs rest hTok (Or.inl hc)
        simp only [openElement, if_pos hc] at h
        exact h
      · rw [if_neg hc]
        by_cases hp : element = "property".toList
        · rw [if_pos hp]
          subst hp
          cases hh : propertyHandlers env attrs (s.openProperty ns rest) with
          | some t =>
            have hh2 : propertyHandlers env attrs
                ((s.advance rest).write (Out.startElementNS ns "property".toList)) = some t := hh
            rw [hh2]
            exact PassKind.handled ns attrs rest t hTok hh
          | none =>
            have hh2 : propertyHandlers env attrs
                ((s.advance rest).write (Out.startElementNS ns "property".toList)) = none := hh
            rw [hh2]
            have h := @PassKind.copy env s ns "property".toList attrs rest hTok
              (Or.inr (Or.inr hh))
            simp only [openElement, if_neg hc] at h
            exact h
        · rw [if_neg hp]
          have h := @PassKind.copy env s ns element attrs rest hTok (Or.inr (Or.inl hp))
          simp only [openElement, if_neg hc] at h
          exact h
    | EndElement name =>
      rw [readMltStep_endElement env s name rest hErr hTok]
      exact PassKind.close name rest hTok
    | Invalid =>
      have h : readMltStep env s = { s with xml := { s.xml.raiseError with tokens := rest } } := by
        simp [readMltStep, QXmlStreamReader.readNext, hErr, hTok]
      rw [h]
      exact PassKind.invalid rest hTok
    | StartDocument version standalone =>
      exact hfwd _ rfl (by simp)
        (by simp [readMltStep, QXmlStreamReader.readNext, hErr, hTok, write])
    | EndDocument =>
      exact hfwd _ rfl (by simp)
        (by simp [readMltStep, QXmlStreamReader.readNext, hErr, hTok, write])
    | Characters text =>
      exact hfwd _ rfl (by simp)
        (by simp [readMltStep, QXmlStreamReader.readNext, hErr, hTok, write])
    | Comment text =>
      exact hfwd _ rfl (by simp)
        (by simp [readMltStep, QXmlStreamReader.readNext, hErr, hTok, write])
    | DTD text =>
      exact hfwd _ rfl (by simp)
        (by simp [readMltStep, QXmlStreamReader.readNext, hErr, hTok, write])
    | EntityReference name text =>
      exact hfwd _ rfl (by simp)
        (by simp [readMltStep, QXmlStreamReader.readNext, hErr, hTok, write])
    | ProcessingInstruction target data =>
      exact hfwd _ rfl (by simp)
        (by simp [readMltStep, QXmlStreamReader.readNext, hErr, hTok, write])

/-! ## What the copy of attributes and the end of a class leave alone -/

theorem checkInAndOutPoints_keeps (env : Env) (attrs : List QXmlStreamAttribute)
    (s : MltXmlChecker) :
    (checkInAndOutPoints env attrs s).needsGPU = s.needsGPU ∧
      (checkInAndOutPoints env attrs s).hasEffects = s.hasEffects ∧
      (checkInAndOutPoints env attrs s).isCorrected = s.isCorrected ∧
      (checkInAndOutPoints env attrs s).service = s.service ∧
      (checkInAndOutPoints env attrs s).mlt_class = s.mlt_class ∧
      (checkInAndOutPoints env attrs s).unlinkedFilesModel = s.unlinkedFilesModel := by
  unfold checkInAndOutPoints
  induction attrs generalizing s with
  | nil => exact ⟨rfl, rfl, rfl, rfl, rfl, rfl⟩
  | cons a attrs ih =>
    rw [List.foldl_cons]
    obtain ⟨h1, h2, h3, h4, h5, h6⟩ := ih
      (if a.name = "in".toList ∨ a.name = "out".toList then
        match checkNumericString env a.value s with
        | (true, value, s1) => s1.write (Out.attributeQ a.name value)
        | (false, _, s1) => s1.write (Out.attribute a)
      else s.write (Out.attribute a))
    rw [h1, h2, h3, h4, h5, h6]
    split
    · simp only [checkNumericString_eq]
      generalize
        (!contains a.value env.decimalPoint && (contains a.value '.' || contains a.value ',')) = b
      cases b <;> exact ⟨rfl, rfl, rfl, rfl, rfl, rfl⟩
    · exact ⟨rfl, rfl, rfl, rfl, rfl, rfl⟩

theorem endMltClass_keeps (env : Env) (s : MltXmlChecker) :
    (endMltClass env s).needsGPU = s.needsGPU ∧ (endMltClass env s).hasEffects = s.hasEffects ∧
      (endMltClass env s).isCorrected = s.isCorrected ∧
      (endMltClass env s).hasComma = s.hasComma ∧ (endMltClass env s).hasPeriod = s.hasPeriod ∧
      (endMltClass env s).numericValueChanged = s.numericValueChanged ∧
      (endMltClass env s).xml = s.xml ∧ (endMltClass env s).newXml = s.newXml ∧
      (endMltClass env s).service = s.service.clear ∧ (endMltClass env s).mlt_class = [] := by
  unfold endMltClass
  dsimp only
  split
  · split
    · split <;> exact ⟨rfl, rfl, rfl, rfl, rfl, rfl, rfl, rfl, rfl, rfl⟩
    · exact ⟨rfl, rfl, rfl, rfl, rfl, rfl, rfl, rfl, rfl, rfl⟩
  · exact ⟨rfl, rfl, rfl, rfl, rfl, rfl, rfl, rfl, rfl, rfl⟩

theorem propertyHandlers_capability (env : Env) (attrs : List QXmlStreamAttribute)
    (s t : MltXmlChecker) (h : propertyHandlers env attrs s = some t)
    (hName : attrValue attrs "name".toList ≠ "mlt_service".toList) :
    t.needsGPU = s.needsGPU ∧ t.hasEffects = s.hasEffects := by
  rcases propertyHandlers_cases env attrs s t h with
    h | h | ⟨_, ⟨_, h⟩ | h | h | h | h | h | h | h⟩
  · rw [readMltService_none env attrs s hName] at h
    cases h
  all_goals
    simp only [checkNumericProperty_eq, fixWebVfxPath_eq, readResourceProperty_flat,
      fixShotcutHashProperty_eq, readShotcutHashProperty_eq, fixShotcutDetailProperty_eq,
      fixShotcutCaptionProperty_eq, fixAudioIndexProperty_eq, fixVideoIndexProperty_eq] at h
    split at h
    · cases h
      exact ⟨rfl, rfl⟩
    · cases h

/-! ## The capability flags -/

theorem serviceText_of_tokens (s : MltXmlChecker) (ns element : QString)
    (attrs : List QXmlStreamAttribute) (rest : List Token)
    (hTok : s.xml.tokens = Token.StartElement ns element attrs :: rest) :
    serviceText s =
      if element = "property".toList ∧ attrValue attrs "name".toList = "mlt_service".toList then
        some (elementText rest)
      else none := by
  unfold serviceText
  rw [hTok]

theorem serviceText_forward (s : MltXmlChecker) (tok : Token) (rest : List Token) (e : Out)
    (hTok : s.xml.tokens = tok :: rest) (he : forward tok = some e) : serviceText s = none := by
  unfold serviceText
  rw [hTok]
  cases tok <;> first | rfl | cases he

theorem readMltStep_capability (env : Env) (s : MltXmlChecker) (hErr : s.xml.hasError = false) :
    (readMltStep env s).needsGPU =
        (s.needsGPU ||
          match serviceText s with
          | some text => isGpuService text
          | none => false) ∧
      (readMltStep env s).hasEffects =
        (s.hasEffects ||
          match serviceText s with
          | some text => !env.isAudioFilter text
          | none => false) := by
  have hk := passKind_readMltStep env s hErr
  generalize readMltStep env s = t at hk
  cases hk with
  | exhausted hTok => simp [serviceText, hTok]
  | invalid rest hTok => simp [serviceText, hTok]
  | forward tok rest e hTok he => simp [serviceText_forward s tok rest e hTok he]
  | copy ns element attrs rest hTok hc =>
    obtain ⟨h1, h2, _⟩ := checkInAndOutPoints_keeps env attrs (s.openElement ns element rest)
    have hnone : serviceText s = none := by
      rw [serviceText_of_tokens s ns element attrs rest hTok]
      apply if_neg
      rintro ⟨hp, hn⟩
      subst hp
      rcases hc with hc | hc | hc
      · exact absurd hc (by decide)
      · exact hc rfl
      · rw [propertyHandlers_eq, readMltService_eq, if_pos hn] at hc
        cases hc
    rw [h1, h2, hnone]
    simp [openElement, write, advance]
  | handled ns attrs rest t hTok hh =>
    by_cases hn : attrValue attrs "name".toList = "mlt_service".toList
    · have htext : (s.openProperty ns rest).xml.readElementText.1 = elementText rest := by
        rw [readElementText_openProperty s ns rest hErr]
      have hor : ∀ (a : MltXmlChecker) (b : Option MltXmlChecker), (some a).or b = some a :=
        fun _ _ => rfl
      rw [propertyHandlers_eq, readMltService_eq, if_pos hn, hor] at hh
      cases hh
      rw [serviceText_of_tokens s ns _ attrs rest hTok, if_pos (And.intro rfl hn)]
      simp only [htext]
      constructor
      · show (if isGpuService (elementText rest) = true then true else s.needsGPU) = _
        cases isGpuService (elementText rest) <;> cases s.needsGPU <;> rfl
      · show (if (!env.isAudioFilter (elementText rest)) = true then true else s.hasEffects) = _
        cases env.isAudioFilter (elementText rest) <;> cases s.hasEffects <;> rfl
    · obtain ⟨h1, h2⟩ := propertyHandlers_capability env attrs _ t hh hn
      rw [serviceText_of_tokens s ns _ attrs rest hTok, h1, h2, if_neg (fun h => hn h.2)]
      simp [openProperty, write, advance]
  | close name rest hTok =>
    have hnone : serviceText s = none := by simp [serviceText, hTok]
    rw [hnone]
    split
    · obtain ⟨h1, h2, _⟩ := endMltClass_keeps env (s.advance rest)
      show (endMltClass env (s.advance rest)).needsGPU = _ ∧
        (endMltClass env (s.advance rest)).hasEffects = _
      rw [h1, h2]
      simp [advance]
    · simp [write, advance]

/-! ## Flags that some pass of the loop raises -/

theorem readMltLoop_of_atEnd (env : Env) (k : Nat) (s : MltXmlChecker)
    (h : s.xml.atEnd = true) : readMltLoop env k s = s := by
  cases k with
  | zero => rfl
  | succ k => rw [readMltLoop, if_pos h]

theorem readMltLoop_succ (env : Env) (k : Nat) (s : MltXmlChecker)
    (h : s.xml.atEnd = false) :
    readMltLoop env (k + 1) s = readMltLoop env k (readMltStep env s) := by
  rw [readMltLoop, h]
  rfl

theorem hasError_of_not_atEnd (s : MltXmlChecker) (h : s.xml.atEnd = false) :
    s.xml.hasError = false := by
  cases he : s.xml.hasError
  · rfl
  · simp [QXmlStreamReader.atEnd, he] at h

theorem readMltLoop_flag (env : Env) (flag event : MltXmlChecker → Bool)
    (hstep : ∀ s, s.xml.hasError = false →
      flag (readMltStep env s) = (flag s || event s))
    (n : Nat) (s : MltXmlChecker) :
    flag (readMltLoop env n s) = true ↔
      flag s = true ∨
        ∃ k, k < n ∧ (readMltLoop env k s).xml.atEnd = false ∧
          event (readMltLoop env k s) = true := by
  induction n generalizing s with
  | zero =>
    constructor
    · intro h
      exact Or.inl h
    · rintro (h | ⟨k, hk, _⟩)
      · exact h
      · exact absurd hk (Nat.not_lt_zero _)
  | succ n ih =>
    cases hEnd : s.xml.atEnd with
    | true =>
      rw [readMltLoop_of_atEnd env _ s hEnd]
      constructor
      · intro h
        exact Or.inl h
      · rintro (h | ⟨k, _, hk, _⟩)
        · exact h
        · rw [readMltLoop_of_atEnd env _ s hEnd, hEnd] at hk
          cases hk
    | false =>
      rw [readMltLoop_succ env n s hEnd, ih, hstep s (hasError_of_not_atEnd s hEnd)]
      constructor
      · rintro (h | ⟨k, hk, h1, h2⟩)
        · rcases Bool.or_eq_true_iff.mp h with h | h
          · exact Or.inl h
          · exact Or.inr ⟨0, Nat.succ_pos _, hEnd, h⟩
        · refine Or.inr ⟨k + 1, Nat.succ_lt_succ hk, ?_, ?_⟩
          · rw [readMltLoop_succ env k s hEnd]; exact h1
          · rw [readMltLoop_succ env k s hEnd]; exact h2
      · rintro (h | ⟨k, hk, h1, h2⟩)
        · exact Or.inl (by rw [h]; rfl)
        · cases k with
          | zero =>
            have h3 : event s = true := h2
            exact Or.inl (by rw [h3]; simp)
          | succ k =>
            rw [readMltLoop_succ env k s hEnd] at h1 h2
            exact Or.inr ⟨k, Nat.lt_of_succ_lt_succ hk, h1, h2⟩

theorem readMlt_flag (env : Env) (flag event : MltXmlChecker → Bool)
    (hstep : ∀ s, s.xml.hasError = false →
      flag (readMltStep env s) = (flag s || event s))
    (s : MltXmlChecker) :
    flag (readMlt env s) = true ↔
      flag s.loopStart = true ∨
        ∃ k, (readMltLoop env k s.loopStart).xml.atEnd = false ∧
          event (readMltLoop env k s.loopStart) = true := by
  show flag (readMltLoop env (s.xml.tokens.length + 1) s.loopStart) = true ↔ _
  rw [readMltLoop_flag env flag event hstep]
  constructor
  · rintro (h | ⟨k, _, h1, h2⟩)
    · exact Or.inl h
    · exact Or.inr ⟨k, h1, h2⟩
  · rintro (h | ⟨k, h1, h2⟩)
    · exact Or.inl h
    · refine Or.inr ⟨k, ?_, h1, h2⟩
      by_contra hk
      have hlen : s.loopStart.xml.tokens.length < k := by
        show s.xml.tokens.length < k
        omega
      rw [readMltLoop_atEnd env k s.loopStart (Or.inr hlen)] at h1
      cases h1

theorem writeRootAttributes_eq (env : Env) (attrs : List QXmlStreamAttribute)
    (s : MltXmlChecker) :
    writeRootAttributes env attrs s =
      { s with
        newXml :=
          s.newXml ++
            (attrs.filter (fun a => decide (env.toUpper a.name ≠ "LC_NUMERIC".toList))).map
              Out.attribute } := by
  unfold writeRootAttributes
  induction attrs generalizing s with
  | nil => simp
  | cons a attrs ih =>
    rw [List.foldl_cons, ih]
    by_cases h : env.toUpper a.name ≠ "LC_NUMERIC".toList
    · rw [if_pos h, List.filter_cons_of_pos (by simpa using h)]
      simp [write]
    · rw [if_neg h, List.filter_cons_of_neg (by simpa using h)]

theorem enterMlt_eq (env : Env) (canonicalPath : QString) (attrs : List QXmlStreamAttribute)
    (r : QXmlStreamReader) (s : MltXmlChecker) :
    enterMlt env canonicalPath attrs r s =
      { s with
        newXml :=
          [Out.startDocument, Out.characters "\n".toList, Out.startElement "mlt".toList] ++
            (attrs.filter (fun a => decide (env.toUpper a.name ≠ "LC_NUMERIC".toList))).map
              Out.attribute,
        basePath := canonicalPath, xml := r } := by
  unfold enterMlt
  rw [writeRootAttributes_eq]
  simp [write]

theorem readMltStep_service (env : Env) (s : MltXmlChecker) (ns : QString)
    (attrs : List QXmlStreamAttribute) (rest : List Token)
    (hErr : s.xml.hasError = false)
    (hTok : s.xml.tokens = Token.StartElement ns "property".toList attrs :: rest)
    (hName : attrValue attrs "name".toList = "mlt_service".toList) :
    (readMltStep env s).newXml =
        s.newXml ++ Out.startElementNS ns "property".toList :: attrs.map Out.attribute ++
          [Out.characters (elementText rest), Out.endElement] ∧
      (readMltStep env s).service.name = elementText rest := by
  have htext : (s.openProperty ns rest).xml.readElementText.1 = elementText rest := by
    rw [readElementText_openProperty s ns rest hErr]
  have hor : ∀ (a : MltXmlChecker) (b : Option MltXmlChecker), (some a).or b = some a :=
    fun _ _ => rfl
  rw [readMltStep_property env s ns attrs rest hErr hTok, propertyHandlers_eq, readMltService_eq,
    if_pos hName, hor]
  simp only [htext]
  constructor
  · simp [openProperty, write, advance]
  · trivial

/-- C11. Capability flags.  For a run of `check`, on a document whose root is
`mlt`, started with both flags clear: the GPU flag is set afterwards if and
only if some pass of the loop handled an `mlt_service` property whose text
begins with `movit.` or `glsl.`, and the has-effects flag is set if and only
if some pass handled an `mlt_service` property whose text the audio-filter
test rejects.  Any pass on an `mlt_service` property, in whatever class,
emits its attributes and its text unchanged and stores the text as the
service name of the context. -/
theorem C11_capability_flags (env : Env) (canonicalPath : QString) (doc : List Token)
    (s : MltXmlChecker) (attrs : List QXmlStreamAttribute) (r : QXmlStreamReader)
    (hRoot :
      QXmlStreamReader.readNextStartElement { tokens := doc, hasError := false, atEndDocument := false } =
        (some ("mlt".toList, attrs), r))
    (hGPU : s.needsGPU = false) (hEffects : s.hasEffects = false) :
    ((check env true true canonicalPath doc s).2.needsGPU = true ↔
        ∃ k text, ServiceAt env (enterMlt env canonicalPath attrs r s).loopStart k text ∧
          (startsWith text "movit.".toList = true ∨ startsWith text "glsl.".toList = true)) ∧
      ((check env true true canonicalPath doc s).2.hasEffects = true ↔
        ∃ k text, ServiceAt env (enterMlt env canonicalPath attrs r s).loopStart k text ∧
          env.isAudioFilter text = false) ∧
      ∀ (t : MltXmlChecker) (ns : QString) (attrs1 : List QXmlStreamAttribute)
        (rest : List Token),
        t.xml.hasError = false →
        t.xml.tokens = Token.StartElement ns "property".toList attrs1 :: rest →
        attrValue attrs1 "name".toList = "mlt_service".toList →
        (readMltStep env t).newXml =
            t.newXml ++ Out.startElementNS ns "property".toList :: attrs1.map Out.attribute ++
              [Out.characters (elementText rest), Out.endElement] ∧
          (readMltStep env t).service.name = elementText rest := by
  have hcheck := check_mlt env canonicalPath doc s attrs r hRoot
  have hg0 : (enterMlt env canonicalPath attrs r s).loopStart.needsGPU = false := by
    rw [enterMlt_eq]; exact hGPU
  have he0 : (enterMlt env canonicalPath attrs r s).loopStart.hasEffects = false := by
    rw [enterMlt_eq]; exact hEffects
  refine ⟨?_, ?_, fun t ns attrs1 rest h1 h2 h3 => readMltStep_service env t ns attrs1 rest h1 h2 h3⟩
  · have h1 : (check env true true canonicalPath doc s).2.needsGPU =
        (readMlt env (enterMlt env canonicalPath attrs r s)).needsGPU := by rw [hcheck]; rfl
    rw [h1, readMlt_flag env (fun t => t.needsGPU)
      (fun t => match serviceText t with
        | some text => isGpuService text
        | none => false)
      (fun t ht => (readMltStep_capability env t ht).1), hg0]
    constructor
    · rintro (h | ⟨k, hk, hev⟩)
      · cases h
      · cases hst : serviceText (readMltLoop env k (enterMlt env canonicalPath attrs r s).loopStart) with
        | none => simp only [hst] at hev; cases hev
        | some text =>
          simp only [hst] at hev
          exact ⟨k, text, ⟨hk, hst⟩, by simpa [isGpuService] using hev⟩
    · rintro ⟨k, text, ⟨hk, hst⟩, hg⟩
      refine Or.inr ⟨k, hk, ?_⟩
      simp only [hst]
      simpa [isGpuService] using hg
  · have h1 : (check env true true canonicalPath doc s).2.hasEffects =
        (readMlt env (enterMlt env canonicalPath attrs r s)).hasEffects := by rw [hcheck]; rfl
    rw [h1, readMlt_flag env (fun t => t.hasEffects)
      (fun t => match serviceText t with
        | some text => !env.isAudioFilter text
        | none => false)
      (fun t ht => (readMltStep_capability env t ht).2), he0]
    constructor
    · rintro (h | ⟨k, hk, hev⟩)
      · cases h
      · cases hst : serviceText (readMltLoop env k (enterMlt env canonicalPath attrs r s).loopStart) with
        | none => simp only [hst] at hev; cases hev
        | some text =>
          simp only [hst] at hev
          exact ⟨k, text, ⟨hk, hst⟩, by simpa using hev⟩
    · rintro ⟨k, text, ⟨hk, hst⟩, hg⟩
      refine Or.inr ⟨k, hk, ?_⟩
      simp only [hst]
      simpa using hg

/-- C11, witness: with `volume` known as an audio filter, a fresh run on a
document with an `avformat` producer, a `movit.blur` filter and a `volume`
filter sets both flags (pass 6 handles `movit.blur`, pass 2 `avformat`), and a
fresh run on a document with a `volume` filter only sets neither. -/
theorem C11_capability_flags_witness :
    (check Sample.audioEnv true true "/project".toList Sample.gpuDoc fresh).2.needsGPU = true ∧
      (check Sample.audioEnv true true "/project".toList Sample.gpuDoc fresh).2.hasEffects = true ∧
      (check Sample.audioEnv true true "/project".toList Sample.volumeDoc fresh).2.needsGPU = false ∧
      (check Sample.audioEnv true true "/project".toList Sample.volumeDoc fresh).2.hasEffects =
        false :=
  ⟨(C11_capability_flags Sample.audioEnv "/project".toList Sample.gpuDoc fresh [] _ rfl rfl
      rfl).1.mpr ⟨5, "movit.blur".toList, by decide, by decide⟩,
    (C11_capability_flags Sample.audioEnv "/project".toList Sample.gpuDoc fresh [] _ rfl rfl
      rfl).2.1.mpr ⟨1, "avformat".toList, by decide, by decide⟩,
    by decide, by decide⟩

/-! ## `startsWith` and `indexOf` -/

theorem startsWith_iff (s p : QString) : startsWith s p = true ↔ ∃ after, s = p ++ after := by
  induction p generalizing s with
  | nil =>
    cases s <;> simp [startsWith]
  | cons b p ih =>
    cases s with
    | nil => simp [startsWith]
    | cons a s =>
      simp only [startsWith, Bool.and_eq_true, beq_iff_eq, ih, List.cons_append, List.cons.injEq]
      constructor
      · rintro ⟨h1, after, h2⟩
        exact ⟨after, h1, h2⟩
      · rintro ⟨after, h1, h2⟩
        exact ⟨h1, after, h2⟩

theorem startsWith_append (p after : QString) : startsWith (p ++ after) p = true :=
  (startsWith_iff _ _).mpr ⟨after, rfl⟩

theorem occursAt_zero_iff (needle s : QString) :
    Spec.OccursAt needle s 0 ↔ startsWith s needle = true := by
  rw [startsWith_iff]
  constructor
  · rintro ⟨before, after, h, hlen⟩
    have hb : before = [] := List.length_eq_zero.mp hlen
    subst hb
    exact ⟨after, by simpa using h⟩
  · rintro ⟨after, h⟩
    exact ⟨[], after, by simpa using h, rfl⟩

theorem occursAt_succ_iff (needle : QString) (c : Char) (s : QString) (i : Nat) :
    Spec.OccursAt needle (c :: s) (i + 1) ↔ Spec.OccursAt needle s i := by
  constructor
  · rintro ⟨before, after, h, hlen⟩
    cases before with
    | nil => cases hlen
    | cons b before =>
      simp only [List.cons_append, List.cons.injEq] at h
      exact ⟨before, after, h.2, by simpa using hlen⟩
  · rintro ⟨before, after, h, hlen⟩
    exact ⟨c :: before, after, by simp [h], by simp [hlen]⟩

theorem indexOf_some_iff (needle s : QString) (i : Nat) :
    indexOf needle s = some i ↔ Spec.FirstOccursAt needle s i := by
  induction s generalizing i with
  | nil =>
    unfold indexOf
    constructor
    · intro h
      split at h
      · rename_i hn
        cases h
        exact ⟨⟨[], [], by simp [hn], rfl⟩, fun j hj => absurd hj (Nat.not_lt_zero _)⟩
      · cases h
    · rintro ⟨⟨before, after, h, hlen⟩, _⟩
      have h1 : before = [] ∧ needle = [] ∧ after = [] := by
        have := congrArg List.length h
        simp at this
        exact ⟨List.length_eq_zero.mp (by omega), List.length_eq_zero.mp (by omega),
          List.length_eq_zero.mp (by omega)⟩
      rw [if_pos h1.2.1, ← hlen, h1.1]
      rfl
  | cons c s ih =>
    unfold indexOf
    by_cases h0 : startsWith (c :: s) needle = true
    · rw [if_pos h0]
      constructor
      · intro h
        cases h
        exact ⟨(occursAt_zero_iff _ _).mpr h0, fun j hj => absurd hj (Nat.not_lt_zero _)⟩
      · rintro ⟨_, hfirst⟩
        cases i with
        | zero => rfl
        | succ i => exact absurd ((occursAt_zero_iff _ _).mpr h0) (hfirst 0 (Nat.succ_pos _))
    · rw [if_neg h0]
      constructor
      · intro h
        cases hix : indexOf needle s with
        | none => rw [hix] at h; cases h
        | some k =>
          rw [hix] at h
          cases h
          obtain ⟨hocc, hfirst⟩ := (ih k).mp hix
          refine ⟨(occursAt_succ_iff _ _ _ _).mpr hocc, ?_⟩
          intro j hj
          cases j with
          | zero => exact fun hc => h0 ((occursAt_zero_iff _ _).mp hc)
          | succ j =>
            exact fun hc => hfirst j (Nat.lt_of_succ_lt_succ hj) ((occursAt_succ_iff _ _ _ _).mp hc)
      · rintro ⟨hocc, hfirst⟩
        cases i with
        | zero => exact absurd ((occursAt_zero_iff _ _).mp hocc) h0
        | succ i =>
          have hix : indexOf needle s = some i :=
            (ih i).mpr ⟨(occursAt_succ_iff _ _ _ _).mp hocc,
              fun j hj hc => hfirst (j + 1) (Nat.succ_lt_succ hj)
                ((occursAt_succ_iff _ _ _ _).mpr hc)⟩
          rw [hix]
          rfl

theorem indexOf_none_iff (needle s : QString) :
    indexOf needle s = none ↔ ∀ i, ¬ Spec.OccursAt needle s i := by
  constructor
  · intro h i hocc
    classical
    have hex : ∃ k, Spec.OccursAt needle s k := ⟨i, hocc⟩
    have hfirst : Spec.FirstOccursAt needle s (Nat.find hex) :=
      ⟨Nat.find_spec hex, fun j hj => Nat.find_min hex hj⟩
    rw [(indexOf_some_iff needle s _).mpr hfirst] at h
    cases h
  · intro h
    cases hix : indexOf needle s with
    | none => rfl
    | some i => exact absurd ((indexOf_some_iff needle s i).mp hix).1 (h i)

/-! ## The relocation of bundled resources -/

theorem relocated_some_iff (env : Env) (text p : QString) :
    relocated env text = some p ↔
      Spec.Relocatable env text ∧
        ∃ i, Spec.FirstOccursAt "/share/shotcut/".toList text i ∧ p = env.appPath ++ text.drop i := by
  unfold relocated Spec.Relocatable
  cases hrel : env.isRelative (env.fileInfoPath text) with
  | true => simp
  | false =>
    cases hsw : startsWith text env.appPath with
    | true =>
      have hex : ∃ after, text = env.appPath ++ after := (startsWith_iff _ _).mp hsw
      simp [hex]
    | false =>
      have hnex : ¬ ∃ after, text = env.appPath ++ after := by
        intro h
        rw [(startsWith_iff _ _).mpr h] at hsw
        cases hsw
      simp only [Bool.not_false, if_true, true_and, hnex, not_false_eq_true]
      cases hix : indexOf "/share/shotcut/".toList text with
      | none =>
        have hno := (indexOf_none_iff _ _).mp hix
        constructor
        · intro h; cases h
        · rintro ⟨⟨i, hi⟩, _⟩
          exact absurd hi (hno i)
      | some i =>
        have hfirst := (indexOf_some_iff _ _ _).mp hix
        constructor
        · intro h
          cases h
          exact ⟨⟨i, hfirst.1⟩, i, hfirst, rfl⟩
        · rintro ⟨_, j, hj, hp⟩
          have hji : indexOf "/share/shotcut/".toList text = some j :=
            (indexOf_some_iff _ _ _).mpr hj
          rw [hix] at hji
          cases hji
          rw [hp]
          rfl

theorem relocated_none_iff (env : Env) (text : QString) :
    relocated env text = none ↔ ¬ Spec.Relocatable env text := by
  constructor
  · intro h hr
    classical
    have hex := hr.2.2
    have hfirst : Spec.FirstOccursAt "/share/shotcut/".toList text (Nat.find hex) :=
      ⟨Nat.find_spec hex, fun j hj => Nat.find_min hex hj⟩
    rw [(relocated_some_iff env text _).mpr ⟨hr, _, hfirst, rfl⟩] at h
    cases h
  · intro h
    cases hx : relocated env text with
    | none => rfl
    | some p => exact absurd ((relocated_some_iff env text p).mp hx).1 h

theorem relocated_result (env : Env) (text : QString) :
    ¬ Spec.Relocatable env ((relocated env text).getD text) := by
  cases hx : relocated env text with
  | none => exact (relocated_none_iff env text).mp hx
  | some p =>
    obtain ⟨_, i, _, hp⟩ := (relocated_some_iff env text p).mp hx
    rintro ⟨_, hnot, _⟩
    exact hnot ⟨text.drop i, hp⟩

/-- The webvfx handler.  While the current class is producer, filter or
transition, when the current service name is `webvfx` and the property is
`resource`: if the original path is absolute, does not start with the
application directory and contains `/share/shotcut/`, the emitted path is the
application directory followed by the original path from its first occurrence
of `/share/shotcut/` onward, and the modified flag is set; in every other
case the original text is emitted unchanged and the flag is left as it was.
The emitted path is never one the relocation applies to: relocating it again
changes nothing. -/
theorem readMltStep_webvfx (env : Env) (s : MltXmlChecker) (ns : QString)
    (attrs : List QXmlStreamAttribute) (rest : List Token)
    (hErr : s.xml.hasError = false)
    (hTok : s.xml.tokens = Token.StartElement ns "property".toList attrs :: rest)
    (hClass : s.mlt_class = "producer".toList ∨ s.mlt_class = "filter".toList ∨
      s.mlt_class = "transition".toList)
    (hService : s.service.name = "webvfx".toList)
    (hName : attrValue attrs "name".toList = "resource".toList) :
    ∃ emitted,
      (readMltStep env s).newXml =
          s.newXml ++ Out.startElementNS ns "property".toList :: attrs.map Out.attribute ++
            [Out.characters emitted, Out.endElement] ∧
        (Spec.Relocatable env (elementText rest) →
          (∃ i, Spec.FirstOccursAt "/share/shotcut/".toList (elementText rest) i ∧
            emitted = env.appPath ++ (elementText rest).drop i) ∧
          (readMltStep env s).isCorrected = true) ∧
        (¬ Spec.Relocatable env (elementText rest) →
          emitted = elementText rest ∧ (readMltStep env s).isCorrected = s.isCorrected) ∧
        ¬ Spec.Relocatable env emitted := by
  have htext : (s.openProperty ns rest).xml.readElementText.1 = elementText rest := by
    rw [readElementText_openProperty s ns rest hErr]
  have hor : ∀ (a : MltXmlChecker) (b : Option MltXmlChecker), (some a).or b = some a :=
    fun _ _ => rfl
  have h1 : attrValue attrs "name".toList ≠ "mlt_service".toList := by rw [hName]; decide
  have h2 : attrValue attrs "name".toList ≠ "length".toList := by rw [hName]; decide
  have h3 : attrValue attrs "name".toList ≠ "geometry".toList := by rw [hName]; decide
  have hService2 : (s.openProperty ns rest).service.name = "webvfx".toList := hService
  have hstep := readMltStep_property env s ns attrs rest hErr hTok
  rw [propertyHandlers_eq, readMltService_none env attrs _ h1,
    checkNumericProperty_none env attrs _ h2 h3,
    if_pos (resourceClass_openProperty s ns rest hClass), if_pos hService2, fixWebVfxPath_eq,
    if_pos hName] at hstep
  simp only [Option.none_or, hor, htext] at hstep
  refine ⟨(relocated env (elementText rest)).getD (elementText rest), ?_, ?_, ?_,
    relocated_result env (elementText rest)⟩
  · rw [hstep]
    simp [openProperty, write, advance]
  · intro hr
    classical
    have hex := hr.2.2
    have hfirst : Spec.FirstOccursAt "/share/shotcut/".toList (elementText rest) (Nat.find hex) :=
      ⟨Nat.find_spec hex, fun j hj => Nat.find_min hex hj⟩
    have hsome := (relocated_some_iff env (elementText rest) _).mpr ⟨hr, _, hfirst, rfl⟩
    rw [hstep, hsome]
    exact ⟨⟨_, hfirst, rfl⟩, rfl⟩
  · intro hr
    have hnone := (relocated_none_iff env (elementText rest)).mpr hr
    rw [hstep, hnone]
    exact ⟨rfl, rfl⟩

/-! ## The generic copy -/

theorem needsFix_iff (c : Char) (value : QString) :
    (!contains value c && (contains value '.' || contains value ',')) = true ↔
      Spec.ambiguous c value := by
  unfold Spec.ambiguous
  rw [← contains_iff, ← contains_iff, ← contains_iff]
  cases contains value c <;> cases contains value '.' <;> cases contains value ',' <;> simp

theorem checkInAndOutPoints_newXml (env : Env) (attrs : List QXmlStreamAttribute)
    (s : MltXmlChecker) :
    (checkInAndOutPoints env attrs s).newXml = s.newXml ++ attrs.map (Spec.copied env) := by
  unfold checkInAndOutPoints
  induction attrs generalizing s with
  | nil => simp
  | cons a attrs ih =>
    rw [List.foldl_cons, ih, List.map_cons]
    have hone :
        (if a.name = "in".toList ∨ a.name = "out".toList then
            match checkNumericString env a.value s with
            | (true, value, s1) => s1.write (Out.attributeQ a.name value)
            | (false, _, s1) => s1.write (Out.attribute a)
          else s.write (Out.attribute a)).newXml = s.newXml ++ [Spec.copied env a] := by
      unfold Spec.copied
      by_cases hn : a.name = "in".toList ∨ a.name = "out".toList
      · rw [if_pos hn]
        simp only [checkNumericString_eq]
        have hiff := needsFix_iff env.decimalPoint a.value
        by_cases ha : Spec.ambiguous env.decimalPoint a.value
        · have hb := hiff.mpr ha
          rw [if_pos (And.intro hn ha)]
          simp only [hb]
          simp [Spec.normalize, ha, replaceChar_both, write]
        · have hb : (!contains a.value env.decimalPoint &&
              (contains a.value '.' || contains a.value ',')) = false := by
            cases h : (!contains a.value env.decimalPoint &&
              (contains a.value '.' || contains a.value ','))
            · rfl
            · exact absurd (hiff.mp h) ha
          simp only [hb]
          simp [write, ha]
      · rw [if_neg hn, if_neg (fun h : (a.name = "in".toList ∨ a.name = "out".toList) ∧
            Spec.ambiguous env.decimalPoint a.value => hn h.1)]
        rfl
    rw [hone]
    simp

/-- C16. Generic copy: a start element that no handler takes (a
class-defining element, an element other than `property`, or a `property`
that every handler declines) is written with one attribute call for each
of the attributes of the input, in the same order; an attribute not named
`in` or `out` is written as it is, and an `in` or `out` attribute is written
with its value passed through the Numeric Normalizer. -/
theorem C16_generic_copy (env : Env) (s : MltXmlChecker) (ns element : QString)
    (attrs : List QXmlStreamAttribute) (rest : List Token)
    (hErr : s.xml.hasError = false)
    (hTok : s.xml.tokens = Token.StartElement ns element attrs :: rest)
    (hCopy : isMltClass element = true ∨ element ≠ "property".toList ∨
      propertyHandlers env attrs (s.openProperty ns rest) = none) :
    (readMltStep env s).newXml =
        s.newXml ++ Out.startElementNS ns element :: attrs.map (Spec.copied env) ∧
      (attrs.map (Spec.copied env)).length = attrs.length ∧
      (∀ a : QXmlStreamAttribute, ¬ (a.name = "in".toList ∨ a.name = "out".toList) →
        Spec.copied env a = Out.attribute a) ∧
      (∀ a : QXmlStreamAttribute, a.name = "in".toList ∨ a.name = "out".toList →
        (Spec.copied env a).writtenValue = some (Spec.normalize env.decimalPoint a.value)) ∧
      ∀ a : QXmlStreamAttribute, (Spec.copied env a).isAttribute = true := by
  have hstep : readMltStep env s = checkInAndOutPoints env attrs (s.openElement ns element rest) := by
    rw [readMltStep_startElement env s ns element attrs rest hErr hTok]
    by_cases hc : isMltClass element = true
    · rw [if_pos hc]
      simp only [openElement, if_pos hc]
    · rw [if_neg hc]
      have ho : s.openElement ns element rest =
          (s.advance rest).write (Out.startElementNS ns element) := by
        simp only [openElement, if_neg hc]
        rfl
      rw [ho]
      by_cases hp : element = "property".toList
      · rw [if_pos hp]
        subst hp
        rcases hCopy with h | h | h
        · exact absurd h hc
        · exact absurd rfl h
        · have h2 : propertyHandlers env attrs
              ((s.advance rest).write (Out.startElementNS ns "property".toList)) = none := h
          rw [h2]
      · rw [if_neg hp]
  refine ⟨?_, List.length_map _ _, ?_, ?_, ?_⟩
  · rw [hstep, checkInAndOutPoints_newXml]
    simp [openElement, write, advance]
  · intro a hn
    unfold Spec.copied
    rw [if_neg (fun h : (a.name = "in".toList ∨ a.name = "out".toList) ∧
      Spec.ambiguous env.decimalPoint a.value => hn h.1)]
  · intro a hn
    unfold Spec.copied
    by_cases ha : Spec.ambiguous env.decimalPoint a.value
    · rw [if_pos (And.intro hn ha)]
      rfl
    · simp [Out.writtenValue, Spec.normalize, ha]
  · intro a
    unfold Spec.copied
    split <;> rfl

/-- C16, witness: under canonical `.` the start tag of a producer that has
`id`, `in` = `0,5`, `out` = `1.5,2` and `title` = `a,b` for attributes is
written with `in` = `0.5` and every other attribute as it is. -/
theorem C16_generic_copy_witness :
    (readMltStep Sample.env
        (Sample.reading
          [Token.StartElement [] "producer".toList
            [Sample.attr "id" "p0", Sample.attr "in" "0,5", Sample.attr "out" "1.5,2",
              Sample.attr "title" "a,b"]])).newXml =
      [Out.startElementNS [] "producer".toList, Out.attribute (Sample.attr "id" "p0"),
        Out.attributeQ "in".toList "0.5".toList, Out.attribute (Sample.attr "out" "1.5,2"),
        Out.attribute (Sample.attr "title" "a,b")] :=
  (C16_generic_copy Sample.env
      (Sample.reading
        [Token.StartElement [] "producer".toList
          [Sample.attr "id" "p0", Sample.attr "in" "0,5", Sample.attr "out" "1.5,2",
            Sample.attr "title" "a,b"]])
      [] "producer".toList _ [] rfl rfl (Or.inl (by decide))).1.trans (by decide)

/-! ## The scope of the handlers -/

/-- C17, counterexample: inside a playlist, under canonical `.`, the
`length` property with text `12,5` is not copied through: it is written as
`12.5`, and the comma flag and the numeric-changed flag, clear before, are
set. -/
theorem C17_counterexample :
    (Sample.playlistAfter 1).mlt_class = "playlist".toList ∧
      (Sample.playlistAfter 1).xml.tokens.take 3 = Sample.property "length" "12,5" ∧
      (readMltStep Sample.env (Sample.playlistAfter 1)).newXml =
        (Sample.playlistAfter 1).newXml ++
          [Out.startElementNS [] "property".toList, Out.attribute (Sample.attr "name" "length"),
            Out.characters "12.5".toList, Out.endElement] ∧
      (Sample.playlistAfter 1).hasComma = false ∧
      (readMltStep Sample.env (Sample.playlistAfter 1)).hasComma = true ∧
      (Sample.playlistAfter 1).numericValueChanged = false ∧
      (readMltStep Sample.env (Sample.playlistAfter 1)).numericValueChanged = true := by
  decide

/-- C17, as amended. Of the field handlers, the service-name handler and
the numeric-property handler are applied to a `property` element in every
class and outside any class; every other handler is applied only when the
enclosing class is producer, filter or transition.  So a `property` that a
handler takes and that is named neither `mlt_service` nor `length` nor
`geometry` stands in one of these three classes, and outside them such a
property is copied by the generic copy; a `length` or `geometry` property
is, whatever the enclosing class, written with its attributes as they are
and its text passed through the Numeric Normalizer, its commas and periods
being recorded in the comma, period and changed flags. -/
theorem C17_handler_scope (env : Env) (s : MltXmlChecker) (ns : QString)
    (attrs : List QXmlStreamAttribute) (rest : List Token)
    (hErr : s.xml.hasError = false)
    (hTok : s.xml.tokens = Token.StartElement ns "property".toList attrs :: rest) :
    (∀ t : MltXmlChecker, propertyHandlers env attrs (s.openProperty ns rest) = some t →
        attrValue attrs "name".toList ≠ "mlt_service".toList →
        attrValue attrs "name".toList ≠ "length".toList →
        attrValue attrs "name".toList ≠ "geometry".toList →
        s.mlt_class = "filter".toList ∨ s.mlt_class = "transition".toList ∨
          s.mlt_class = "producer".toList) ∧
      (¬ (s.mlt_class = "filter".toList ∨ s.mlt_class = "transition".toList ∨
            s.mlt_class = "producer".toList) →
        attrValue attrs "name".toList ≠ "mlt_service".toList →
        attrValue attrs "name".toList ≠ "length".toList →
        attrValue attrs "name".toList ≠ "geometry".toList →
        readMltStep env s = checkInAndOutPoints env attrs (s.openProperty ns rest)) ∧
      (attrValue attrs "name".toList = "length".toList ∨
          attrValue attrs "name".toList = "geometry".toList →
        (readMltStep env s).newXml =
            s.newXml ++ Out.startElementNS ns "property".toList :: attrs.map Out.attribute ++
              [Out.characters (Spec.normalize env.decimalPoint (elementText rest)),
                Out.endElement] ∧
          (readMltStep env s).hasComma = (s.hasComma || contains (elementText rest) ',') ∧
          (readMltStep env s).hasPeriod = (s.hasPeriod || contains (elementText rest) '.') ∧
          (readMltStep env s).numericValueChanged =
            (s.numericValueChanged || decide (Spec.ambiguous env.decimalPoint (elementText rest)))) := by
  have hscope : ∀ t : MltXmlChecker, propertyHandlers env attrs (s.openProperty ns rest) = some t →
      attrValue attrs "name".toList ≠ "mlt_service".toList →
      attrValue attrs "name".toList ≠ "length".toList →
      attrValue attrs "name".toList ≠ "geometry".toList →
      s.mlt_class = "filter".toList ∨ s.mlt_class = "transition".toList ∨
        s.mlt_class = "producer".toList := by
    intro t ht h1 h2 h3
    rcases propertyHandlers_cases env attrs _ t ht with h | h | ⟨hc, _⟩
    · rw [readMltService_none env attrs _ h1] at h
      cases h
    · rw [checkNumericProperty_eq, if_neg (fun h : attrValue attrs "name".toList = "length".toList ∨
        attrValue attrs "name".toList = "geometry".toList => h.elim h2 h3)] at h
      cases h
    · exact hc
  refine ⟨hscope, ?_, ?_⟩
  · intro hc h1 h2 h3
    rw [readMltStep_property env s ns attrs rest hErr hTok]
    cases hp : propertyHandlers env attrs (s.openProperty ns rest) with
    | none => rfl
    | some t => exact absurd (hscope t hp h1 h2 h3) hc
  · intro hName
    have hNot : attrValue attrs "name".toList ≠ "mlt_service".toList := by
      rcases hName with h | h <;> rw [h] <;> decide
    have hp : propertyHandlers env attrs (s.openProperty ns rest) =
        checkNumericProperty env attrs (s.openProperty ns rest) := by
      rw [propertyHandlers_eq, readMltService_none env attrs _ hNot, checkNumericProperty_eq,
        if_pos hName]
      rfl
    rw [readMltStep_property env s ns attrs rest hErr hTok, hp, checkNumericProperty_eq,
      if_pos hName]
    simp only [readElementText_openProperty s ns rest hErr]
    have hiff := needsFix_iff env.decimalPoint (elementText rest)
    by_cases ha : Spec.ambiguous env.decimalPoint (elementText rest)
    · have hb := hiff.mpr ha
      simp only [hb]
      simp [Spec.normalize, ha, replaceChar_both, openProperty, write, advance]
    · have hb : (!contains (elementText rest) env.decimalPoint &&
          (contains (elementText rest) '.' || contains (elementText rest) ',')) = false := by
        cases h : (!contains (elementText rest) env.decimalPoint &&
          (contains (elementText rest) '.' || contains (elementText rest) ','))
        · rfl
        · exact absurd (hiff.mp h) ha
      simp only [hb]
      simp [Spec.normalize, ha, openProperty, write, advance]

/-- C17, witness: inside a playlist the `length` property `12,5` is written
as `12.5` with the comma and changed flags set and the period flag left
clear, and the `resource` property after it is left to the generic copy. -/
theorem C17_handler_scope_witness :
    ((readMltStep Sample.env (Sample.playlistAfter 1)).newXml =
        (Sample.playlistAfter 1).newXml ++
          [Out.startElementNS [] "property".toList, Out.attribute (Sample.attr "name" "length"),
            Out.characters "12.5".toList, Out.endElement] ∧
      (readMltStep Sample.env (Sample.playlistAfter 1)).hasComma = true ∧
      (readMltStep Sample.env (Sample.playlistAfter 1)).hasPeriod = false ∧
      (readMltStep Sample.env (Sample.playlistAfter 1)).numericValueChanged = true) ∧
    readMltStep Sample.env (Sample.playlistAfter 2) =
      checkInAndOutPoints Sample.env [Sample.attr "name" "resource"]
        ((Sample.playlistAfter 2).openProperty [] (Sample.playlistAfter 2).xml.tokens.tail) :=
  ⟨(fun h => ⟨h.1.trans (by decide), h.2.1.trans (by decide), h.2.2.1.trans (by decide),
      h.2.2.2.trans (by decide)⟩)
      ((C17_handler_scope Sample.env (Sample.playlistAfter 1) [] [Sample.attr "name" "length"]
        (Sample.playlistAfter 1).xml.tokens.tail (by decide) (by decide)).2.2 (Or.inl (by decide))),
    (C17_handler_scope Sample.env (Sample.playlistAfter 2) [] [Sample.attr "name" "resource"]
      (Sample.playlistAfter 2).xml.tokens.tail (by decide) (by decide)).2.1 (by decide) (by decide)
      (by decide) (by decide)⟩

/-! ## The life of the service context -/

/-- C18, counterexample: a producer of service `avformat` with resource
`/exists/a.mp4` has a filter nested inside it; immediately after the start
tag of the filter is processed the context still holds the name and the
resource of the producer. -/
theorem C18_counterexample :
    (Sample.nestedAfter 3).xml.hasError = false ∧
      (Sample.nestedAfter 3).xml.tokens.head? =
        some (Token.StartElement [] "filter".toList [Sample.attr "id" "filter0"]) ∧
      isMltClass "filter".toList = true ∧
      (readMltStep Sample.env (Sample.nestedAfter 3)).mlt_class = "filter".toList ∧
      (readMltStep Sample.env (Sample.nestedAfter 3)).service.name = "avformat".toList ∧
      (readMltStep Sample.env (Sample.nestedAfter 3)).service.resource = "/exists/a.mp4".toList := by
  decide

/-- C18, as amended. Context reset on exit: the start tag of a
class-defining element leaves the Service Context as it is and only makes
the element the current class, also when the element is nested inside
another class-defining element; the end tag of a class-defining element
resets the context (name, resource path, hash and pending replacement path
and hash all empty) and leaves no current class.  So a class-defining
element entered right after the end tag of another starts with the empty
context. -/
theorem C18_context_reset (env : Env) (s : MltXmlChecker) (hErr : s.xml.hasError = false) :
    (∀ (ns element : QString) (attrs : List QXmlStreamAttribute) (rest : List Token),
        s.xml.tokens = Token.StartElement ns element attrs :: rest → isMltClass element = true →
        (readMltStep env s).service = s.service ∧ (readMltStep env s).mlt_class = element) ∧
      (∀ (name : QString) (rest : List Token),
        s.xml.tokens = Token.EndElement name :: rest → isMltClass name = true →
        (readMltStep env s).service =
            { name := [], resource := [], hash := [], newHash := [], newDetail := [] } ∧
          (readMltStep env s).mlt_class = [] ∧
          ∀ (ns element : QString) (attrs : List QXmlStreamAttribute) (rest1 : List Token),
            rest = Token.StartElement ns element attrs :: rest1 → isMltClass element = true →
            (readMltStep env (readMltStep env s)).service =
              { name := [], resource := [], hash := [], newHash := [], newDetail := [] }) := by
  have hstart : ∀ (u : MltXmlChecker), u.xml.hasError = false →
      ∀ (ns element : QString) (attrs : List QXmlStreamAttribute) (rest : List Token),
        u.xml.tokens = Token.StartElement ns element attrs :: rest → isMltClass element = true →
        (readMltStep env u).service = u.service ∧ (readMltStep env u).mlt_class = element := by
    intro u hu ns element attrs rest hTok hc
    rw [readMltStep_startElement env u ns element attrs rest hu hTok, if_pos hc]
    obtain ⟨_, _, _, h4, h5, _⟩ := checkInAndOutPoints_keeps env attrs
      { (u.advance rest).write (Out.startElementNS ns element) with mlt_class := element }
    exact ⟨h4, h5⟩
  refine ⟨hstart s hErr, ?_⟩
  intro name rest hTok hc
  have hend : readMltStep env s = (endMltClass env (s.advance rest)).write Out.endElement := by
    rw [readMltStep_endElement env s name rest hErr hTok, if_pos hc]
  obtain ⟨_, _, _, _, _, _, hx, _, hs, hm⟩ := endMltClass_keeps env (s.advance rest)
  have h1 : (readMltStep env s).service =
      { name := [], resource := [], hash := [], newHash := [], newDetail := [] } := by
    rw [hend]
    exact hs
  have h2 : (readMltStep env s).mlt_class = [] := by
    rw [hend]
    exact hm
  refine ⟨h1, h2, ?_⟩
  intro ns element attrs rest1 hrest hc1
  have hxml : (readMltStep env s).xml = (s.advance rest).xml := by
    rw [hend]
    exact hx
  have hErr1 : (readMltStep env s).xml.hasError = false := by
    rw [hxml]
    exact hErr
  have hTok1 : (readMltStep env s).xml.tokens = Token.StartElement ns element attrs :: rest1 := by
    rw [hxml]
    exact hrest
  rw [(hstart _ hErr1 ns element attrs rest1 hTok1 hc1).1, h1]

/-- C18, witness: in the producer with a nested filter, the start tag of
the filter keeps the name `avformat` and the resource of the producer in the
context, and the end tag of the filter leaves the context empty. -/
theorem C18_context_reset_witness :
    ((readMltStep Sample.env (Sample.nestedAfter 3)).service =
        { name := "avformat".toList, resource := "/exists/a.mp4".toList, hash := [],
          newHash := [], newDetail := [] } ∧
      (readMltStep Sample.env (Sample.nestedAfter 3)).mlt_class = "filter".toList) ∧
    (readMltStep Sample.env (Sample.nestedAfter 5)).service =
      { name := [], resource := [], hash := [], newHash := [], newDetail := [] } ∧
    (readMltStep Sample.env (Sample.nestedAfter 5)).mlt_class = [] :=
  ⟨(fun h => ⟨h.1.trans (by decide), h.2⟩)
      ((C18_context_reset Sample.env (Sample.nestedAfter 3) (by decide)).1 []
        "filter".toList [Sample.attr "id" "filter0"] (Sample.nestedAfter 3).xml.tokens.tail
        (by decide) (by decide)),
    ((C18_context_reset Sample.env (Sample.nestedAfter 5) (by decide)).2 "filter".toList
      (Sample.nestedAfter 5).xml.tokens.tail (by decide) (by decide)).1,
    ((C18_context_reset Sample.env (Sample.nestedAfter 5) (by decide)).2 "filter".toList
      (Sample.nestedAfter 5).xml.tokens.tail (by decide) (by decide)).2.1⟩

/-! ## No piece of `readMlt` reads a flag

Every piece of `readMlt` commutes with raising flags beforehand: what it does
to the rest of the checker does not depend on the flags, and it never clears
one. -/

theorem orFlags_checkInAndOutPoints (env : Env) (f : MltXmlChecker)
    (attrs : List QXmlStreamAttribute) (s : MltXmlChecker) :
    checkInAndOutPoints env attrs (orFlags f s) = orFlags f (checkInAndOutPoints env attrs s) := by
  unfold checkInAndOutPoints
  induction attrs generalizing s with
  | nil => rfl
  | cons a attrs ih =>
    rw [List.foldl_cons, List.foldl_cons, ← ih]
    congr 1
    split
    · simp only [checkNumericString_eq]
      generalize
        (!contains a.value env.decimalPoint && (contains a.value '.' || contains a.value ',')) = b
      cases b <;> simp [orFlags, write, Bool.or_assoc]
    · rfl

theorem orFlags_readMltService (env : Env) (f : MltXmlChecker)
    (attrs : List QXmlStreamAttribute) (s : MltXmlChecker) :
    readMltService env attrs (orFlags f s) = (readMltService env attrs s).map (orFlags f) := by
  rw [readMltService_eq, readMltService_eq]
  split
  · simp only [Option.map_some', orFlags]
    congr 1
    cases f.needsGPU <;> cases f.hasEffects <;> cases s.needsGPU <;> cases s.hasEffects <;>
      cases env.isAudioFilter s.xml.readElementText.1 <;>
      cases (startsWith s.xml.readElementText.1 "movit.".toList ||
        startsWith s.xml.readElementText.1 "glsl.".toList) <;> rfl
  · rfl

theorem orFlags_checkNumericProperty (env : Env) (f : MltXmlChecker)
    (attrs : List QXmlStreamAttribute) (s : MltXmlChecker) :
    checkNumericProperty env attrs (orFlags f s) =
      (checkNumericProperty env attrs s).map (orFlags f) := by
  rw [checkNumericProperty_eq, checkNumericProperty_eq]
  split
  · simp [orFlags, Bool.or_assoc]
  · rfl

theorem orFlags_fixWebVfxPath (env : Env) (f : MltXmlChecker)
    (attrs : List QXmlStreamAttribute) (s : MltXmlChecker) :
    fixWebVfxPath env attrs (orFlags f s) = (fixWebVfxPath env attrs s).map (orFlags f) := by
  rw [fixWebVfxPath_eq, fixWebVfxPath_eq]
  split
  · simp only [Option.map_some', orFlags]
    congr 1
    cases f.isCorrected <;> cases s.isCorrected <;>
      cases (relocated env s.xml.readElementText.1).isSome <;> rfl
  · rfl

theorem orFlags_readResourceProperty (env : Env) (f : MltXmlChecker)
    (attrs : List QXmlStreamAttribute) (s : MltXmlChecker) :
    readResourceProperty env attrs (orFlags f s) =
      (readResourceProperty env attrs s).map (orFlags f) := by
  rw [readResourceProperty_flat, readResourceProperty_flat]
  split
  · simp only [Option.map_some', orFlags]
    congr 1
    cases Spec.replacementFor s.unlinkedFilesModel
        (resolvedPath env s.basePath s.xml.readElementText.1) with
    | none => rfl
    | some r => simp
  · rfl

theorem orFlags_readShotcutHashProperty (env : Env) (f : MltXmlChecker)
    (attrs : List QXmlStreamAttribute) (s : MltXmlChecker) :
    readShotcutHashProperty env attrs (orFlags f s) =
      (readShotcutHashProperty env attrs s).map (orFlags f) := by
  rw [readShotcutHashProperty_eq, readShotcutHashProperty_eq]
  split <;> rfl

theorem orFlags_fixShotcutHashProperty (env : Env) (f : MltXmlChecker)
    (attrs : List QXmlStreamAttribute) (s : MltXmlChecker) :
    fixShotcutHashProperty env attrs (orFlags f s) =
      (fixShotcutHashProperty env attrs s).map (orFlags f) := by
  rw [fixShotcutHashProperty_eq, fixShotcutHashProperty_eq]
  have h : (orFlags f s).service = s.service := rfl
  rw [h]
  split <;> rfl

theorem orFlags_fixShotcutDetailProperty (env : Env) (f : MltXmlChecker)
    (attrs : List QXmlStreamAttribute) (s : MltXmlChecker) :
    fixShotcutDetailProperty env attrs (orFlags f s) =
      (fixShotcutDetailProperty env attrs s).map (orFlags f) := by
  rw [fixShotcutDetailProperty_eq, fixShotcutDetailProperty_eq]
  have h : (orFlags f s).service = s.service := rfl
  rw [h]
  split <;> rfl

theorem orFlags_fixShotcutCaptionProperty (env : Env) (f : MltXmlChecker)
    (attrs : List QXmlStreamAttribute) (s : MltXmlChecker) :
    fixShotcutCaptionProperty env attrs (orFlags f s) =
      (fixShotcutCaptionProperty env attrs s).map (orFlags f) := by
  rw [fixShotcutCaptionProperty_eq, fixShotcutCaptionProperty_eq]
  have h : (orFlags f s).service = s.service := rfl
  rw [h]
  split <;> rfl

theorem orFlags_fixAudioIndexProperty (f : MltXmlChecker)
    (attrs : List QXmlStreamAttribute) (s : MltXmlChecker) :
    fixAudioIndexProperty attrs (orFlags f s) =
      (fixAudioIndexProperty attrs s).map (orFlags f) := by
  rw [fixAudioIndexProperty_eq, fixAudioIndexProperty_eq]
  have h : (orFlags f s).service = s.service := rfl
  rw [h]
  split <;> rfl

theorem orFlags_fixVideoIndexProperty (f : MltXmlChecker)
    (attrs : List QXmlStreamAttribute) (s : MltXmlChecker) :
    fixVideoIndexProperty attrs (orFlags f s) =
      (fixVideoIndexProperty attrs s).map (orFlags f) := by
  rw [fixVideoIndexProperty_eq, fixVideoIndexProperty_eq]
  have h : (orFlags f s).service = s.service := rfl
  rw [h]
  split <;> rfl

theorem orFlags_propertyHandlers (env : Env) (f : MltXmlChecker)
    (attrs : List QXmlStreamAttribute) (s : MltXmlChecker) :
    propertyHandlers env attrs (orFlags f s) =
      (propertyHandlers env attrs s).map (orFlags f) := by
  have hm : (orFlags f s).mlt_class = s.mlt_class := rfl
  have hn : (orFlags f s).service.name = s.service.name := rfl
  unfold propertyHandlers
  rw [orFlags_readMltService, orFlags_checkNumericProperty, orFlags_fixWebVfxPath,
    orFlags_readResourceProperty, orFlags_fixShotcutHashProperty,
    orFlags_readShotcutHashProperty, orFlags_fixShotcutDetailProperty,
    orFlags_fixShotcutCaptionProperty, orFlags_fixAudioIndexProperty,
    orFlags_fixVideoIndexProperty, hm, hn]
  cases readMltService env attrs s with
  | some t => rfl
  | none =>
  cases checkNumericProperty env attrs s with
  | some t => rfl
  | none =>
  simp only [Option.map_none']
  split
  swap
  · rfl
  have hw : (if s.service.name = "webvfx".toList then
        Option.map (orFlags f) (fixWebVfxPath env attrs s) else none) =
      Option.map (orFlags f)
        (if s.service.name = "webvfx".toList then fixWebVfxPath env attrs s else none) := by
    split <;> rfl
  rw [hw]
  cases (if s.service.name = "webvfx".toList then fixWebVfxPath env attrs s else none) with
  | some t => rfl
  | none =>
  cases readResourceProperty env attrs s with
  | some t => rfl
  | none =>
  cases fixShotcutHashProperty env attrs s with
  | some t => rfl
  | none =>
  cases readShotcutHashProperty env attrs s with
  | some t => rfl
  | none =>
  cases fixShotcutDetailProperty env attrs s with
  | some t => rfl
  | none =>
  cases fixShotcutCaptionProperty env attrs s with
  | some t => rfl
  | none =>
  cases fixAudioIndexProperty attrs s with
  | some t => rfl
  | none => rfl

theorem orFlags_endMltClass (env : Env) (f s : MltXmlChecker) :
    endMltClass env (orFlags f s) = orFlags f (endMltClass env s) := by
  unfold endMltClass
  dsimp only
  have h1 : (orFlags f s).service = s.service := rfl
  have h2 : (orFlags f s).unlinkedFilesModel = s.unlinkedFilesModel := rfl
  rw [h1, h2]
  split
  · split
    · split <;> rfl
    · rfl
  · rfl

theorem orFlags_readMltStep (env : Env) (f s : MltXmlChecker) :
    readMltStep env (orFlags f s) = orFlags f (readMltStep env s) := by
  have hx : (orFlags f s).xml = s.xml := rfl
  unfold readMltStep
  rw [hx]
  cases hr : s.xml.readNext with
  | mk tok xml =>
    cases tok with
    | StartElement ns element attrs =>
      dsimp only
      split
      · exact orFlags_checkInAndOutPoints env f attrs
          { ({ s with xml := xml }).write (Out.startElementNS ns element) with
            mlt_class := element }
      · split
        · have h := orFlags_propertyHandlers env f attrs
            (({ s with xml := xml }).write (Out.startElementNS ns element))
          have h2 : (({ orFlags f s with xml := xml }).write
              (Out.startElementNS ns element)) =
              orFlags f (({ s with xml := xml }).write (Out.startElementNS ns element)) :=
            rfl
          rw [h2, h]
          cases propertyHandlers env attrs
            (({ s with xml := xml }).write (Out.startElementNS ns element)) with
          | some t => rfl
          | none =>
            exact orFlags_checkInAndOutPoints env f attrs
              (({ s with xml := xml }).write (Out.startElementNS ns element))
        · exact orFlags_checkInAndOutPoints env f attrs
            (({ s with xml := xml }).write (Out.startElementNS ns element))
    | EndElement name =>
      dsimp only
      split
      · have h := orFlags_endMltClass env f { s with xml := xml }
        have h2 : ({ orFlags f s with xml := xml } : MltXmlChecker) =
            orFlags f ({ s with xml := xml } : MltXmlChecker) := rfl
        rw [h2, h]
        rfl
      · rfl
    | _ => rfl

theorem orFlags_readMltLoop (env : Env) (f : MltXmlChecker) (fuel : Nat) (s : MltXmlChecker) :
    readMltLoop env fuel (orFlags f s) = orFlags f (readMltLoop env fuel s) := by
  induction fuel generalizing s with
  | zero => rfl
  | succ n ih =>
    have hx : (orFlags f s).xml = s.xml := rfl
    unfold readMltLoop
    rw [hx]
    split
    · rfl
    · rw [orFlags_readMltStep, ih]

theorem orFlags_readMlt (env : Env) (f s : MltXmlChecker) :
    readMlt env (orFlags f s) = orFlags f (readMlt env s) :=
  orFlags_readMltLoop env f _ { s with mlt_class := [] }

/-! ## A second run on the same checker -/

theorem check_fst (env : Env) (fileOpens tempFileOpens : Bool) (canonicalPath : QString)
    (doc : List Token) (s : MltXmlChecker) :
    (check env fileOpens tempFileOpens canonicalPath doc s).1 =
      ((check env fileOpens tempFileOpens canonicalPath doc s).2.xml.hasError == false) := rfl

theorem readMlt_congr (env : Env) (s t : MltXmlChecker) (h : s.loopStart = t.loopStart) :
    readMlt env s = readMlt env t := by
  have hx : s.xml.tokens.length = t.xml.tokens.length :=
    congrArg (fun u => u.xml.tokens.length) h
  show readMltLoop env (s.xml.tokens.length + 1) s.loopStart =
    readMltLoop env (t.xml.tokens.length + 1) t.loopStart
  rw [hx, h]

theorem check_again_mlt (env : Env) (canonicalPath : QString) (doc : List Token)
    (attrs : List QXmlStreamAttribute) (r : QXmlStreamReader)
    (hRoot :
      QXmlStreamReader.readNextStartElement { tokens := doc, hasError := false, atEndDocument := false } =
        (some ("mlt".toList, attrs), r))
    (hClear : (check env true true canonicalPath doc fresh).2.service = fresh.service)
    (hEmpty : (check env true true canonicalPath doc fresh).2.unlinkedFilesModel = []) :
    (check env true true canonicalPath doc (check env true true canonicalPath doc fresh).2).2 =
      (check env true true canonicalPath doc fresh).2 := by
  have hX := check_mlt env canonicalPath doc fresh attrs r hRoot
  have hY := check_mlt env canonicalPath doc (check env true true canonicalPath doc fresh).2
    attrs r hRoot
  generalize check env true true canonicalPath doc fresh = X at hX hY hClear hEmpty ⊢
  generalize hW : readMlt env (enterMlt env canonicalPath attrs r fresh) = W at hX
  have hs : W.service = fresh.service := by
    rw [← hClear, hX]
    rfl
  have hm : W.unlinkedFilesModel = [] := by
    rw [← hEmpty, hX]
    rfl
  have hstart : (enterMlt env canonicalPath attrs r X.2).loopStart =
      (orFlags X.2 (enterMlt env canonicalPath attrs r fresh)).loopStart := by
    rw [enterMlt_eq, enterMlt_eq]
    simp only [loopStart, orFlags, fresh, Bool.or_false]
    rw [hClear, hEmpty]
    rfl
  rw [readMlt_congr env _ _ hstart, orFlags_readMlt, hW] at hY
  rw [hY]
  have h1 : X.2.needsGPU = W.needsGPU := by rw [hX]; rfl
  have h2 : X.2.hasEffects = W.hasEffects := by rw [hX]; rfl
  have h3 : X.2.isCorrected =
      (W.isCorrected || (W.hasPeriod && W.hasComma && W.numericValueChanged)) := by rw [hX]
  have h4 : X.2.hasComma = W.hasComma := by rw [hX]; rfl
  have h5 : X.2.hasPeriod = W.hasPeriod := by rw [hX]; rfl
  have h6 : X.2.numericValueChanged = W.numericValueChanged := by rw [hX]; rfl
  simp only [orFlags, write, h1, h2, h3, h4, h5, h6, Bool.or_self]
  rw [hX]
  simp only [write]
  congr 1
  cases W.isCorrected <;> cases W.hasPeriod <;> cases W.hasComma <;>
    cases W.numericValueChanged <;> rfl

theorem check_again (env : Env) (canonicalPath : QString) (doc : List Token)
    (hClear : (check env true true canonicalPath doc fresh).2.service = fresh.service)
    (hEmpty : (check env true true canonicalPath doc fresh).2.unlinkedFilesModel = []) :
    check env true true canonicalPath doc (check env true true canonicalPath doc fresh).2 =
      check env true true canonicalPath doc fresh := by
  have h2 : (check env true true canonicalPath doc
      (check env true true canonicalPath doc fresh).2).2 =
      (check env true true canonicalPath doc fresh).2 := by
    cases hr : QXmlStreamReader.readNextStartElement
        { tokens := doc, hasError := false, atEndDocument := false } with
    | mk found r =>
      cases found with
      | none =>
        unfold check
        simp only [Bool.and_self, if_true, hr]
      | some p =>
        obtain ⟨name, attrs⟩ := p
        by_cases hn : name = "mlt".toList
        · subst hn
          exact check_again_mlt env canonicalPath doc attrs r hr hClear hEmpty
        · unfold check
          simp only [Bool.and_self, if_true, hr, if_neg hn]
  exact Prod.ext (by rw [check_fst, check_fst, h2]) h2

/-! ## Flags over the passes of a run -/

theorem readMltLoop_any (env : Env) (inv : MltXmlChecker → Prop)
    (flag event : MltXmlChecker → Bool)
    (hinv : ∀ s, s.xml.hasError = false → inv s → inv (readMltStep env s))
    (hstep : ∀ s, s.xml.hasError = false → inv s →
      flag (readMltStep env s) = (flag s || event s))
    (n : Nat) (s : MltXmlChecker) (h0 : inv s) :
    flag (readMltLoop env n s) = (flag s || (passes env n s).any event) := by
  induction n generalizing s with
  | zero => simp [readMltLoop, passes]
  | succ n ih =>
    cases hEnd : s.xml.atEnd with
    | true => simp [readMltLoop, passes, hEnd]
    | false =>
      have hErr := hasError_of_not_atEnd s hEnd
      rw [readMltLoop_succ env n s hEnd, ih _ (hinv s hErr h0), hstep s hErr h0]
      simp [passes, hEnd, Bool.or_assoc]

theorem checkInAndOutPoints_separators (env : Env) (attrs : List QXmlStreamAttribute)
    (s : MltXmlChecker) :
    (checkInAndOutPoints env attrs s).hasComma =
        (s.hasComma || (inOutValues attrs).any (fun v => contains v ',')) ∧
      (checkInAndOutPoints env attrs s).hasPeriod =
        (s.hasPeriod || (inOutValues attrs).any (fun v => contains v '.')) := by
  unfold checkInAndOutPoints
  induction attrs generalizing s with
  | nil => simp [inOutValues]
  | cons a attrs ih =>
    rw [List.foldl_cons]
    obtain ⟨h1, h2⟩ := ih
      (if a.name = "in".toList ∨ a.name = "out".toList then
        match checkNumericString env a.value s with
        | (true, value, s1) => s1.write (Out.attributeQ a.name value)
        | (false, _, s1) => s1.write (Out.attribute a)
      else s.write (Out.attribute a))
    rw [h1, h2]
    by_cases hn : a.name = "in".toList ∨ a.name = "out".toList
    · have hv : inOutValues (a :: attrs) = a.value :: inOutValues attrs := by
        unfold inOutValues
        rw [List.filter_cons, if_pos (decide_eq_true hn)]
        rfl
      rw [if_pos hn, hv]
      simp only [checkNumericString_eq]
      generalize
        (!contains a.value env.decimalPoint && (contains a.value '.' || contains a.value ',')) = b
      cases b <;> simp [write, Bool.or_assoc]
    · have hv : inOutValues (a :: attrs) = inOutValues attrs := by
        unfold inOutValues
        rw [List.filter_cons, if_neg (fun h => hn (of_decide_eq_true h))]
      rw [if_neg hn, hv]
      simp [write]

theorem propertyHandlers_separators (env : Env) (attrs : List QXmlStreamAttribute)
    (s t : MltXmlChecker) (h : propertyHandlers env attrs s = some t)
    (hName : ¬ (attrValue attrs "name".toList = "length".toList ∨
      attrValue attrs "name".toList = "geometry".toList)) :
    t.hasComma = s.hasComma ∧ t.hasPeriod = s.hasPeriod := by
  rcases propertyHandlers_cases env attrs s t h with
    h | h | ⟨_, ⟨_, h⟩ | h | h | h | h | h | h | h⟩
  · rw [readMltService_eq] at h
    split at h
    · cases h
      exact ⟨rfl, rfl⟩
    · cases h
  · rw [checkNumericProperty_eq, if_neg hName] at h
    cases h
  all_goals
    simp only [fixWebVfxPath_eq, readResourceProperty_flat,
      fixShotcutHashProperty_eq, readShotcutHashProperty_eq, fixShotcutDetailProperty_eq,
      fixShotcutCaptionProperty_eq, fixAudioIndexProperty_eq, fixVideoIndexProperty_eq] at h
    split at h
    · cases h
      exact ⟨rfl, rfl⟩
    · cases h

theorem numericFields_of_tokens (env : Env) (s : MltXmlChecker) (ns element : QString)
    (attrs : List QXmlStreamAttribute) (rest : List Token)
    (hTok : s.xml.tokens = Token.StartElement ns element attrs :: rest) :
    numericFields env s =
      if element = "property".toList then
        if attrValue attrs "name".toList = "mlt_service".toList then []
        else if attrValue attrs "name".toList = "length".toList ∨
            attrValue attrs "name".toList = "geometry".toList then [elementText rest]
        else if (propertyHandlers env attrs (s.openProperty ns rest)).isSome then []
        else inOutValues attrs
      else inOutValues attrs := by
  unfold numericFields
  rw [hTok]

theorem numericFields_forward (env : Env) (s : MltXmlChecker) (tok : Token) (rest : List Token)
    (e : Out) (hTok : s.xml.tokens = tok :: rest) (he : forward tok = some e) :
    numericFields env s = [] := by
  unfold numericFields
  rw [hTok]
  cases tok <;> first | rfl | cases he

theorem propertyHandlers_numeric (env : Env) (attrs : List QXmlStreamAttribute)
    (s : MltXmlChecker)
    (hName : attrValue attrs "name".toList = "length".toList ∨
      attrValue attrs "name".toList = "geometry".toList) :
    propertyHandlers env attrs s = checkNumericProperty env attrs s := by
  have hNot : attrValue attrs "name".toList ≠ "mlt_service".toList := by
    rcases hName with h | h <;> rw [h] <;> decide
  rw [propertyHandlers_eq, readMltService_none env attrs _ hNot, checkNumericProperty_eq,
    if_pos hName]
  rfl

theorem readMltStep_separators (env : Env) (s : MltXmlChecker) (hErr : s.xml.hasError = false) :
    (readMltStep env s).hasComma =
        (s.hasComma || (numericFields env s).any (fun v => contains v ',')) ∧
      (readMltStep env s).hasPeriod =
        (s.hasPeriod || (numericFields env s).any (fun v => contains v '.')) := by
  have hk := passKind_readMltStep env s hErr
  generalize readMltStep env s = t at hk
  cases hk with
  | exhausted hTok => simp [numericFields, hTok]
  | invalid rest hTok => simp [numericFields, hTok]
  | forward tok rest e hTok he => simp [numericFields_forward env s tok rest e hTok he]
  | copy ns element attrs rest hTok hc =>
    obtain ⟨h1, h2⟩ := checkInAndOutPoints_separators env attrs (s.openElement ns element rest)
    have hf : numericFields env s = inOutValues attrs := by
      rw [numericFields_of_tokens env s ns element attrs rest hTok]
      by_cases hp : element = "property".toList
      · subst hp
        have hnone : propertyHandlers env attrs (s.openProperty ns rest) = none := by
          rcases hc with hc | hc | hc
          · exact absurd hc (by decide)
          · exact absurd rfl hc
          · exact hc
        have hs : attrValue attrs "name".toList ≠ "mlt_service".toList := by
          intro hn
          rw [propertyHandlers_eq, readMltService_eq, if_pos hn] at hnone
          cases hnone
        have hl : ¬ (attrValue attrs "name".toList = "length".toList ∨
            attrValue attrs "name".toList = "geometry".toList) := by
          intro hn
          rw [propertyHandlers_numeric env attrs _ hn, checkNumericProperty_eq, if_pos hn]
            at hnone
          cases hnone
        rw [if_pos rfl, if_neg hs, if_neg hl, hnone]
        rfl
      · rw [if_neg hp]
    rw [h1, h2, hf]
    exact ⟨rfl, rfl⟩
  | handled ns attrs rest t hTok hh =>
    rw [numericFields_of_tokens env s ns _ attrs rest hTok, if_pos rfl]
    by_cases hl : attrValue attrs "name".toList = "length".toList ∨
        attrValue attrs "name".toList = "geometry".toList
    · have hs : attrValue attrs "name".toList ≠ "mlt_service".toList := by
        rcases hl with h | h <;> rw [h] <;> decide
      rw [propertyHandlers_numeric env attrs _ hl, checkNumericProperty_eq, if_pos hl] at hh
      cases hh
      rw [if_neg hs, if_pos hl]
      simp only [readElementText_openProperty s ns rest hErr]
      simp [openProperty, write, advance]
    · obtain ⟨h1, h2⟩ := propertyHandlers_separators env attrs _ t hh hl
      rw [h1, h2]
      by_cases hs : attrValue attrs "name".toList = "mlt_service".toList
      · rw [if_pos hs]
        simp [openProperty, write, advance]
      · rw [if_neg hs, if_neg hl, hh]
        simp [openProperty, write, advance]
  | close name rest hTok =>
    have hnone : numericFields env s = [] := by simp [numericFields, hTok]
    rw [hnone]
    split
    · obtain ⟨_, _, _, h1, h2, _⟩ := endMltClass_keeps env (s.advance rest)
      show (endMltClass env (s.advance rest)).hasComma = _ ∧
        (endMltClass env (s.advance rest)).hasPeriod = _
      rw [h1, h2]
      simp [advance]
    · simp [write, advance]

/-! ## The modified flag during the walk -/

theorem replacementFor_none (rows : List Row) (path : QString)
    (h : ∀ row ∈ rows, row.replacement = none) : Spec.replacementFor rows path = none := by
  unfold Spec.replacementFor
  have hf : rows.find? (fun row =>
      decide (row.missing.text = path) &&
        match row.replacement with
        | some r => decide (r.text ≠ [])
        | none => false) = none := by
    rw [List.find?_eq_none]
    intro row hrow
    rw [h row hrow]
    simp
  rw [hf]
  rfl

theorem noReplacement_readMltStep (env : Env) (s : MltXmlChecker)
    (hErr : s.xml.hasError = false)
    (h : ∀ row ∈ s.unlinkedFilesModel, row.replacement = none) :
    ∀ row ∈ (readMltStep env s).unlinkedFilesModel, row.replacement = none := by
  have hk := passKind_readMltStep env s hErr
  generalize readMltStep env s = t at hk
  cases hk with
  | exhausted hTok => exact h
  | invalid rest hTok => exact h
  | forward tok rest e hTok he => exact h
  | copy ns element attrs rest hTok hc =>
    rw [(checkInAndOutPoints_keeps env attrs (s.openElement ns element rest)).2.2.2.2.2]
    exact h
  | handled ns attrs rest t hTok hh =>
    rw [(frame_propertyHandlers env attrs _ t hh).registry]
    exact h
  | close name rest hTok =>
    split
    · show ∀ row ∈ (endMltClass env (s.advance rest)).unlinkedFilesModel, row.replacement = none
      rw [endMltClass_registry]
      split
      · intro row hrow
        rcases List.mem_append.mp hrow with hrow | hrow
        · exact h row hrow
        · rw [List.mem_singleton.mp hrow]
      · exact h
    · exact h

theorem relocatesNext_of_tokens (env : Env) (s : MltXmlChecker) (ns element : QString)
    (attrs : List QXmlStreamAttribute) (rest : List Token)
    (hTok : s.xml.tokens = Token.StartElement ns element attrs :: rest) :
    relocatesNext env s =
      (decide (element = "property".toList ∧
        (s.mlt_class = "filter".toList ∨ s.mlt_class = "transition".toList ∨
          s.mlt_class = "producer".toList) ∧
        s.service.name = "webvfx".toList ∧ attrValue attrs "name".toList = "resource".toList) &&
        (relocated env (elementText rest)).isSome) := by
  unfold relocatesNext
  rw [hTok]

theorem relocatesNext_forward (env : Env) (s : MltXmlChecker) (tok : Token) (rest : List Token)
    (e : Out) (hTok : s.xml.tokens = tok :: rest) (he : forward tok = some e) :
    relocatesNext env s = false := by
  unfold relocatesNext
  rw [hTok]
  cases tok <;> first | rfl | cases he

theorem propertyHandlers_webvfx (env : Env) (attrs : List QXmlStreamAttribute)
    (s : MltXmlChecker)
    (hClass : s.mlt_class = "filter".toList ∨ s.mlt_class = "transition".toList ∨
      s.mlt_class = "producer".toList)
    (hService : s.service.name = "webvfx".toList)
    (hName : attrValue attrs "name".toList = "resource".toList) :
    propertyHandlers env attrs s = fixWebVfxPath env attrs s := by
  have h1 : attrValue attrs "name".toList ≠ "mlt_service".toList := by rw [hName]; decide
  have h2 : attrValue attrs "name".toList ≠ "length".toList := by rw [hName]; decide
  have h3 : attrValue attrs "name".toList ≠ "geometry".toList := by rw [hName]; decide
  rw [propertyHandlers_eq, readMltService_none env attrs s h1,
    checkNumericProperty_none env attrs s h2 h3, if_pos hClass, if_pos hService,
    fixWebVfxPath_eq, if_pos hName]
  rfl

theorem propertyHandlers_corrected (env : Env) (attrs : List QXmlStreamAttribute)
    (s t : MltXmlChecker) (h : propertyHandlers env attrs s = some t)
    (hNot : ¬ (s.service.name = "webvfx".toList ∧
      attrValue attrs "name".toList = "resource".toList))
    (hRows : ∀ row ∈ s.unlinkedFilesModel, row.replacement = none) :
    t.isCorrected = s.isCorrected := by
  rcases propertyHandlers_cases env attrs s t h with
    h | h | ⟨_, ⟨hw, h⟩ | h | h | h | h | h | h | h⟩
  · rw [readMltService_eq] at h
    split at h
    · cases h
      rfl
    · cases h
  · rw [checkNumericProperty_eq] at h
    split at h
    · cases h
      rfl
    · cases h
  · rw [fixWebVfxPath_eq] at h
    split at h
    · rename_i hn
      exact absurd (And.intro hw hn) hNot
    · cases h
  · rw [readResourceProperty_flat, replacementFor_none _ _ hRows] at h
    split at h
    · cases h
      rfl
    · cases h
  all_goals
    simp only [fixShotcutHashProperty_eq, readShotcutHashProperty_eq,
      fixShotcutDetailProperty_eq, fixShotcutCaptionProperty_eq, fixAudioIndexProperty_eq,
      fixVideoIndexProperty_eq] at h
    split at h
    · cases h
      rfl
    · cases h

theorem propertyHandlers_scope (env : Env) (attrs : List QXmlStreamAttribute)
    (s t : MltXmlChecker) (h : propertyHandlers env attrs s = some t)
    (h1 : attrValue attrs "name".toList ≠ "mlt_service".toList)
    (h2 : attrValue attrs "name".toList ≠ "length".toList)
    (h3 : attrValue attrs "name".toList ≠ "geometry".toList) :
    s.mlt_class = "filter".toList ∨ s.mlt_class = "transition".toList ∨
      s.mlt_class = "producer".toList := by
  rcases propertyHandlers_cases env attrs s t h with h | h | ⟨hc, _⟩
  · rw [readMltService_none env attrs _ h1] at h
    cases h
  · rw [checkNumericProperty_none env attrs _ h2 h3] at h
    cases h
  · exact hc

theorem readMltStep_corrected (env : Env) (s : MltXmlChecker) (hErr : s.xml.hasError = false)
    (hRows : ∀ row ∈ s.unlinkedFilesModel, row.replacement = none) :
    (readMltStep env s).isCorrected = (s.isCorrected || relocatesNext env s) := by
  have hk := passKind_readMltStep env s hErr
  generalize readMltStep env s = t at hk
  cases hk with
  | exhausted hTok => simp [relocatesNext, hTok]
  | invalid rest hTok => simp [relocatesNext, hTok]
  | forward tok rest e hTok he => simp [relocatesNext_forward env s tok rest e hTok he]
  | copy ns element attrs rest hTok hc =>
    have hf : relocatesNext env s = false := by
      rw [relocatesNext_of_tokens env s ns element attrs rest hTok]
      have hd : ¬ (element = "property".toList ∧
          (s.mlt_class = "filter".toList ∨ s.mlt_class = "transition".toList ∨
            s.mlt_class = "producer".toList) ∧
          s.service.name = "webvfx".toList ∧
          attrValue attrs "name".toList = "resource".toList) := by
        rintro ⟨hp, hclass, hservice, hname⟩
        subst hp
        rcases hc with hc | hc | hc
        · exact absurd hc (by decide)
        · exact hc rfl
        · rw [propertyHandlers_webvfx env attrs (s.openProperty ns rest) hclass hservice hname,
            fixWebVfxPath_eq, if_pos hname] at hc
          cases hc
      rw [decide_eq_false hd]
      rfl
    rw [(checkInAndOutPoints_keeps env attrs (s.openElement ns element rest)).2.2.1, hf]
    simp [openElement, write, advance]
  | handled ns attrs rest t hTok hh =>
    rw [relocatesNext_of_tokens env s ns _ attrs rest hTok]
    by_cases hw : s.service.name = "webvfx".toList ∧
        attrValue attrs "name".toList = "resource".toList
    · have h1 : attrValue attrs "name".toList ≠ "mlt_service".toList := by rw [hw.2]; decide
      have h2 : attrValue attrs "name".toList ≠ "length".toList := by rw [hw.2]; decide
      have h3 : attrValue attrs "name".toList ≠ "geometry".toList := by rw [hw.2]; decide
      have hclass : s.mlt_class = "filter".toList ∨ s.mlt_class = "transition".toList ∨
          s.mlt_class = "producer".toList :=
        propertyHandlers_scope env attrs (s.openProperty ns rest) t hh h1 h2 h3
      rw [propertyHandlers_webvfx env attrs (s.openProperty ns rest) hclass hw.1 hw.2,
        fixWebVfxPath_eq, if_pos hw.2] at hh
      cases hh
      rw [decide_eq_true (And.intro rfl (And.intro hclass hw))]
      simp only [readElementText_openProperty s ns rest hErr]
      show (if (relocated env (elementText rest)).isSome = true then true else s.isCorrected) = _
      cases (relocated env (elementText rest)).isSome <;> cases s.isCorrected <;> rfl
    · have hd : ¬ ("property".toList = "property".toList ∧
          (s.mlt_class = "filter".toList ∨ s.mlt_class = "transition".toList ∨
            s.mlt_class = "producer".toList) ∧
          s.service.name = "webvfx".toList ∧
          attrValue attrs "name".toList = "resource".toList) := fun h => hw h.2.2
      rw [decide_eq_false hd, propertyHandlers_corrected env attrs _ t hh hw hRows]
      simp [openProperty, write, advance]
  | close name rest hTok =>
    have hnone : relocatesNext env s = false := by simp [relocatesNext, hTok]
    rw [hnone]
    split
    · show (endMltClass env (s.advance rest)).isCorrected = _
      rw [(endMltClass_keeps env (s.advance rest)).2.2.1]
      simp [advance]
    · simp [write, advance]

/-! ## Running the checker twice -/

theorem readMlt_separators (env : Env) (s : MltXmlChecker) :
    (readMlt env s).hasComma =
        (s.hasComma || (passesOf env s).any (fun u => (numericFields env u).any
          (fun v => contains v ','))) ∧
      (readMlt env s).hasPeriod =
        (s.hasPeriod || (passesOf env s).any (fun u => (numericFields env u).any
          (fun v => contains v '.'))) :=
  ⟨readMltLoop_any env (fun _ => True) (fun u => u.hasComma)
      (fun u => (numericFields env u).any (fun v => contains v ','))
      (fun _ _ _ => trivial) (fun u hu _ => (readMltStep_separators env u hu).1) _ s.loopStart
      trivial,
    readMltLoop_any env (fun _ => True) (fun u => u.hasPeriod)
      (fun u => (numericFields env u).any (fun v => contains v '.'))
      (fun _ _ _ => trivial) (fun u hu _ => (readMltStep_separators env u hu).2) _ s.loopStart
      trivial⟩

theorem readMlt_corrected (env : Env) (s : MltXmlChecker)
    (hRows : ∀ row ∈ s.unlinkedFilesModel, row.replacement = none) :
    (readMlt env s).isCorrected =
      (s.isCorrected || (passesOf env s).any (relocatesNext env)) :=
  readMltLoop_any env (fun u => ∀ row ∈ u.unlinkedFilesModel, row.replacement = none)
    (fun u => u.isCorrected) (relocatesNext env)
    (fun u hu h => noReplacement_readMltStep env u hu h)
    (fun u hu h => readMltStep_corrected env u hu h) _ s.loopStart hRows

/-- C14, counterexample.  On a platform where every file is on disk: the
document with a `webvfx` producer whose resource is a bundled file of another
installation has no numeric field and leaves the registry empty, both runs
on it write the same output, and the modified flag is set after the second
run; the document whose only service name is read after the producer, outside
any class, has no numeric field and leaves the registry empty either, and
the second run on the same checker writes another output than the first. -/
theorem C14_counterexample :
    ((check Sample.fullEnv true true "/home".toList Sample.relocatedDoc fresh).1 = true ∧
      (check Sample.fullEnv true true "/home".toList Sample.relocatedDoc
        fresh).2.unlinkedFilesModel = [] ∧
      (check Sample.fullEnv true true "/home".toList Sample.relocatedDoc fresh).2.hasComma = false ∧
      (check Sample.fullEnv true true "/home".toList Sample.relocatedDoc fresh).2.hasPeriod = false ∧
      (check Sample.fullEnv true true "/home".toList Sample.relocatedDoc
        (check Sample.fullEnv true true "/home".toList Sample.relocatedDoc fresh).2).2.newXml =
        (check Sample.fullEnv true true "/home".toList Sample.relocatedDoc fresh).2.newXml ∧
      (check Sample.fullEnv true true "/home".toList Sample.relocatedDoc
        (check Sample.fullEnv true true "/home".toList Sample.relocatedDoc
          fresh).2).2.isCorrected = true) ∧
    ((check Sample.fullEnv true true "/home".toList Sample.leftoverDoc fresh).1 = true ∧
      (check Sample.fullEnv true true "/home".toList Sample.leftoverDoc
        fresh).2.unlinkedFilesModel = [] ∧
      (check Sample.fullEnv true true "/home".toList Sample.leftoverDoc fresh).2.hasComma = false ∧
      (check Sample.fullEnv true true "/home".toList Sample.leftoverDoc fresh).2.hasPeriod = false ∧
      (check Sample.fullEnv true true "/home".toList Sample.leftoverDoc fresh).2.isCorrected = false ∧
      (check Sample.fullEnv true true "/home".toList Sample.leftoverDoc
        (check Sample.fullEnv true true "/home".toList Sample.leftoverDoc fresh).2).2.newXml ≠
        (check Sample.fullEnv true true "/home".toList Sample.leftoverDoc fresh).2.newXml) := by
  decide

/-- C14, as amended. Idempotence on clean input.  A document is run
through `check` twice on the same checker, fresh before the first run.  If
the first run leaves the registry empty (no missing resources) and the
Service Context clear (no service name read after the last class-defining
element is closed), then the second run returns the same result as the
first, and leaves the same checker, and writes the same output.  If
moreover the root is `mlt`, the numeric fields that the passes of the run
meet do not hold both a comma and a period (no mixed separators), and no
pass rewrites the resource path of a `webvfx` service, then the modified flag
is false after the second run. -/
theorem C14_idempotence (env : Env) (canonicalPath : QString) (doc : List Token)
    (hClear : (check env true true canonicalPath doc fresh).2.service = fresh.service)
    (hEmpty : (check env true true canonicalPath doc fresh).2.unlinkedFilesModel = []) :
    check env true true canonicalPath doc (check env true true canonicalPath doc fresh).2 =
        check env true true canonicalPath doc fresh ∧
      (check env true true canonicalPath doc
          (check env true true canonicalPath doc fresh).2).2.newXml =
        (check env true true canonicalPath doc fresh).2.newXml ∧
      ∀ (attrs : List QXmlStreamAttribute) (r : QXmlStreamReader),
        QXmlStreamReader.readNextStartElement
            { tokens := doc, hasError := false, atEndDocument := false } =
          (some ("mlt".toList, attrs), r) →
        ¬ ((∃ u ∈ passesOf env (enterMlt env canonicalPath attrs r fresh),
              ∃ v ∈ numericFields env u, ',' ∈ v) ∧
            ∃ u ∈ passesOf env (enterMlt env canonicalPath attrs r fresh),
              ∃ v ∈ numericFields env u, '.' ∈ v) →
        (∀ u ∈ passesOf env (enterMlt env canonicalPath attrs r fresh),
          relocatesNext env u = false) →
        (check env true true canonicalPath doc
          (check env true true canonicalPath doc fresh).2).2.isCorrected = false := by
  have hagain := check_again env canonicalPath doc hClear hEmpty
  refine ⟨hagain, by rw [hagain], ?_⟩
  intro attrs r hRoot hMixed hReloc
  rw [hagain, check_mlt env canonicalPath doc fresh attrs r hRoot]
  have hrows : ∀ row ∈ (enterMlt env canonicalPath attrs r fresh).unlinkedFilesModel,
      row.replacement = none := by
    rw [enterMlt_eq]
    intro row hrow
    cases hrow
  have hic0 : (enterMlt env canonicalPath attrs r fresh).isCorrected = false := by
    rw [enterMlt_eq]
    rfl
  have hc0 : (enterMlt env canonicalPath attrs r fresh).hasComma = false := by
    rw [enterMlt_eq]
    rfl
  have hp0 : (enterMlt env canonicalPath attrs r fresh).hasPeriod = false := by
    rw [enterMlt_eq]
    rfl
  have hic : (readMlt env (enterMlt env canonicalPath attrs r fresh)).isCorrected = false := by
    rw [readMlt_corrected env _ hrows, hic0, Bool.false_or, List.any_eq_false]
    intro u hu
    rw [hReloc u hu]
    simp
  obtain ⟨hc, hp⟩ := readMlt_separators env (enterMlt env canonicalPath attrs r fresh)
  rw [hc0, Bool.false_or] at hc
  rw [hp0, Bool.false_or] at hp
  have hfield : ∀ (c : Char),
      ((passesOf env (enterMlt env canonicalPath attrs r fresh)).any
        (fun u => (numericFields env u).any (fun v => contains v c))) = true →
      ∃ u ∈ passesOf env (enterMlt env canonicalPath attrs r fresh),
        ∃ v ∈ numericFields env u, c ∈ v := by
    intro c h
    obtain ⟨u, hu, h1⟩ := List.any_eq_true.mp h
    obtain ⟨v, hv, h2⟩ := List.any_eq_true.mp h1
    exact ⟨u, hu, v, hv, (contains_iff v c).mp h2⟩
  have hmix : ((readMlt env (enterMlt env canonicalPath attrs r fresh)).hasPeriod &&
      (readMlt env (enterMlt env canonicalPath attrs r fresh)).hasComma) = false := by
    cases h1 : (readMlt env (enterMlt env canonicalPath attrs r fresh)).hasPeriod with
    | false => rfl
    | true =>
      cases h2 : (readMlt env (enterMlt env canonicalPath attrs r fresh)).hasComma with
      | false => rfl
      | true =>
        exact absurd (And.intro (hfield ',' (hc.symm.trans h2)) (hfield '.' (hp.symm.trans h1)))
          hMixed
  show ((readMlt env (enterMlt env canonicalPath attrs r fresh)).isCorrected ||
    ((readMlt env (enterMlt env canonicalPath attrs r fresh)).hasPeriod &&
      (readMlt env (enterMlt env canonicalPath attrs r fresh)).hasComma &&
      (readMlt env (enterMlt env canonicalPath attrs r fresh)).numericValueChanged)) = false
  rw [hic, hmix]
  rfl

/-- C14, witness: under canonical `.`, the document with a producer on disk
whose `in` point `0,5` and `length` `12,5` are rewritten (no period in a
numeric field) gives the same result in both runs, with the numeric-changed
flag set and the modified flag false. -/
theorem C14_idempotence_witness :
    check Sample.env true true "/home".toList Sample.cleanDoc
        (check Sample.env true true "/home".toList Sample.cleanDoc fresh).2 =
      check Sample.env true true "/home".toList Sample.cleanDoc fresh ∧
    (check Sample.env true true "/home".toList Sample.cleanDoc
      (check Sample.env true true "/home".toList Sample.cleanDoc fresh).2).2.isCorrected = false ∧
    (check Sample.env true true "/home".toList Sample.cleanDoc fresh).2.numericValueChanged = true :=
  ⟨(C14_idempotence Sample.env "/home".toList Sample.cleanDoc (by decide) (by decide)).1,
    (C14_idempotence Sample.env "/home".toList Sample.cleanDoc (by decide) (by decide)).2.2 []
      { tokens := Sample.cleanDoc.drop 2, hasError := false, atEndDocument := false }
      (by decide) (by decide) (by decide),
    by decide⟩

/-! ## The structure of the output -/

theorem readElementTextAux_content (acc : QString) (toks : List Token) (text : QString)
    (rest : List Token)
    (h : QXmlStreamReader.readElementTextAux acc toks = (text, rest, false)) :
    ∃ content name, toks = content ++ Token.EndElement name :: rest ∧
      ∀ t ∈ content, t.isText = true := by
  induction toks generalizing acc with
  | nil => simp [QXmlStreamReader.readElementTextAux] at h
  | cons t toks ih =>
    cases t with
    | EndElement name =>
      simp only [QXmlStreamReader.readElementTextAux, Prod.mk.injEq, and_true] at h
      exact ⟨[], name, by rw [h.2]; rfl, by simp⟩
    | Characters c =>
      rw [QXmlStreamReader.readElementTextAux] at h
      obtain ⟨content, name, h1, h2⟩ := ih _ h
      refine ⟨Token.Characters c :: content, name, by rw [h1]; rfl, ?_⟩
      intro t ht
      rcases List.mem_cons.mp ht with ht | ht
      · rw [ht]; rfl
      · exact h2 t ht
    | EntityReference n c =>
      rw [QXmlStreamReader.readElementTextAux] at h
      obtain ⟨content, name, h1, h2⟩ := ih _ h
      refine ⟨Token.EntityReference n c :: content, name, by rw [h1]; rfl, ?_⟩
      intro t ht
      rcases List.mem_cons.mp ht with ht | ht
      · rw [ht]; rfl
      · exact h2 t ht
    | ProcessingInstruction n c =>
      rw [QXmlStreamReader.readElementTextAux] at h
      obtain ⟨content, name, h1, h2⟩ := ih _ h
      refine ⟨Token.ProcessingInstruction n c :: content, name, by rw [h1]; rfl, ?_⟩
      intro t ht
      rcases List.mem_cons.mp ht with ht | ht
      · rw [ht]; rfl
      · exact h2 t ht
    | Comment c =>
      rw [QXmlStreamReader.readElementTextAux] at h
      obtain ⟨content, name, h1, h2⟩ := ih _ h
      refine ⟨Token.Comment c :: content, name, by rw [h1]; rfl, ?_⟩
      intro t ht
      rcases List.mem_cons.mp ht with ht | ht
      · rw [ht]; rfl
      · exact h2 t ht
    | _ => simp [QXmlStreamReader.readElementTextAux] at h

/-- What a handler that takes a `property` leaves: the reader past the
element, and the attributes as they are, at most one text and the end tag
written. -/
theorem propertyHandlers_shape (env : Env) (attrs : List QXmlStreamAttribute)
    (s t : MltXmlChecker) (h : propertyHandlers env attrs s = some t) :
    t.xml = s.xml.readElementText.2 ∧
      ∃ text : Option QString,
        t.newXml = s.newXml ++ attrs.map Out.attribute ++
          (text.map Out.characters).toList ++ [Out.endElement] := by
  rcases propertyHandlers_cases env attrs s t h with
    h | h | ⟨_, ⟨_, h⟩ | h | h | h | h | h | h | h⟩
  all_goals
    simp only [readMltService_eq, checkNumericProperty_eq, fixWebVfxPath_eq,
      readResourceProperty_flat,
      fixShotcutHashProperty_eq, readShotcutHashProperty_eq, fixShotcutDetailProperty_eq,
      fixShotcutCaptionProperty_eq, fixAudioIndexProperty_eq, fixVideoIndexProperty_eq] at h
    split at h
    · cases h
      first
        | exact ⟨rfl, some _, rfl⟩
        | exact ⟨rfl, none, by simp⟩
    · cases h

theorem closesAsText_iff (acc : QString) (toks : List Token) :
    (QXmlStreamReader.readElementTextAux acc toks).2.2 = false ↔
      Spec.closesAsText toks = true := by
  induction toks generalizing acc with
  | nil => simp [QXmlStreamReader.readElementTextAux, Spec.closesAsText]
  | cons t toks ih =>
    cases t <;>
      first
        | exact ih _
        | simp [QXmlStreamReader.readElementTextAux, Spec.closesAsText]

theorem isText_ne (t : Token) (h : t.isText = true) :
    t ≠ Token.EndDocument ∧ t ≠ Token.Invalid := by
  refine ⟨?_, ?_⟩ <;> intro hh <;> rw [hh] at h <;> cases h

theorem split_at_endDocument (chunk l1 after rest : List Token)
    (h : l1 ++ Token.EndDocument :: after = chunk ++ rest)
    (hc : ∀ t ∈ chunk, t ≠ Token.EndDocument) :
    ∃ b, l1 = chunk ++ b ∧ rest = b ++ Token.EndDocument :: after := by
  induction chunk generalizing l1 with
  | nil => exact ⟨l1, rfl, h.symm⟩
  | cons c chunk ih =>
    cases l1 with
    | nil =>
      simp only [List.nil_append, List.cons_append, List.cons.injEq] at h
      exact absurd h.1.symm (hc c (List.mem_cons_self _ _))
    | cons a l1 =>
      simp only [List.cons_append, List.cons.injEq] at h
      obtain ⟨b, h1, h2⟩ := ih l1 h.2 (fun t ht => hc t (List.mem_cons_of_mem _ ht))
      exact ⟨b, by rw [h.1, h1]; rfl, h2⟩

/-- One pass of the loop on a token that is neither the end of the document
nor malformed, a consumed `property` holding character data up to its end
tag: the pass raises no error, reads the token and, if a handler consumes the
element, its content, and what it writes preserves the structure of what it
read. -/
theorem complete_pass (env : Env) (s : MltXmlChecker) (tok : Token) (rest : List Token)
    (hErr : s.xml.hasError = false) (hDoc : s.xml.atEndDocument = false)
    (hTok : s.xml.tokens = tok :: rest)
    (h1 : tok ≠ Token.EndDocument) (h2 : tok ≠ Token.Invalid)
    (hText : consumesNext env s = true → Spec.closesAsText rest = true) :
    ∃ content written left, rest = content ++ left ∧
      (∀ t ∈ content, t ≠ Token.EndDocument ∧ t ≠ Token.Invalid) ∧
      (readMltStep env s).xml = { tokens := left, hasError := false, atEndDocument := false } ∧
      (readMltStep env s).newXml = s.newXml ++ written ∧
      ∀ toks out, Spec.Preserved toks out →
        Spec.Preserved (tok :: (content ++ toks)) (written ++ out) := by
  have hxml : ∀ toks : List Token,
      ({ s.xml with tokens := toks } : QXmlStreamReader) =
        { tokens := toks, hasError := false, atEndDocument := false } := by
    intro toks
    show ({ tokens := toks, hasError := s.xml.hasError, atEndDocument := s.xml.atEndDocument } :
      QXmlStreamReader) = _
    rw [hErr, hDoc]
  have hk := passKind_readMltStep env s hErr
  generalize readMltStep env s = t at hk
  cases hk with
  | exhausted hTok1 => rw [hTok] at hTok1; cases hTok1
  | invalid rest1 hTok1 =>
    rw [hTok] at hTok1
    cases hTok1
    exact absurd rfl h2
  | forward tok1 rest1 e hTok1 he =>
    rw [hTok] at hTok1
    cases hTok1
    refine ⟨[], [e], rest, rfl, by simp, ?_, rfl,
      fun toks out h => Spec.Preserved.forwarded tok e toks out he h⟩
    show s.xml.readNext.2 = _
    cases tok <;>
      first
        | exact absurd rfl h1
        | (cases he <;> simp [QXmlStreamReader.readNext, hErr, hTok, hDoc])
  | copy ns element attrs rest1 hTok1 hc =>
    rw [hTok] at hTok1
    cases hTok1
    obtain ⟨written, hw, hlen, hall⟩ :=
      checkInAndOutPoints_out env attrs (s.openElement ns element rest)
    refine ⟨[], Out.startElementNS ns element :: written, rest, rfl, by simp, ?_, ?_,
      fun toks out h => Spec.Preserved.copied ns element attrs written toks out hlen hall h⟩
    · rw [checkInAndOutPoints_xml, ← hxml rest]
      rfl
    · rw [hw]
      simp [openElement, write, advance]
  | handled ns attrs rest1 t hTok1 hh =>
    rw [hTok] at hTok1
    cases hTok1
    obtain ⟨hx, text, hout⟩ := propertyHandlers_shape env attrs _ t hh
    rw [readElementText_openProperty s ns rest hErr] at hx
    have hcons : consumesNext env s = true := by
      unfold consumesNext
      rw [hTok]
      show (decide ("property".toList = "property".toList) &&
        (propertyHandlers env attrs (s.openProperty ns rest)).isSome) = true
      rw [hh]
      rfl
    have herr : (QXmlStreamReader.readElementTextAux [] rest).2.2 = false :=
      (closesAsText_iff [] rest).mpr (hText hcons)
    obtain ⟨content, name, hrest, htext⟩ :=
      readElementTextAux_content [] rest (QXmlStreamReader.readElementTextAux [] rest).1
        (QXmlStreamReader.readElementTextAux [] rest).2.1
        (by rw [← herr])
    refine ⟨content ++ [Token.EndElement name],
      Out.startElementNS ns "property".toList :: attrs.map Out.attribute ++
        (text.map Out.characters).toList ++ [Out.endElement],
      (QXmlStreamReader.readElementTextAux [] rest).2.1, ?_, ?_, ?_, ?_, ?_⟩
    · conv_lhs => rw [hrest]
      simp
    · intro x hx1
      rcases List.mem_append.mp hx1 with hx1 | hx1
      · exact isText_ne x (htext x hx1)
      · rw [List.mem_singleton.mp hx1]
        exact ⟨by simp, by simp⟩
    · rw [hx, herr, hDoc]
    · rw [hout]
      simp [openProperty, write, advance]
    · intro toks out h
      have h3 := Spec.Preserved.consumed ns attrs content name text toks out htext h
      simpa using h3
  | close name rest1 hTok1 =>
    rw [hTok] at hTok1
    cases hTok1
    refine ⟨[], [Out.endElement], rest, rfl, by simp, ?_, ?_,
      fun toks out h => Spec.Preserved.closed name toks out h⟩
    · split
      · rw [(frame_endMltClass_write env (s.advance rest)).2.1, ← hxml rest]
        rfl
      · rw [← hxml rest]
        rfl
    · split
      · rw [(frame_endMltClass_write env (s.advance rest)).1]
        rfl
      · rfl

/-- The loop of `readMlt` on tokens that reach the end of the document with
no malformed input on the way, every consumed `property` holding character
data up to its end tag: the loop raises no error, reads the tokens up to and
with the end of the document, and what it writes preserves their
structure. -/
theorem complete_loop (env : Env) (n : Nat) (s : MltXmlChecker) (before after : List Token)
    (hErr : s.xml.hasError = false) (hDoc : s.xml.atEndDocument = false)
    (hTok : s.xml.tokens = before ++ Token.EndDocument :: after)
    (hEnd : Token.EndDocument ∉ before) (hValid : Token.Invalid ∉ before)
    (hFuel : before.length < n)
    (hText : ∀ u ∈ passes env n s, consumesNext env u = true →
      Spec.closesAsText u.xml.tokens.tail = true) :
    (readMltLoop env n s).xml = { tokens := after, hasError := false, atEndDocument := true } ∧
      ∃ added, (readMltLoop env n s).newXml = s.newXml ++ added ∧
        Spec.Preserved (before ++ [Token.EndDocument]) added := by
  induction n generalizing s before with
  | zero => exact absurd hFuel (Nat.not_lt_zero _)
  | succ n ih =>
    have hAt : s.xml.atEnd = false := by simp [QXmlStreamReader.atEnd, hErr, hDoc]
    have hp : passes env (n + 1) s = s :: passes env n (readMltStep env s) := by
      simp [passes, hAt]
    rw [readMltLoop_succ env n s hAt]
    cases before with
    | nil =>
      have hx : (readMltStep env s).xml =
          { tokens := after, hasError := false, atEndDocument := true } := by
        simp [readMltStep, QXmlStreamReader.readNext, hErr, hTok, write]
      have ho : (readMltStep env s).newXml = s.newXml ++ [Out.endDocument] := by
        simp [readMltStep, QXmlStreamReader.readNext, hErr, hTok, write]
      have hend : (readMltStep env s).xml.atEnd = true := by
        rw [hx]
        rfl
      rw [readMltLoop_of_atEnd env n _ hend]
      exact ⟨hx, [Out.endDocument], ho,
        Spec.Preserved.forwarded Token.EndDocument Out.endDocument [] [] rfl Spec.Preserved.done⟩
    | cons tok before =>
      have h1 : tok ≠ Token.EndDocument := fun h => hEnd (by rw [h]; exact List.mem_cons_self _ _)
      have h2 : tok ≠ Token.Invalid := fun h => hValid (by rw [h]; exact List.mem_cons_self _ _)
      have hTok1 : s.xml.tokens = tok :: (before ++ Token.EndDocument :: after) := hTok
      obtain ⟨content, written, left, hrest, hcontent, hx, ho, hpres⟩ :=
        complete_pass env s tok _ hErr hDoc hTok1 h1 h2
          (fun hc => by
            have h3 := hText s (by rw [hp]; exact List.mem_cons_self _ _) hc
            rw [hTok1] at h3
            exact h3)
      obtain ⟨b, hb1, hb2⟩ := split_at_endDocument content before after left hrest
        (fun t ht => (hcontent t ht).1)
      have hErr1 : (readMltStep env s).xml.hasError = false := by rw [hx]
      have hDoc1 : (readMltStep env s).xml.atEndDocument = false := by rw [hx]
      have hTok2 : (readMltStep env s).xml.tokens = b ++ Token.EndDocument :: after := by
        rw [hx]
        exact hb2
      have hEnd1 : Token.EndDocument ∉ b := fun h =>
        hEnd (List.mem_cons_of_mem _ (by rw [hb1]; exact List.mem_append_right _ h))
      have hValid1 : Token.Invalid ∉ b := fun h =>
        hValid (List.mem_cons_of_mem _ (by rw [hb1]; exact List.mem_append_right _ h))
      have hFuel1 : b.length < n := by
        have hlen : b.length ≤ before.length := by
          rw [hb1, List.length_append]
          exact Nat.le_add_left _ _
        have hlt : before.length + 1 < n + 1 := hFuel
        omega
      obtain ⟨hfin, added, hadded, hp2⟩ :=
        ih (readMltStep env s) b hErr1 hDoc1 hTok2 hEnd1 hValid1 hFuel1
          (fun u hu hc => hText u (by rw [hp]; exact List.mem_cons_of_mem _ hu) hc)
      refine ⟨hfin, written ++ added, ?_, ?_⟩
      · rw [hadded, ho, List.append_assoc]
      · have h4 := hpres (b ++ [Token.EndDocument]) added hp2
        rw [hb1]
        simpa using h4

theorem readNextStartElementLoop_prolog (prolog : List Token) (ns name : QString)
    (attrs : List QXmlStreamAttribute) (rest : List Token) (n : Nat)
    (hProlog : ∀ t ∈ prolog, t.isProlog = true) (hFuel : prolog.length < n) :
    QXmlStreamReader.readNextStartElementLoop n
        { tokens := prolog ++ Token.StartElement ns name attrs :: rest, hasError := false,
          atEndDocument := false } =
      (some (name, attrs), { tokens := rest, hasError := false, atEndDocument := false }) := by
  induction prolog generalizing n with
  | nil =>
    cases n with
    | zero => exact absurd hFuel (Nat.not_lt_zero _)
    | succ n => rfl
  | cons t prolog ih =>
    cases n with
    | zero => exact absurd hFuel (Nat.not_lt_zero _)
    | succ n =>
      have ht := hProlog t (List.mem_cons_self _ _)
      have hrec := ih n (fun x hx => hProlog x (List.mem_cons_of_mem _ hx))
        (Nat.lt_of_succ_lt_succ hFuel)
      cases t <;>
        first
          | (simp only [List.cons_append, QXmlStreamReader.readNextStartElementLoop,
              QXmlStreamReader.readNext]
             exact hrec)
          | cases ht

theorem readNextStartElement_prolog (prolog : List Token) (ns name : QString)
    (attrs : List QXmlStreamAttribute) (rest : List Token)
    (hProlog : ∀ t ∈ prolog, t.isProlog = true) :
    QXmlStreamReader.readNextStartElement
        { tokens := prolog ++ Token.StartElement ns name attrs :: rest, hasError := false,
          atEndDocument := false } =
      (some (name, attrs), { tokens := rest, hasError := false, atEndDocument := false }) := by
  unfold QXmlStreamReader.readNextStartElement
  apply readNextStartElementLoop_prolog prolog ns name attrs rest _ hProlog
  simp only [List.length_append, List.length_cons]
  omega

theorem elementEvents_forward (tok : Token) (e : Out) (toks : List Token) (out : List Out)
    (he : forward tok = some e) :
    Spec.elementEvents (tok :: toks) = Spec.elementEvents toks ∧
      Spec.writtenEvents (e :: out) = Spec.writtenEvents out := by
  cases tok <;> cases he <;> exact ⟨rfl, rfl⟩

theorem writtenEvents_attributes (written out : List Out)
    (h : ∀ e ∈ written, e.isAttribute = true) :
    Spec.writtenEvents (written ++ out) = Spec.writtenEvents out := by
  induction written with
  | nil => rfl
  | cons e written ih =>
    have he := h e (List.mem_cons_self _ _)
    have ht := ih (fun x hx => h x (List.mem_cons_of_mem _ hx))
    cases e <;> first | exact ht | cases he

theorem elementEvents_text (content toks : List Token)
    (h : ∀ t ∈ content, t.isText = true) :
    Spec.elementEvents (content ++ toks) = Spec.elementEvents toks := by
  induction content with
  | nil => rfl
  | cons t content ih =>
    have he := h t (List.mem_cons_self _ _)
    have ht := ih (fun x hx => h x (List.mem_cons_of_mem _ hx))
    cases t <;> first | exact ht | cases he

theorem writtenEvents_preserved (toks : List Token) (out : List Out)
    (h : Spec.Preserved toks out) : Spec.writtenEvents out = Spec.elementEvents toks := by
  induction h with
  | done => rfl
  | forwarded tok e toks out he _ ih =>
    rw [(elementEvents_forward tok e toks out he).1, (elementEvents_forward tok e toks out he).2, ih]
  | copied ns name attrs written toks out _ hall _ ih =>
    show some (ns, name) :: Spec.writtenEvents (written ++ out) =
      some (ns, name) :: Spec.elementEvents toks
    rw [writtenEvents_attributes written out hall, ih]
  | closed name toks out _ ih =>
    show none :: Spec.writtenEvents out = none :: Spec.elementEvents toks
    rw [ih]
  | consumed ns attrs content name text toks out htext _ ih =>
    show some (ns, "property".toList) ::
        Spec.writtenEvents (attrs.map Out.attribute ++ (text.map Out.characters).toList ++
          Out.endElement :: out) =
      some (ns, "property".toList) ::
        Spec.elementEvents (content ++ Token.EndElement name :: toks)
    rw [elementEvents_text content _ htext, List.append_assoc,
      writtenEvents_attributes (attrs.map Out.attribute) _ (by simp [Out.isAttribute])]
    cases text with
    | none =>
      show some (ns, "property".toList) :: none :: Spec.writtenEvents out =
        some (ns, "property".toList) :: none :: Spec.elementEvents toks
      rw [ih]
    | some x =>
      show some (ns, "property".toList) :: none :: Spec.writtenEvents out =
        some (ns, "property".toList) :: none :: Spec.elementEvents toks
      rw [ih]

/-- C19. Structure preservation.  The document is a prolog, the start tag
of the root `mlt`, the tokens `before` under the root, and the end of the
document; it is well formed as far as the run can tell (no malformed input
among `before`), and every `property` that a handler consumes holds
character data up to its end tag.  Then `check` succeeds and reads the
document to its end, and what the loop of `readMlt` writes preserves the
whole structure of `before` and the end of the document: every token that
is neither a start nor an end element is forwarded as it is and in order,
every start element is written with its name and one call for each of
its attributes, every closing tag is written as such, and a consumed
`property` is written as its start tag, its attributes, at most one text and
exactly one closing tag; so the start and end element events written are those of the
input, with the same names, in the same order.  Around them `check` writes
the start of the document and of the root before, and one more call to end
the element and the document after. -/
theorem C19_structure_preserved (env : Env) (canonicalPath : QString) (s : MltXmlChecker)
    (prolog before after : List Token) (ns : QString) (attrs : List QXmlStreamAttribute)
    (hProlog : ∀ t ∈ prolog, t.isProlog = true)
    (hEnd : Token.EndDocument ∉ before) (hValid : Token.Invalid ∉ before)
    (hText :
      ∀ u ∈ passesOf env
          (enterMlt env canonicalPath attrs
            { tokens := before ++ Token.EndDocument :: after, hasError := false,
              atEndDocument := false } s),
        consumesNext env u = true → Spec.closesAsText u.xml.tokens.tail = true) :
    (check env true true canonicalPath
        (prolog ++ Token.StartElement ns "mlt".toList attrs ::
          (before ++ Token.EndDocument :: after)) s).1 = true ∧
      (check env true true canonicalPath
        (prolog ++ Token.StartElement ns "mlt".toList attrs ::
          (before ++ Token.EndDocument :: after)) s).2.xml =
        { tokens := after, hasError := false, atEndDocument := true } ∧
      ∃ added,
        (check env true true canonicalPath
          (prolog ++ Token.StartElement ns "mlt".toList attrs ::
            (before ++ Token.EndDocument :: after)) s).2.newXml =
          [Out.startDocument, Out.characters "\n".toList, Out.startElement "mlt".toList] ++
            (attrs.filter (fun a => decide (env.toUpper a.name ≠ "LC_NUMERIC".toList))).map
              Out.attribute ++ added ++ [Out.endElement, Out.endDocument] ∧
        Spec.Preserved (before ++ [Token.EndDocument]) added ∧
        Spec.writtenEvents added = Spec.elementEvents (before ++ [Token.EndDocument]) := by
  have hRoot := readNextStartElement_prolog prolog ns "mlt".toList attrs
    (before ++ Token.EndDocument :: after) hProlog
  have hcheck := check_mlt env canonicalPath _ s attrs _ hRoot
  have hX1 := check_fst env true true canonicalPath
    (prolog ++ Token.StartElement ns "mlt".toList attrs ::
      (before ++ Token.EndDocument :: after)) s
  generalize check env true true canonicalPath
    (prolog ++ Token.StartElement ns "mlt".toList attrs ::
      (before ++ Token.EndDocument :: after)) s = X at hcheck hX1 ⊢
  generalize hS : enterMlt env canonicalPath attrs
    { tokens := before ++ Token.EndDocument :: after, hasError := false,
      atEndDocument := false } s = S0 at hcheck hText
  have hx : S0.loopStart.xml =
      { tokens := before ++ Token.EndDocument :: after, hasError := false,
        atEndDocument := false } := by
    rw [← hS, enterMlt_eq]
    rfl
  have hloop : readMlt env S0 =
      readMltLoop env (S0.xml.tokens.length + 1) S0.loopStart := rfl
  have hlen : S0.xml.tokens.length + 1 =
      (before ++ Token.EndDocument :: after).length + 1 := by
    have : S0.xml = S0.loopStart.xml := rfl
    rw [this, hx]
  obtain ⟨hfin, added, hadded, hpres⟩ :=
    complete_loop env (S0.xml.tokens.length + 1) S0.loopStart before after
      (by rw [hx]) (by rw [hx]) (by rw [hx]) hEnd hValid
      (by rw [hlen]; simp only [List.length_append, List.length_cons]; omega) hText
  rw [← hloop] at hfin hadded
  have hXxml : X.2.xml = (readMlt env S0).xml := by rw [hcheck]; rfl
  refine ⟨?_, ?_, added, ?_, hpres, writtenEvents_preserved _ _ hpres⟩
  · rw [hX1, hXxml, hfin]
    rfl
  · rw [hXxml, hfin]
  · rw [hcheck]
    show ((readMlt env S0).newXml ++ [Out.endElement]) ++ [Out.endDocument] = _
    rw [hadded, ← hS, enterMlt_eq]
    simp [loopStart]

/-- C19, witness: the run on a document with a comment, a producer with four
properties, character data between the elements and a playlist with an entry
succeeds and reads the document to its end, and the element events written
are the start of `mlt`, the events of the tokens under the root in their
order, and the end written by `check` after the loop. -/
theorem C19_structure_preserved_witness :
    ((check Sample.env true true "/home".toList
        ([Token.StartDocument "1.0".toList false] ++ Token.StartElement [] "mlt".toList [] ::
          (Sample.structuredBody ++ Token.EndDocument :: [])) fresh).1 = true ∧
      (check Sample.env true true "/home".toList
        ([Token.StartDocument "1.0".toList false] ++ Token.StartElement [] "mlt".toList [] ::
          (Sample.structuredBody ++ Token.EndDocument :: [])) fresh).2.xml =
        { tokens := [], hasError := false, atEndDocument := true } ∧
      ∃ added,
        (check Sample.env true true "/home".toList
          ([Token.StartDocument "1.0".toList false] ++ Token.StartElement [] "mlt".toList [] ::
            (Sample.structuredBody ++ Token.EndDocument :: [])) fresh).2.newXml =
          [Out.startDocument, Out.characters "\n".toList, Out.startElement "mlt".toList] ++
            added ++ [Out.endElement, Out.endDocument] ∧
        Spec.Preserved (Sample.structuredBody ++ [Token.EndDocument]) added ∧
        Spec.writtenEvents added =
          Spec.elementEvents (Sample.structuredBody ++ [Token.EndDocument])) ∧
    Spec.writtenEvents
        (check Sample.env true true "/home".toList
          ([Token.StartDocument "1.0".toList false] ++ Token.StartElement [] "mlt".toList [] ::
            (Sample.structuredBody ++ Token.EndDocument :: [])) fresh).2.newXml =
      some ([], "mlt".toList) :: Spec.elementEvents Sample.structuredBody ++ [none] :=
  ⟨C19_structure_preserved Sample.env "/home".toList fresh
      [Token.StartDocument "1.0".toList false] Sample.structuredBody [] [] []
      (by decide) (by decide) (by decide) (by decide),
    by decide⟩

/-! ## The handlers and the current class

The handlers behind the test on `mlt_class` see the class that `readMlt`
tracks in that variable: the class whose start tag was read last, and none
once the end tag of any class was read since. -/

theorem propertyHandlers_class (env : Env) (attrs : List QXmlStreamAttribute)
    (s t : MltXmlChecker) (h : propertyHandlers env attrs s = some t) :
    t.mlt_class = s.mlt_class := by
  rcases propertyHandlers_cases env attrs s t h with
    h | h | ⟨_, ⟨_, h⟩ | h | h | h | h | h | h | h⟩
  all_goals
    simp only [readMltService_eq, checkNumericProperty_eq, fixWebVfxPath_eq,
      readResourceProperty_flat,
      fixShotcutHashProperty_eq, readShotcutHashProperty_eq, fixShotcutDetailProperty_eq,
      fixShotcutCaptionProperty_eq, fixAudioIndexProperty_eq, fixVideoIndexProperty_eq] at h
    split at h
    · cases h
      rfl
    · cases h

theorem readMltStep_class (env : Env) (s : MltXmlChecker) (tok : Token) (rest : List Token)
    (hErr : s.xml.hasError = false) (hTok : s.xml.tokens = tok :: rest) :
    (readMltStep env s).mlt_class = classAfter s.mlt_class tok := by
  have hk := passKind_readMltStep env s hErr
  generalize readMltStep env s = t at hk
  cases hk with
  | exhausted hTok1 => rw [hTok] at hTok1; cases hTok1
  | invalid rest1 hTok1 =>
    rw [hTok] at hTok1
    cases hTok1
    rfl
  | forward tok1 rest1 e hTok1 he =>
    rw [hTok] at hTok1
    cases hTok1
    cases tok <;> first | rfl | cases he
  | copy ns element attrs rest1 hTok1 hc =>
    rw [hTok] at hTok1
    cases hTok1
    rw [(checkInAndOutPoints_keeps env attrs (s.openElement ns element rest)).2.2.2.2.1]
    rfl
  | handled ns attrs rest1 t hTok1 hh =>
    rw [hTok] at hTok1
    cases hTok1
    rw [propertyHandlers_class env attrs _ t hh]
    rfl
  | close name rest1 hTok1 =>
    rw [hTok] at hTok1
    cases hTok1
    show (if isMltClass name = true then endMltClass env (s.advance rest)
      else s.advance rest).mlt_class = if isMltClass name = true then [] else s.mlt_class
    split
    · exact (endMltClass_keeps env (s.advance rest)).2.2.2.2.2.2.2.2.2
    · rfl

/-- A `property` that is neither the service name nor a numeric property,
read while the current class is none of producer, filter and transition, is
taken by no handler: the pass is the generic copy, which writes the start tag
and the attributes, leaves the content to the passes that follow, and leaves
the context and the modified flag as they were. -/
theorem readMltStep_outside (env : Env) (s : MltXmlChecker) (ns : QString)
    (attrs : List QXmlStreamAttribute) (rest : List Token)
    (hErr : s.xml.hasError = false)
    (hTok : s.xml.tokens = Token.StartElement ns "property".toList attrs :: rest)
    (h1 : attrValue attrs "name".toList ≠ "mlt_service".toList)
    (h2 : attrValue attrs "name".toList ≠ "length".toList)
    (h3 : attrValue attrs "name".toList ≠ "geometry".toList)
    (hClass : ¬ (s.mlt_class = "producer".toList ∨ s.mlt_class = "filter".toList ∨
      s.mlt_class = "transition".toList)) :
    readMltStep env s = checkInAndOutPoints env attrs (s.openProperty ns rest) ∧
      (readMltStep env s).newXml =
        s.newXml ++ Out.startElementNS ns "property".toList :: attrs.map (Spec.copied env) ∧
      (readMltStep env s).xml.tokens = rest ∧
      (readMltStep env s).service = s.service ∧
      (readMltStep env s).isCorrected = s.isCorrected := by
  have hstep : readMltStep env s = checkInAndOutPoints env attrs (s.openProperty ns rest) := by
    rw [readMltStep_property env s ns attrs rest hErr hTok]
    cases hp : propertyHandlers env attrs (s.openProperty ns rest) with
    | none => rfl
    | some t =>
      have hc := propertyHandlers_scope env attrs _ t hp h1 h2 h3
      have hc2 : s.mlt_class = "filter".toList ∨ s.mlt_class = "transition".toList ∨
          s.mlt_class = "producer".toList := hc
      rcases hc2 with h | h | h
      · exact absurd (Or.inr (Or.inl h)) hClass
      · exact absurd (Or.inr (Or.inr h)) hClass
      · exact absurd (Or.inl h) hClass
  obtain ⟨_, _, h5, h6, _⟩ := checkInAndOutPoints_keeps env attrs (s.openProperty ns rest)
  refine ⟨hstep, ?_, ?_, ?_, ?_⟩
  · rw [hstep, checkInAndOutPoints_newXml]
    simp [openProperty, write, advance]
  · rw [hstep, checkInAndOutPoints_xml]
    rfl
  · rw [hstep, h6]
    rfl
  · rw [hstep, h5]
    rfl

/-- C6, as stated, fails, in two ways.  The resolved path does not stay in
the context: with the row of `/missing/a.mp4` replaced by `/found/b.mp4` in
the model, the `resource` property of a producer with text `/missing/a.mp4`
resolves to `/missing/a.mp4`, and after the handler the tracked resource path
is `/found/b.mp4`.  And the handler is not reached everywhere inside a
producer: with the same model, in a producer after the end of a filter nested
in it, no class is current, and the `resource` property with text
`/missing/a.mp4` is written with its text unchanged, nothing is stored in the
context and the modified flag stays clear. -/
theorem C6_counterexample :
    ((Sample.replacedAfter 2).xml.hasError = false ∧
      (Sample.replacedAfter 2).xml.tokens.head? =
        some (Token.StartElement [] "property".toList [Sample.attr "name" "resource"]) ∧
      (Sample.replacedAfter 2).mlt_class = "producer".toList ∧
      (Sample.replacedAfter 2).service.name = "avformat".toList ∧
      resolvedPath Sample.env (Sample.replacedAfter 2).basePath
        (elementText (Sample.replacedAfter 2).xml.tokens.tail) = "/missing/a.mp4".toList ∧
      (readMltStep Sample.env (Sample.replacedAfter 2)).service.resource = "/found/b.mp4".toList ∧
      (readMltStep Sample.env (Sample.replacedAfter 2)).service.resource ≠
        resolvedPath Sample.env (Sample.replacedAfter 2).basePath
          (elementText (Sample.replacedAfter 2).xml.tokens.tail)) ∧
    ((Sample.afterNestedReplacedAt (Sample.property "resource" "/missing/a.mp4") 4).xml.tokens =
        Sample.property "resource" "/missing/a.mp4" ++ [Token.EndElement "producer".toList] ∧
      (Sample.afterNestedReplacedAt (Sample.property "resource" "/missing/a.mp4") 4).mlt_class =
        [] ∧
      Spec.replacementFor
          (Sample.afterNestedReplacedAt (Sample.property "resource" "/missing/a.mp4")
            4).unlinkedFilesModel
          "/missing/a.mp4".toList =
        some { text := "/found/b.mp4".toList, hash := "H2".toList } ∧
      (Sample.afterNestedReplacedAt (Sample.property "resource" "/missing/a.mp4") 7).newXml =
        (Sample.afterNestedReplacedAt (Sample.property "resource" "/missing/a.mp4") 4).newXml ++
          [Out.startElementNS [] "property".toList, Out.attribute (Sample.attr "name" "resource"),
            Out.characters "/missing/a.mp4".toList, Out.endElement] ∧
      (Sample.afterNestedReplacedAt (Sample.property "resource" "/missing/a.mp4")
        7).service.resource = [] ∧
      (Sample.afterNestedReplacedAt (Sample.property "resource" "/missing/a.mp4")
        7).service.newHash = [] ∧
      (Sample.afterNestedReplacedAt (Sample.property "resource" "/missing/a.mp4")
        7).isCorrected = false) := by
  decide

/-- C6, as amended. A `property` named resource, src, filename, luma,
luma.resource, composite.luma or producer.resource is taken by the resource
handler when it is read while the current class is producer, filter or
transition (and it is not taken by the webvfx handler): its text is resolved
against the base directory of the document when relative; if the model has a
row whose original path is that resolved path and whose replacement is
non-empty, the replacement path of the first such row is emitted instead of
the text, it becomes the tracked resource path, the pending replacement path
and hash are set from that row, and the modified flag is set; otherwise the
text is emitted unchanged, the resolved path becomes the tracked resource
path, and the pending replacement fields and the modified flag are left as
they were.  Read while the current class is none of the three, the property
is taken by no handler: the generic copy writes it, and the context and the
modified flag are left as they were.  The current class is the class whose
start tag was read last, and none once the end tag of any class was read
since. -/
theorem C6_resource_property (env : Env) (s : MltXmlChecker) (ns : QString)
    (attrs : List QXmlStreamAttribute) (rest : List Token)
    (hErr : s.xml.hasError = false)
    (hTok : s.xml.tokens = Token.StartElement ns "property".toList attrs :: rest)
    (hName : attrValue attrs "name".toList = "resource".toList ∨
      attrValue attrs "name".toList = "src".toList ∨
      attrValue attrs "name".toList = "filename".toList ∨
      attrValue attrs "name".toList = "luma".toList ∨
      attrValue attrs "name".toList = "luma.resource".toList ∨
      attrValue attrs "name".toList = "composite.luma".toList ∨
      attrValue attrs "name".toList = "producer.resource".toList) :
    ((s.mlt_class = "producer".toList ∨ s.mlt_class = "filter".toList ∨
          s.mlt_class = "transition".toList) →
        ¬ (s.service.name = "webvfx".toList ∧
          attrValue attrs "name".toList = "resource".toList) →
        (∀ r,
          Spec.replacementFor s.unlinkedFilesModel
              (resolvedPath env s.basePath (elementText rest)) = some r →
            (readMltStep env s).newXml =
                s.newXml ++ Out.startElementNS ns "property".toList :: attrs.map Out.attribute ++
                  [Out.characters r.text, Out.endElement] ∧
              (readMltStep env s).service.resource = env.fileInfoPath r.text ∧
              (readMltStep env s).service.newDetail = r.text ∧
              (readMltStep env s).service.newHash = r.hash ∧
              (readMltStep env s).isCorrected = true) ∧
        (Spec.replacementFor s.unlinkedFilesModel
              (resolvedPath env s.basePath (elementText rest)) = none →
            (readMltStep env s).newXml =
                s.newXml ++ Out.startElementNS ns "property".toList :: attrs.map Out.attribute ++
                  [Out.characters (elementText rest), Out.endElement] ∧
              (readMltStep env s).service.resource =
                resolvedPath env s.basePath (elementText rest) ∧
              (readMltStep env s).service.newDetail = s.service.newDetail ∧
              (readMltStep env s).service.newHash = s.service.newHash ∧
              (readMltStep env s).isCorrected = s.isCorrected)) ∧
      (¬ (s.mlt_class = "producer".toList ∨ s.mlt_class = "filter".toList ∨
            s.mlt_class = "transition".toList) →
        readMltStep env s = checkInAndOutPoints env attrs (s.openProperty ns rest) ∧
          (readMltStep env s).newXml =
            s.newXml ++ Out.startElementNS ns "property".toList :: attrs.map (Spec.copied env) ∧
          (readMltStep env s).xml.tokens = rest ∧
          (readMltStep env s).service = s.service ∧
          (readMltStep env s).isCorrected = s.isCorrected) ∧
      ∀ (u : MltXmlChecker) (tok : Token) (toks : List Token),
        u.xml.hasError = false → u.xml.tokens = tok :: toks →
        (readMltStep env u).mlt_class = classAfter u.mlt_class tok := by
  have h1 : attrValue attrs "name".toList ≠ "mlt_service".toList := by
    rcases hName with h | h | h | h | h | h | h <;> rw [h] <;> decide
  have h2 : attrValue attrs "name".toList ≠ "length".toList := by
    rcases hName with h | h | h | h | h | h | h <;> rw [h] <;> decide
  have h3 : attrValue attrs "name".toList ≠ "geometry".toList := by
    rcases hName with h | h | h | h | h | h | h <;> rw [h] <;> decide
  exact
    ⟨fun hClass hWeb => readMltStep_resource env s ns attrs rest hErr hTok hClass hName hWeb,
      fun hClass => readMltStep_outside env s ns attrs rest hErr hTok h1 h2 h3 hClass,
      fun u tok toks hu ht => readMltStep_class env u tok toks hu ht⟩

/-- C6, as amended, witness: in a producer, with `/missing/a.mp4` replaced by
`/found/b.mp4` (hash `H2`) in the model, the `resource` property is emitted
as `/found/b.mp4`, which becomes the tracked path, the pending path and hash
are set and the document is flagged; with an empty model the text is emitted
unchanged, the resolved path is tracked and nothing else is touched; and
after the end of a nested filter the property is left to the generic copy,
which writes its start tag and its attribute and stores nothing. -/
theorem C6_resource_property_witness :
    ((readMltStep Sample.env (Sample.replacedAfter 2)).newXml =
        (Sample.replacedAfter 2).newXml ++
          [Out.startElementNS [] "property".toList, Out.attribute (Sample.attr "name" "resource"),
            Out.characters "/found/b.mp4".toList, Out.endElement] ∧
      (readMltStep Sample.env (Sample.replacedAfter 2)).service.resource = "/found/b.mp4".toList ∧
      (readMltStep Sample.env (Sample.replacedAfter 2)).service.newDetail = "/found/b.mp4".toList ∧
      (readMltStep Sample.env (Sample.replacedAfter 2)).service.newHash = "H2".toList ∧
      (readMltStep Sample.env (Sample.replacedAfter 2)).isCorrected = true) ∧
    ((readMltStep Sample.env (Sample.unreplacedAfter 2)).newXml =
        (Sample.unreplacedAfter 2).newXml ++
          [Out.startElementNS [] "property".toList, Out.attribute (Sample.attr "name" "resource"),
            Out.characters "/missing/a.mp4".toList, Out.endElement] ∧
      (readMltStep Sample.env (Sample.unreplacedAfter 2)).service.resource =
        "/missing/a.mp4".toList ∧
      (readMltStep Sample.env (Sample.unreplacedAfter 2)).service.newDetail = [] ∧
      (readMltStep Sample.env (Sample.unreplacedAfter 2)).service.newHash = [] ∧
      (readMltStep Sample.env (Sample.unreplacedAfter 2)).isCorrected = false) ∧
    ((readMltStep Sample.env
          (Sample.afterNestedReplacedAt (Sample.property "resource" "/missing/a.mp4") 4)).newXml =
        (Sample.afterNestedReplacedAt (Sample.property "resource" "/missing/a.mp4") 4).newXml ++
          [Out.startElementNS [] "property".toList,
            Out.attribute (Sample.attr "name" "resource")] ∧
      (readMltStep Sample.env
          (Sample.afterNestedReplacedAt (Sample.property "resource" "/missing/a.mp4")
            4)).service.resource = [] ∧
      (readMltStep Sample.env
          (Sample.afterNestedReplacedAt (Sample.property "resource" "/missing/a.mp4")
            4)).isCorrected = false) := by
  have h1 :=
    ((C6_resource_property Sample.env (Sample.replacedAfter 2) []
      [Sample.attr "name" "resource"] (Sample.replacedAfter 2).xml.tokens.tail (by decide)
      (by decide) (Or.inl (by decide))).1 (Or.inl (by decide)) (by decide)).1
      { text := "/found/b.mp4".toList, hash := "H2".toList } (by decide)
  have h2 :=
    ((C6_resource_property Sample.env (Sample.unreplacedAfter 2) []
      [Sample.attr "name" "resource"] (Sample.unreplacedAfter 2).xml.tokens.tail (by decide)
      (by decide) (Or.inl (by decide))).1 (Or.inl (by decide)) (by decide)).2 (by decide)
  have h3 :=
    (C6_resource_property Sample.env
      (Sample.afterNestedReplacedAt (Sample.property "resource" "/missing/a.mp4") 4) []
      [Sample.attr "name" "resource"]
      (Sample.afterNestedReplacedAt (Sample.property "resource" "/missing/a.mp4")
        4).xml.tokens.tail
      (by decide) (by decide) (Or.inl (by decide))).2.1 (by decide)
  exact
    ⟨⟨h1.1.trans (by decide), h1.2.1.trans (by decide), h1.2.2.1, h1.2.2.2.1, h1.2.2.2.2⟩,
      ⟨h2.1.trans (by decide), h2.2.1.trans (by decide), h2.2.2.1.trans (by decide),
        h2.2.2.2.1.trans (by decide), h2.2.2.2.2.trans (by decide)⟩,
      ⟨h3.2.1.trans (by decide), (congrArg (fun p => p.resource) h3.2.2.2.1).trans (by decide),
        h3.2.2.2.2.trans (by decide)⟩⟩

/-- C8, as stated, fails: in a producer, after the end of a filter nested in
it, no class is current; the hash property with text `H1` that stands there,
before the end tag of the producer, is taken by no handler, and its text is
not stored as the tracked hash. -/
theorem C8_counterexample :
    (Sample.afterNestedAt (Sample.property "shotcut:hash" "H1") 4).xml.hasError = false ∧
      (Sample.afterNestedAt (Sample.property "shotcut:hash" "H1") 4).xml.tokens =
        Sample.property "shotcut:hash" "H1" ++ [Token.EndElement "producer".toList] ∧
      (Sample.afterNestedAt (Sample.property "shotcut:hash" "H1") 4).mlt_class = [] ∧
      elementText (Sample.afterNestedAt (Sample.property "shotcut:hash" "H1") 4).xml.tokens.tail =
        "H1".toList ∧
      (readMltStep Sample.env
        (Sample.afterNestedAt (Sample.property "shotcut:hash" "H1") 4)).service.hash = [] ∧
      (Sample.afterNestedAt (Sample.property "shotcut:hash" "H1") 7).xml.tokens =
        [Token.EndElement "producer".toList] ∧
      (Sample.afterNestedAt (Sample.property "shotcut:hash" "H1") 7).service.hash = [] := by
  decide

/-- C8, as amended. Hash handlers: a property named by
`kShotcutHashProperty` read while the current class is producer, filter or
transition is emitted with its attributes verbatim and with the pending
replacement hash as its text when that hash is non-empty, with its own text
otherwise; in both cases its own text becomes the tracked hash.  Read while
the current class is none of the three, the property is taken by no handler:
the generic copy writes it, and the context is left as it was.  The current
class is the class whose start tag was read last, and none once the end tag
of any class was read since.  (The constant is taken not to be one of the
names handled before.) -/
theorem C8_hash_property (env : Env) (s : MltXmlChecker) (ns : QString)
    (attrs : List QXmlStreamAttribute) (rest : List Token)
    (hErr : s.xml.hasError = false)
    (hTok : s.xml.tokens = Token.StartElement ns "property".toList attrs :: rest)
    (hName : attrValue attrs "name".toList = env.kShotcutHashProperty)
    (hConst : env.kShotcutHashProperty ∉ handledBefore) :
    ((s.mlt_class = "producer".toList ∨ s.mlt_class = "filter".toList ∨
          s.mlt_class = "transition".toList) →
        (readMltStep env s).newXml =
            s.newXml ++ Out.startElementNS ns "property".toList :: attrs.map Out.attribute ++
              [Out.characters
                  (if s.service.newHash ≠ [] then s.service.newHash else elementText rest),
                Out.endElement] ∧
          (readMltStep env s).service.hash = elementText rest) ∧
      (¬ (s.mlt_class = "producer".toList ∨ s.mlt_class = "filter".toList ∨
            s.mlt_class = "transition".toList) →
        readMltStep env s = checkInAndOutPoints env attrs (s.openProperty ns rest) ∧
          (readMltStep env s).newXml =
            s.newXml ++ Out.startElementNS ns "property".toList :: attrs.map (Spec.copied env) ∧
          (readMltStep env s).xml.tokens = rest ∧
          (readMltStep env s).service = s.service ∧
          (readMltStep env s).isCorrected = s.isCorrected) ∧
      ∀ (u : MltXmlChecker) (tok : Token) (toks : List Token),
        u.xml.hasError = false → u.xml.tokens = tok :: toks →
        (readMltStep env u).mlt_class = classAfter u.mlt_class tok := by
  have h1 : attrValue attrs "name".toList ≠ "mlt_service".toList := by
    intro h
    apply hConst
    rw [← hName, h]
    decide
  have h2 : attrValue attrs "name".toList ≠ "length".toList := by
    intro h
    apply hConst
    rw [← hName, h]
    decide
  have h3 : attrValue attrs "name".toList ≠ "geometry".toList := by
    intro h
    apply hConst
    rw [← hName, h]
    decide
  exact
    ⟨fun hClass => readMltStep_hash env s ns attrs rest hErr hTok hClass hName hConst,
      fun hClass => readMltStep_outside env s ns attrs rest hErr hTok h1 h2 h3 hClass,
      fun u tok toks hu ht => readMltStep_class env u tok toks hu ht⟩

/-- C8, as amended, witness: in a producer, with the pending hash `H2` the
hash property with text `H1` is emitted as `H2`; without a pending hash it is
emitted as `H1`; both times `H1` becomes the tracked hash; and after the end
of a nested filter the property is left to the generic copy, which writes its
start tag and its attribute and stores no hash. -/
theorem C8_hash_property_witness :
    ((readMltStep Sample.env (Sample.replacedAfter 3)).newXml =
        (Sample.replacedAfter 3).newXml ++
          [Out.startElementNS [] "property".toList,
            Out.attribute (Sample.attr "name" "shotcut:hash"),
            Out.characters "H2".toList, Out.endElement] ∧
      (readMltStep Sample.env (Sample.replacedAfter 3)).service.hash = "H1".toList) ∧
    ((readMltStep Sample.env (Sample.unreplacedAfter 3)).newXml =
        (Sample.unreplacedAfter 3).newXml ++
          [Out.startElementNS [] "property".toList,
            Out.attribute (Sample.attr "name" "shotcut:hash"),
            Out.characters "H1".toList, Out.endElement] ∧
      (readMltStep Sample.env (Sample.unreplacedAfter 3)).service.hash = "H1".toList) ∧
    ((readMltStep Sample.env
          (Sample.afterNestedAt (Sample.property "shotcut:hash" "H1") 4)).newXml =
        (Sample.afterNestedAt (Sample.property "shotcut:hash" "H1") 4).newXml ++
          [Out.startElementNS [] "property".toList,
            Out.attribute (Sample.attr "name" "shotcut:hash")] ∧
      (readMltStep Sample.env
          (Sample.afterNestedAt (Sample.property "shotcut:hash" "H1") 4)).service.hash = []) := by
  have h1 :=
    (C8_hash_property Sample.env (Sample.replacedAfter 3) [] [Sample.attr "name" "shotcut:hash"]
      (Sample.replacedAfter 3).xml.tokens.tail (by decide) (by decide) (by decide)
      (by decide)).1 (Or.inl (by decide))
  have h2 :=
    (C8_hash_property Sample.env (Sample.unreplacedAfter 3) [] [Sample.attr "name" "shotcut:hash"]
      (Sample.unreplacedAfter 3).xml.tokens.tail (by decide) (by decide) (by decide)
      (by decide)).1 (Or.inl (by decide))
  have h3 :=
    (C8_hash_property Sample.env (Sample.afterNestedAt (Sample.property "shotcut:hash" "H1") 4) []
      [Sample.attr "name" "shotcut:hash"]
      (Sample.afterNestedAt (Sample.property "shotcut:hash" "H1") 4).xml.tokens.tail
      (by decide) (by decide) (by decide) (by decide)).2.1 (by decide)
  exact
    ⟨⟨h1.1.trans (by decide), h1.2.trans (by decide)⟩,
      ⟨h2.1.trans (by decide), h2.2.trans (by decide)⟩,
      ⟨h3.2.1.trans (by decide), (congrArg (fun p => p.hash) h3.2.2.2.1).trans (by decide)⟩⟩

/-- C15, as stated, fails: in a producer, after the end of a filter nested
in it, no class is current; there the service name `webvfx` is read, and the
`resource` property after it, the absolute path
`/old/share/shotcut/plugins/x.html`, which does not start with the
application directory `/usr` and which the relocation would turn into
`/usr/share/shotcut/plugins/x.html`, is written with its text unchanged, and
the modified flag stays clear. -/
theorem C15_counterexample :
    (Sample.afterNestedAt
        (Sample.property "mlt_service" "webvfx" ++
          Sample.property "resource" "/old/share/shotcut/plugins/x.html") 5).xml.tokens =
        Sample.property "resource" "/old/share/shotcut/plugins/x.html" ++
          [Token.EndElement "producer".toList] ∧
      (Sample.afterNestedAt
        (Sample.property "mlt_service" "webvfx" ++
          Sample.property "resource" "/old/share/shotcut/plugins/x.html") 5).service.name =
        "webvfx".toList ∧
      (Sample.afterNestedAt
        (Sample.property "mlt_service" "webvfx" ++
          Sample.property "resource" "/old/share/shotcut/plugins/x.html") 5).mlt_class = [] ∧
      relocated Sample.env "/old/share/shotcut/plugins/x.html".toList =
        some "/usr/share/shotcut/plugins/x.html".toList ∧
      (Sample.afterNestedAt
        (Sample.property "mlt_service" "webvfx" ++
          Sample.property "resource" "/old/share/shotcut/plugins/x.html") 8).newXml =
        (Sample.afterNestedAt
          (Sample.property "mlt_service" "webvfx" ++
            Sample.property "resource" "/old/share/shotcut/plugins/x.html") 5).newXml ++
          [Out.startElementNS [] "property".toList, Out.attribute (Sample.attr "name" "resource"),
            Out.characters "/old/share/shotcut/plugins/x.html".toList, Out.endElement] ∧
      (Sample.afterNestedAt
        (Sample.property "mlt_service" "webvfx" ++
          Sample.property "resource" "/old/share/shotcut/plugins/x.html") 8).isCorrected =
        false := by
  decide

/-- C15, as amended. Bundled-resource relocation: when the current service
name is `webvfx` and the property is `resource`, read while the current class
is producer, filter or transition: if the original path is absolute, does not
start with the application directory and contains `/share/shotcut/`, the
emitted path is the application directory followed by the original path from
its first occurrence of `/share/shotcut/` onward, and the modified flag is
set; in every other case the original text is emitted unchanged and the flag
is left as it was; the emitted path is never one the relocation applies to:
relocating it again changes nothing.  Read while the current class is none
of the three, the property is taken by no handler: the generic copy writes
it, and the modified flag is left as it was.  The current class is the class
whose start tag was read last, and none once the end tag of any class was
read since. -/
theorem C15_webvfx_relocation (env : Env) (s : MltXmlChecker) (ns : QString)
    (attrs : List QXmlStreamAttribute) (rest : List Token)
    (hErr : s.xml.hasError = false)
    (hTok : s.xml.tokens = Token.StartElement ns "property".toList attrs :: rest)
    (hService : s.service.name = "webvfx".toList)
    (hName : attrValue attrs "name".toList = "resource".toList) :
    ((s.mlt_class = "producer".toList ∨ s.mlt_class = "filter".toList ∨
          s.mlt_class = "transition".toList) →
        ∃ emitted,
          (readMltStep env s).newXml =
              s.newXml ++ Out.startElementNS ns "property".toList :: attrs.map Out.attribute ++
                [Out.characters emitted, Out.endElement] ∧
            (Spec.Relocatable env (elementText rest) →
              (∃ i, Spec.FirstOccursAt "/share/shotcut/".toList (elementText rest) i ∧
                emitted = env.appPath ++ (elementText rest).drop i) ∧
              (readMltStep env s).isCorrected = true) ∧
            (¬ Spec.Relocatable env (elementText rest) →
              emitted = elementText rest ∧ (readMltStep env s).isCorrected = s.isCorrected) ∧
            ¬ Spec.Relocatable env emitted) ∧
      (¬ (s.mlt_class = "producer".toList ∨ s.mlt_class = "filter".toList ∨
            s.mlt_class = "transition".toList) →
        readMltStep env s = checkInAndOutPoints env attrs (s.openProperty ns rest) ∧
          (readMltStep env s).newXml =
            s.newXml ++ Out.startElementNS ns "property".toList :: attrs.map (Spec.copied env) ∧
          (readMltStep env s).xml.tokens = rest ∧
          (readMltStep env s).service = s.service ∧
          (readMltStep env s).isCorrected = s.isCorrected) ∧
      ∀ (u : MltXmlChecker) (tok : Token) (toks : List Token),
        u.xml.hasError = false → u.xml.tokens = tok :: toks →
        (readMltStep env u).mlt_class = classAfter u.mlt_class tok := by
  have h1 : attrValue attrs "name".toList ≠ "mlt_service".toList := by rw [hName]; decide
  have h2 : attrValue attrs "name".toList ≠ "length".toList := by rw [hName]; decide
  have h3 : attrValue attrs "name".toList ≠ "geometry".toList := by rw [hName]; decide
  exact
    ⟨fun hClass => readMltStep_webvfx env s ns attrs rest hErr hTok hClass hService hName,
      fun hClass => readMltStep_outside env s ns attrs rest hErr hTok h1 h2 h3 hClass,
      fun u tok toks hu ht => readMltStep_class env u tok toks hu ht⟩

/-- C15, as amended, witness: in a `webvfx` producer the resource
`/old/share/shotcut/plugins/x.html` is emitted as
`/usr/share/shotcut/plugins/x.html`, a path the relocation does not apply to,
and the document is flagged; after the end of a nested filter the same
property is left to the generic copy, which writes the start tag with
its attribute and leaves the flag clear. -/
theorem C15_webvfx_relocation_witness :
    ((∃ emitted,
        (readMltStep Sample.env (Sample.webvfxAfter "producer" 2)).newXml =
            (Sample.webvfxAfter "producer" 2).newXml ++
              Out.startElementNS [] "property".toList ::
                [Sample.attr "name" "resource"].map Out.attribute ++
              [Out.characters emitted, Out.endElement] ∧
          ¬ Spec.Relocatable Sample.env emitted) ∧
      (readMltStep Sample.env (Sample.webvfxAfter "producer" 2)).newXml =
        (Sample.webvfxAfter "producer" 2).newXml ++
          [Out.startElementNS [] "property".toList, Out.attribute (Sample.attr "name" "resource"),
            Out.characters "/usr/share/shotcut/plugins/x.html".toList, Out.endElement] ∧
      (readMltStep Sample.env (Sample.webvfxAfter "producer" 2)).isCorrected = true) ∧
    ((readMltStep Sample.env
          (Sample.afterNestedAt
            (Sample.property "mlt_service" "webvfx" ++
              Sample.property "resource" "/old/share/shotcut/plugins/x.html") 5)).newXml =
        (Sample.afterNestedAt
          (Sample.property "mlt_service" "webvfx" ++
            Sample.property "resource" "/old/share/shotcut/plugins/x.html") 5).newXml ++
          [Out.startElementNS [] "property".toList,
            Out.attribute (Sample.attr "name" "resource")] ∧
      (readMltStep Sample.env
          (Sample.afterNestedAt
            (Sample.property "mlt_service" "webvfx" ++
              Sample.property "resource" "/old/share/shotcut/plugins/x.html") 5)).isCorrected =
        false) := by
  have h1 :=
    (C15_webvfx_relocation Sample.env (Sample.webvfxAfter "producer" 2) []
      [Sample.attr "name" "resource"] (Sample.webvfxAfter "producer" 2).xml.tokens.tail
      (by decide) (by decide) (by decide) (by decide)).1 (Or.inl (by decide))
  have h2 :=
    (C15_webvfx_relocation Sample.env
      (Sample.afterNestedAt
        (Sample.property "mlt_service" "webvfx" ++
          Sample.property "resource" "/old/share/shotcut/plugins/x.html") 5) []
      [Sample.attr "name" "resource"]
      (Sample.afterNestedAt
        (Sample.property "mlt_service" "webvfx" ++
          Sample.property "resource" "/old/share/shotcut/plugins/x.html") 5).xml.tokens.tail
      (by decide) (by decide) (by decide) (by decide)).2.1 (by decide)
  exact
    ⟨⟨h1.elim (fun emitted h => ⟨emitted, h.1, h.2.2.2⟩), by decide, by decide⟩,
      ⟨h2.2.1.trans (by decide), h2.2.2.2.2.trans (by decide)⟩⟩

end MltXmlChecker
